import Mathlib

/-!
OpenNIC driver: ring and buffer lifecycle engine.

A shallow embedding of `onic_netdev.c` / `onic.h`.  C structures become Lean
structures with the same field names, pointers to kernel objects become
natural-number identities, and calls into collaborators (register programming,
page pool, NAPI, the host stack) are recorded in an event trace.  Values the
hardware or the kernel decide (writeback slots, completion entries, allocation
outcomes, program verdicts) are inputs of the embedded functions.

Machine integers: `u16` ring indices are reduced modulo `65536` wherever the C
code stores them; `int` temporaries are `Int`.  The `u64` statistics counters
are unbounded naturals.
-/

namespace Onic

/-! ## Ring index arithmetic -/

/-- The generic ring `struct onic_ring`.  `wb` records whether the writeback
pointer is set (non-NULL); `count`, `next_to_use`, `next_to_clean` are `u16`
and `color` is `u8` in the source. -/
structure onic_ring where
  count : Nat
  wb : Bool
  next_to_use : Nat
  next_to_clean : Nat
  color : Nat
deriving DecidableEq

/-- Usable capacity: `(ring->wb) ? (ring->count - 1) : ring->count`, returned
as `u16`. -/
def onic_ring_get_real_count (ring : onic_ring) : Nat :=
  if ring.wb then (ring.count + 65535) % 65536 else ring.count % 65536

/-- Ring-full test: `((ring->next_to_use + 1) % real_count) == ring->next_to_clean`. -/
def onic_ring_full (ring : onic_ring) : Bool :=
  (ring.next_to_use + 1) % onic_ring_get_real_count ring == ring.next_to_clean

/-- Head advance: `ring->next_to_use = (ring->next_to_use + 1) % real_count`,
stored in a `u16`. -/
def onic_ring_increment_head (ring : onic_ring) : onic_ring :=
  { ring with
    next_to_use := ((ring.next_to_use + 1) % onic_ring_get_real_count ring) % 65536 }

/-- Tail advance: `ring->next_to_clean = (ring->next_to_clean + 1) % real_count`,
stored in a `u16`. -/
def onic_ring_increment_tail (ring : onic_ring) : onic_ring :=
  { ring with
    next_to_clean := ((ring.next_to_clean + 1) % onic_ring_get_real_count ring) % 65536 }

/-- Number of outstanding entries `(next_to_use - next_to_clean) mod N`. -/
def ring_outstanding (ring : onic_ring) : Int :=
  ((ring.next_to_use : Int) - (ring.next_to_clean : Int)) %
    (onic_ring_get_real_count ring : Int)

/-- The two index operations a ring user performs. -/
inductive ring_op where
  | enqueue
  | reclaim
deriving DecidableEq

/-- One guarded operation: the head advances only when the ring is not full,
the tail only when an entry is outstanding.  `none` when the guard fails. -/
def ring_step (ring : onic_ring) : ring_op → Option onic_ring
  | ring_op.enqueue =>
      if onic_ring_full ring then none else some (onic_ring_increment_head ring)
  | ring_op.reclaim =>
      if ring.next_to_use = ring.next_to_clean then none
      else some (onic_ring_increment_tail ring)

/-- A sequence of guarded operations; `none` as soon as one guard fails. -/
def ring_run (ring : onic_ring) : List ring_op → Option onic_ring
  | [] => some ring
  | op :: ops =>
      match ring_step ring op with
      | none => none
      | some ring' => ring_run ring' ops

/-- Entries enqueued minus entries reclaimed along a sequence. -/
def net_enqueued : List ring_op → Int
  | [] => 0
  | ring_op.enqueue :: ops => net_enqueued ops + 1
  | ring_op.reclaim :: ops => net_enqueued ops - 1

/-! ## Collaborator calls -/

/-- Calls into collaborators, in program order.  Pointers are identities. -/
inductive event where
  | dma_unmap_single (dma_addr len : Nat)
  | dev_kfree_skb_any (skb : Nat)
  | dev_kfree_skb (skb : Nat)
  | kfree_skb (skb : Nat)
  | xdp_return_frame_rx_napi (xdpf : Nat)
  | kfree (ptr : Nat)
  | dma_sync_single_for_device (dma_addr len : Nat)
  | onic_set_tx_head (qid idx : Nat)
  | onic_set_rx_head (qid idx : Nat)
  | onic_set_completion_tail (qid idx rearm : Nat)
  | onic_qdma_clear_error_interrupt
  | page_pool_put_page (pg : Nat)
  | napi_gro_receive (skb len qid : Nat)
  | napi_complete
  | napi_reschedule
  | napi_complete_done (work : Nat)
deriving DecidableEq

/-! ## Transmit queue -/

/-- Buffer tag `ONIC_SKB_BUFF`. -/
def ONIC_SKB_BUFF : Nat := 0

/-- Buffer tag `ONIC_XDP_FRAME`. -/
def ONIC_XDP_FRAME : Nat := 1

/-- The in-flight record `struct onic_tx_buffer`.  The C union of the two
payload pointers (`skb`, `xdpf`) is the single pointer value `ptr`. -/
structure onic_tx_buffer where
  ptr : Nat
  dma_addr : Nat
  len : Nat
  type : Nat
  time_stamp : Nat
deriving DecidableEq, Inhabited

/-- Modelled from the spec: `struct qdma_h2c_st_desc` (transmit descriptor) is
declared in qdma_access/qdma_register.h, which is not among the sources; the
three fields the driver writes are kept, as naturals. -/
structure qdma_h2c_st_desc where
  metadata : Nat
  len : Nat
  src_addr : Nat
deriving DecidableEq, Inhabited

/-- Modelled from the spec: `struct qdma_wb_stat` (transmit writeback/status
slot, unpacked by `qdma_unpack_wb_stat`) is declared outside the sources; it
carries the indices the device publishes. -/
structure qdma_wb_stat where
  pidx : Nat
  cidx : Nat
deriving DecidableEq, Inhabited

/-- The transmit queue `struct onic_tx_queue`.  `state` is the 32-bit bitmap,
`desc` the descriptor memory `ring->desc` as unpacked records. -/
structure onic_tx_queue where
  qid : Nat
  state : Nat
  buffer : List onic_tx_buffer
  ring : onic_ring
  desc : List qdma_h2c_st_desc
deriving DecidableEq

/-- Kernel `test_bit(nr, addr)`. -/
def test_bit (nr : Nat) (addr : Nat) : Bool := (addr / 2 ^ nr) % 2 == 1

/-- Kernel `set_bit(nr, addr)`. -/
def set_bit (nr : Nat) (addr : Nat) : Nat :=
  if test_bit nr addr then addr else addr + 2 ^ nr

/-- Kernel `clear_bit(nr, addr)`. -/
def clear_bit (nr : Nat) (addr : Nat) : Nat :=
  if test_bit nr addr then addr - 2 ^ nr else addr

/-- Release of one in-flight record in `onic_tx_clean`: the mapping is undone,
then the payload is released according to `buf->type`. -/
def tx_buffer_release (buf : onic_tx_buffer) : List event :=
  event.dma_unmap_single buf.dma_addr buf.len ::
    (if buf.type = ONIC_SKB_BUFF then [event.dev_kfree_skb_any buf.ptr]
     else if buf.type = ONIC_XDP_FRAME then
       [event.xdp_return_frame_rx_napi buf.ptr, event.kfree buf.ptr]
     else [])

/-- The loop `for (i = 0; i < work; ++i)` of `onic_tx_clean`. -/
def onic_tx_clean_loop : Nat → onic_tx_queue → onic_tx_queue × List event
  | 0, q => (q, [])
  | n + 1, q =>
      let buf := q.buffer.getD q.ring.next_to_clean default
      let r := onic_tx_clean_loop n { q with ring := onic_ring_increment_tail q.ring }
      (r.1, tx_buffer_release buf ++ r.2)

/-- `onic_tx_clean`.  `wb` is the writeback slot as unpacked from `ring->wb`
at the time of the call. -/
def onic_tx_clean (q : onic_tx_queue) (wb : qdma_wb_stat) : onic_tx_queue × List event :=
  if test_bit 0 q.state then (q, [])
  else
    let q := { q with state := set_bit 0 q.state }
    if wb.cidx = q.ring.next_to_clean then
      ({ q with state := clear_bit 0 q.state }, [])
    else
      let work : Int := (wb.cidx : Int) - (q.ring.next_to_clean : Int)
      let work : Int :=
        if work < 0 then work + (onic_ring_get_real_count q.ring : Int) else work
      let r := onic_tx_clean_loop work.toNat q
      ({ r.1 with state := clear_bit 0 r.1.state }, r.2)

/-- Counters of `struct rtnl_link_stats64` the driver maintains. -/
structure rtnl_link_stats64 where
  rx_packets : Nat
  rx_bytes : Nat
  tx_packets : Nat
  tx_bytes : Nat
  tx_dropped : Nat
  tx_errors : Nat
deriving DecidableEq, Inhabited

/-- The fast-path counters `struct onic_xdp_stats`. -/
structure onic_xdp_stats where
  xdp_passed : Nat
  xdp_dropped : Nat
  xdp_redirected : Nat
  xdp_txed : Nat
  xdp_tx_dropped : Nat
  xdp_tx_errors : Nat
deriving DecidableEq, Inhabited

/-- The parts of `struct onic_private` the data path uses.  `tx_queue` is the
pointer array (`none` is NULL), `prog` the attached program. -/
structure onic_private where
  num_tx_queues : Nat
  netdev_stats : rtnl_link_stats64
  tx_queue : List (Option onic_tx_queue)
  prog : Option Nat
  xdp_stats : onic_xdp_stats
deriving DecidableEq

/-- A host packet `struct sk_buff`: identity, `len`, `queue_mapping`. -/
structure sk_buff where
  id : Nat
  len : Nat
  queue_mapping : Nat
deriving DecidableEq

/-- Minimum Ethernet frame length `ETH_ZLEN`. -/
def ETH_ZLEN : Nat := 60

/-- Status `NETDEV_TX_OK`. -/
def NETDEV_TX_OK : Nat := 0

/-- Status `NETDEV_TX_BUSY`. -/
def NETDEV_TX_BUSY : Nat := 16

/-- Kernel `skb_put_padto(skb, len)`: a packet shorter than `len` is padded to
`len`; when the padding cannot be allocated the packet is freed and a negative
code (`-ENOMEM`) is returned. -/
def skb_put_padto (skb : sk_buff) (len : Nat) (pad_ok : Bool) : Int × sk_buff :=
  if len ≤ skb.len then (0, skb)
  else if pad_ok then (0, { skb with len := len })
  else (-12, skb)

/-- What the kernel and the device decide during one `onic_xmit_frame`: the
writeback slot read by the cleanup, whether padding succeeds, the address
`dma_map_single` returns (`none` when `dma_mapping_error` holds), and
`netdev_xmit_more()`. -/
structure xmit_env where
  wb : qdma_wb_stat
  pad_ok : Bool
  dma_map : Option Nat
  xmit_more : Bool

/-- Outcome of `onic_xmit_frame`: returned status, driver state, calls made. -/
structure xmit_result where
  ret : Nat
  priv : onic_private
  trace : List event
deriving DecidableEq

/-- `onic_xmit_frame`.  `none` when `priv->tx_queue[qid]` is NULL (the C code
dereferences it). -/
def onic_xmit_frame (priv : onic_private) (skb : sk_buff) (env : xmit_env) :
    Option xmit_result :=
  let qid := skb.queue_mapping
  match priv.tx_queue.getD qid none with
  | none => none
  | some q0 =>
    let c := onic_tx_clean q0 env.wb
    let q := c.1
    if onic_ring_full q.ring then
      some { ret := NETDEV_TX_BUSY
             priv := { priv with tx_queue := priv.tx_queue.set qid (some q) }
             trace := c.2 }
    else
      let p := skb_put_padto skb ETH_ZLEN env.pad_ok
      let skb := p.2
      let tr_pad := if p.1 < 0 then [event.kfree_skb skb.id] else []
      match env.dma_map with
      | none =>
        some { ret := NETDEV_TX_OK
               priv := { priv with
                 tx_queue := priv.tx_queue.set qid (some q)
                 netdev_stats := { priv.netdev_stats with
                   tx_dropped := priv.netdev_stats.tx_dropped + 1
                   tx_errors := priv.netdev_stats.tx_errors + 1 } }
               trace := c.2 ++ tr_pad ++ [event.dev_kfree_skb skb.id] }
      | some dma_addr =>
        let desc : qdma_h2c_st_desc :=
          { len := skb.len, src_addr := dma_addr, metadata := skb.len }
        let old := q.buffer.getD q.ring.next_to_use default
        let q := { q with
          desc := q.desc.set q.ring.next_to_use desc
          buffer := q.buffer.set q.ring.next_to_use
            { old with ptr := skb.id, dma_addr := dma_addr, len := skb.len,
                       type := ONIC_SKB_BUFF } }
        let stats := { priv.netdev_stats with
          tx_packets := priv.netdev_stats.tx_packets + 1
          tx_bytes := priv.netdev_stats.tx_bytes + skb.len }
        let q := { q with ring := onic_ring_increment_head q.ring }
        let tr_head :=
          if onic_ring_full q.ring || !env.xmit_more then
            [event.onic_set_tx_head qid q.ring.next_to_use]
          else []
        some { ret := NETDEV_TX_OK
               priv := { priv with
                 tx_queue := priv.tx_queue.set qid (some q)
                 netdev_stats := stats }
               trace := c.2 ++ tr_pad ++ tr_head }

/-! ## Fast-path transmit -/

/-- An outbound frame `struct xdp_frame`: the address of the frame record, the
page it lies over, its length and headroom. -/
structure xdp_frame where
  ptr : Nat
  pg : Nat
  len : Nat
  headroom : Nat
deriving DecidableEq

/-- Outcome of `onic_xmit_xdp_frame`: returned code, driver state, calls made. -/
structure xdp_xmit_result where
  ret : Int
  priv : onic_private
  trace : List event
deriving DecidableEq

/-- `onic_xmit_xdp_frame`.  `wb` is the writeback slot read by the cleanup,
`page_dma` the value of `page_pool_get_dma_addr(page)`, `sizeof_xdpf` is
`sizeof(*xdpf)`.  `none` when `priv->tx_queue[qid]` is NULL. -/
def onic_xmit_xdp_frame (priv : onic_private) (xdpf : xdp_frame) (rx_qid : Nat)
    (wb : qdma_wb_stat) (xmit_more : Bool) (page_dma sizeof_xdpf : Nat) :
    Option xdp_xmit_result :=
  let qid := rx_qid % 65536
  match priv.tx_queue.getD qid none with
  | none => none
  | some q0 =>
    let c := onic_tx_clean q0 wb
    let q := c.1
    if onic_ring_full q.ring then
      some { ret := -1
             priv := { priv with tx_queue := priv.tx_queue.set qid (some q) }
             trace := c.2 ++ [event.xdp_return_frame_rx_napi xdpf.ptr] }
    else
      let dma_addr := page_dma + sizeof_xdpf + xdpf.headroom
      let desc : qdma_h2c_st_desc :=
        { len := xdpf.len, src_addr := dma_addr, metadata := xdpf.len }
      let old := q.buffer.getD q.ring.next_to_use default
      let q := { q with
        desc := q.desc.set q.ring.next_to_use desc
        buffer := q.buffer.set q.ring.next_to_use
          { old with ptr := xdpf.ptr, dma_addr := dma_addr, len := xdpf.len,
                     type := ONIC_XDP_FRAME } }
      let q := { q with ring := onic_ring_increment_head q.ring }
      let tr_head :=
        if onic_ring_full q.ring || !xmit_more then
          [event.onic_set_tx_head qid q.ring.next_to_use]
        else []
      some { ret := 0
             priv := { priv with
               tx_queue := priv.tx_queue.set qid (some q)
               xdp_stats := { priv.xdp_stats with
                 xdp_txed := priv.xdp_stats.xdp_txed + 1 } }
             trace := c.2 ++ [event.dma_sync_single_for_device dma_addr xdpf.len] ++ tr_head }

/-! ## Receive queue -/

/-- The receive buffer `struct onic_rx_buffer`. -/
structure onic_rx_buffer where
  pg : Nat
  offset : Nat
  time_stamp : Nat
deriving DecidableEq, Inhabited

/-- The receive queue `struct onic_rx_queue`: buffers, descriptor ring and
completion ring. -/
structure onic_rx_queue where
  qid : Nat
  buffer : List onic_rx_buffer
  desc_ring : onic_ring
  cmpl_ring : onic_ring
deriving DecidableEq

/-- Modelled from the spec: `struct qdma_c2h_cmpl` (completion entry, unpacked
by `qdma_unpack_c2h_cmpl`) is declared outside the sources; the spec gives its
fields as packet id, length, error flag and color. -/
structure qdma_c2h_cmpl where
  pkt_id : Nat
  pkt_len : Nat
  err : Nat
  color : Nat
deriving DecidableEq, Inhabited

/-- Modelled from the spec: `struct qdma_c2h_cmpl_stat` (completion status
slot) is declared outside the sources; it carries the hardware-published
producer index and color. -/
structure qdma_c2h_cmpl_stat where
  pidx : Nat
  cidx : Nat
  color : Nat
  intr_state : Nat
deriving DecidableEq, Inhabited

/-- Refill granularity `ONIC_RX_DESC_STEP`. -/
def ONIC_RX_DESC_STEP : Nat := 256

/-- `onic_rx_high_watermark`: posted descriptors below half the granularity. -/
def onic_rx_high_watermark (q : onic_rx_queue) : Bool :=
  let ring := q.desc_ring
  let unused : Int := (ring.next_to_use : Int) - (ring.next_to_clean : Int)
  let unused : Int :=
    if ring.next_to_use < ring.next_to_clean then
      unused + (onic_ring_get_real_count ring : Int)
    else unused
  decide (unused < ((ONIC_RX_DESC_STEP / 2 : Nat) : Int))

/-- `onic_rx_refill`: `next_to_use += ONIC_RX_DESC_STEP` in `u16`, then
`next_to_use %= real_count`, then the head is published. -/
def onic_rx_refill (q : onic_rx_queue) : onic_rx_queue × List event :=
  let ring := q.desc_ring
  let ntu := (ring.next_to_use + ONIC_RX_DESC_STEP) % 65536
  let ntu := (ntu % onic_ring_get_real_count ring) % 65536
  ({ q with desc_ring := { ring with next_to_use := ntu } },
   [event.onic_set_rx_head q.qid ntu])

/-- Kernel verdict `XDP_PASS`. -/
def XDP_PASS : Int := 2

/-- Kernel verdict `XDP_TX`. -/
def XDP_TX : Int := 3

/-- Kernel verdict `XDP_REDIRECT`. -/
def XDP_REDIRECT : Int := 4

/-- Driver verdict `ONIC_XDP_PASS`. -/
def ONIC_XDP_PASS : Nat := 0

/-- Driver verdict `ONIC_XDP_TX`. -/
def ONIC_XDP_TX : Nat := 1

/-- Driver verdict `ONIC_XDP_REDIRECT`. -/
def ONIC_XDP_REDIRECT : Nat := 2

/-- Driver verdict `ONIC_XDP_DROP`. -/
def ONIC_XDP_DROP : Nat := 3

/-- `onic_run_xdp`, given the value `act` that `bpf_prog_run_xdp` returned. -/
def onic_run_xdp (act : Int) : Nat :=
  if act = XDP_PASS then ONIC_XDP_PASS
  else if act = XDP_TX then ONIC_XDP_TX
  else if act = XDP_REDIRECT then ONIC_XDP_REDIRECT
  else ONIC_XDP_DROP

/-- What the device and the kernel decide during one `onic_rx_poll`.  The
per-iteration answers are indexed by the value of `work` at the start of the
iteration.
* `tx_wb i`: writeback slot of transmit queue `i` read by the initial cleanup;
* `cmpl_entry p`: completion entry at ring position `p`;
* `cmpl_stat`: the completion status slot;
* `xdp_act`: value returned by `bpf_prog_run_xdp`;
* `skb_alloc`: `napi_alloc_skb` (`none` is NULL);
* `gro_rv`: value returned by `napi_gro_receive`;
* `xdpf_alloc`: `kzalloc` of the frame record (`none` is NULL);
* `xdp_update_ret`: value returned by `xdp_update_frame_from_buff`;
* `xdp_tx_wb`, `xmit_more`, `page_dma`, `sizeof_xdpf`: inputs of
  `onic_xmit_xdp_frame`. -/
structure rx_poll_env where
  tx_wb : Nat → qdma_wb_stat
  cmpl_entry : Nat → qdma_c2h_cmpl
  cmpl_stat : qdma_c2h_cmpl_stat
  xdp_act : Nat → Int
  skb_alloc : Nat → Option Nat
  gro_rv : Nat → Int
  xdpf_alloc : Nat → Option Nat
  xdp_update_ret : Nat → Int
  xdp_tx_wb : Nat → qdma_wb_stat
  xmit_more : Nat → Bool
  page_dma : Nat → Nat
  sizeof_xdpf : Nat

/-- Bookkeeping for one consumed completion entry (not part of the C state):
the two ring positions consumed, the entry, the verdict applied, and the
software color before and after the flip test. -/
structure rx_consumed where
  cmpl_idx : Nat
  desc_idx : Nat
  cmpl : qdma_c2h_cmpl
  verdict : Nat
  color_before : Nat
  color_after : Nat
deriving DecidableEq

/-- How the consumption loop of `onic_rx_poll` was left. -/
inductive rx_exit where
  | caught_up
  | alloc_failed
  | deliver_failed
  | out_of_budget
deriving DecidableEq

/-- Locals and state of `onic_rx_poll` at the head of its loop; `trace` and
`consumed` are bookkeeping. -/
structure rx_poll_state where
  priv : onic_private
  q : onic_rx_queue
  cmpl : qdma_c2h_cmpl
  work : Nat
  flipped : Bool
  trace : List event
  consumed : List rx_consumed
deriving DecidableEq

/-- Effect of the verdict dispatch of one iteration. -/
structure rx_dispatch_result where
  priv : onic_private
  trace : List event
  brk : Option rx_exit
deriving DecidableEq

/-- Verdict dispatch of one loop iteration (source lines 224-271).  A NULL
transmit queue in the retransmit branch is outside the driver's operating
conditions; the state is left unchanged there. -/
def rx_dispatch (env : rx_poll_env) (s : rx_poll_state) (xdp_ret : Nat) :
    rx_dispatch_result :=
  let i := s.work
  let buf := s.q.buffer.getD s.q.desc_ring.next_to_clean default
  let len := s.cmpl.pkt_len
  let page := buf.pg
  let priv := s.priv
  if xdp_ret = ONIC_XDP_PASS then
    let priv :=
      if priv.prog.isSome then
        { priv with xdp_stats := { priv.xdp_stats with
            xdp_passed := priv.xdp_stats.xdp_passed + 1 } }
      else priv
    match env.skb_alloc i with
    | none => { priv := priv, trace := [], brk := some rx_exit.alloc_failed }
    | some skb =>
      let tr := [event.page_pool_put_page page, event.napi_gro_receive skb len s.q.qid]
      if env.gro_rv i < 0 then
        { priv := priv, trace := tr, brk := some rx_exit.deliver_failed }
      else { priv := priv, trace := tr, brk := none }
  else if xdp_ret = ONIC_XDP_DROP then
    { priv := { priv with xdp_stats := { priv.xdp_stats with
        xdp_dropped := priv.xdp_stats.xdp_dropped + 1 } }
      trace := [event.page_pool_put_page page], brk := none }
  else if xdp_ret = ONIC_XDP_TX then
    match env.xdpf_alloc i with
    | none =>
      { priv := { priv with xdp_stats := { priv.xdp_stats with
          xdp_tx_dropped := priv.xdp_stats.xdp_tx_dropped + 1 } }
        trace := [event.page_pool_put_page page], brk := none }
    | some ptr =>
      if env.xdp_update_ret i < 0 then
        { priv := { priv with xdp_stats := { priv.xdp_stats with
            xdp_tx_dropped := priv.xdp_stats.xdp_tx_dropped + 1 } }
          trace := [event.page_pool_put_page page, event.kfree ptr], brk := none }
      else
        let xdpf : xdp_frame :=
          { ptr := ptr, pg := page, len := len, headroom := buf.offset - env.sizeof_xdpf }
        match onic_xmit_xdp_frame priv xdpf s.q.qid (env.xdp_tx_wb i) (env.xmit_more i)
            (env.page_dma page) env.sizeof_xdpf with
        | some r => { priv := r.priv, trace := r.trace, brk := none }
        | none => { priv := priv, trace := [], brk := none }
  else { priv := priv, trace := [], brk := none }

/-- Result of one loop iteration: the loop goes on, is left by `break`, or is
left through `goto out_of_budget`. -/
inductive rx_iter_outcome where
  | next (s : rx_poll_state)
  | brk (s : rx_poll_state) (e : rx_exit)
  | budget (s : rx_poll_state)
deriving DecidableEq

/-- State after the second half of one loop iteration up to the budget test
(source lines 272-319): counters, descriptor-ring tail advance, watermark
refill, completion-ring tail advance, color test, `++work`. -/
def rx_poll_advanced (s : rx_poll_state) (xdp_ret : Nat) : rx_poll_state :=
  let len := s.cmpl.pkt_len
  let priv := { s.priv with netdev_stats := { s.priv.netdev_stats with
    rx_packets := s.priv.netdev_stats.rx_packets + 1
    rx_bytes := s.priv.netdev_stats.rx_bytes + len } }
  let desc_idx := s.q.desc_ring.next_to_clean
  let q := { s.q with desc_ring := onic_ring_increment_tail s.q.desc_ring }
  let rf := if onic_rx_high_watermark q then onic_rx_refill q else (q, [])
  let q := rf.1
  let cmpl_idx := q.cmpl_ring.next_to_clean
  let q := { q with cmpl_ring := onic_ring_increment_tail q.cmpl_ring }
  let color_before := q.cmpl_ring.color
  let mismatch : Bool := s.cmpl.color != q.cmpl_ring.color
  let q :=
    if mismatch then
      { q with cmpl_ring := { q.cmpl_ring with
          color := if q.cmpl_ring.color = 0 then 1 else 0 } }
    else q
  let flipped := if mismatch then true else s.flipped
  { priv := priv, q := q, cmpl := s.cmpl, work := s.work + 1, flipped := flipped
    trace := s.trace ++ rf.2
    consumed := s.consumed ++
      [{ cmpl_idx := cmpl_idx, desc_idx := desc_idx, cmpl := s.cmpl, verdict := xdp_ret
         color_before := color_before, color_after := q.cmpl_ring.color }] }

/-- Second half of one loop iteration (source lines 272-339): the advance,
then the budget test `(++work) >= budget`, then the next entry is unpacked. -/
def rx_poll_advance (env : rx_poll_env) (budget : Int) (s : rx_poll_state)
    (xdp_ret : Nat) : rx_iter_outcome :=
  let s' := rx_poll_advanced s xdp_ret
  if (s'.work : Int) ≥ budget then
    rx_iter_outcome.budget
      { s' with trace := s'.trace ++ [event.napi_complete, event.napi_reschedule] }
  else
    rx_iter_outcome.next { s' with cmpl := env.cmpl_entry s'.q.cmpl_ring.next_to_clean }

/-- One iteration of the consumption loop of `onic_rx_poll` (source lines
205-339). -/
def rx_poll_iter (env : rx_poll_env) (budget : Int) (s : rx_poll_state) :
    rx_iter_outcome :=
  let xdp_ret :=
    match s.priv.prog with
    | some _ => onic_run_xdp (env.xdp_act s.work)
    | none => ONIC_XDP_PASS
  let d := rx_dispatch env s xdp_ret
  let s1 := { s with priv := d.priv, trace := s.trace ++ d.trace }
  match d.brk with
  | some e => rx_iter_outcome.brk s1 e
  | none => rx_poll_advance env budget s1 xdp_ret

/-- The loop `while (cmpl_ring->next_to_clean != cmpl_stat.pidx)`, unrolled at
most `fuel` times; `none` when `fuel` iterations do not reach an exit. -/
def rx_poll_loop (env : rx_poll_env) (budget : Int) :
    Nat → rx_poll_state → Option (rx_poll_state × rx_exit)
  | 0, s =>
      if s.q.cmpl_ring.next_to_clean = env.cmpl_stat.pidx then
        some (s, rx_exit.caught_up)
      else none
  | fuel + 1, s =>
      if s.q.cmpl_ring.next_to_clean = env.cmpl_stat.pidx then
        some (s, rx_exit.caught_up)
      else
        match rx_poll_iter env budget s with
        | rx_iter_outcome.next s' => rx_poll_loop env budget fuel s'
        | rx_iter_outcome.brk s' e => some (s', e)
        | rx_iter_outcome.budget s' => some (s', rx_exit.out_of_budget)

/-- The initial pass `for (i = 0; i < priv->num_tx_queues; i++)
onic_tx_clean(priv->tx_queue[i])`: `n` queues starting at index `i`.  A NULL
slot is outside the driver's operating conditions and is skipped. -/
def onic_tx_clean_all (wb : Nat → qdma_wb_stat) :
    Nat → Nat → List (Option onic_tx_queue) → List (Option onic_tx_queue) × List event
  | 0, _, qs => (qs, [])
  | n + 1, i, qs =>
      match qs.getD i none with
      | none => onic_tx_clean_all wb n (i + 1) qs
      | some q =>
        let c := onic_tx_clean q (wb i)
        let r := onic_tx_clean_all wb n (i + 1) (qs.set i (some c.1))
        (r.1, c.2 ++ r.2)

/-- Outcome of `onic_rx_poll`: returned work count, driver and queue state,
calls made, entries consumed, and how the loop was left. -/
structure rx_poll_result where
  ret : Int
  priv : onic_private
  q : onic_rx_queue
  trace : List event
  consumed : List rx_consumed
  exit : rx_exit
  flipped : Bool
deriving DecidableEq

/-- State of `onic_rx_poll` when its loop is first reached (source lines
153-201): transmit cleanup, first completion entry unpacked, error test. -/
def rx_poll_begin (env : rx_poll_env) (priv : onic_private) (q : onic_rx_queue) :
    rx_poll_state :=
  let c := onic_tx_clean_all env.tx_wb priv.num_tx_queues 0 priv.tx_queue
  let cmpl := env.cmpl_entry q.cmpl_ring.next_to_clean
  { priv := { priv with tx_queue := c.1 }
    q := q
    cmpl := cmpl
    work := 0
    flipped := false
    trace := c.2 ++ (if cmpl.err = 1 then [event.onic_qdma_clear_error_interrupt] else [])
    consumed := [] }

/-- What follows the loop of `onic_rx_poll` (source lines 341-381). -/
def rx_poll_finish (env : rx_poll_env) (s : rx_poll_state) (e : rx_exit) :
    rx_poll_result :=
  let ntc := s.q.cmpl_ring.next_to_clean
  let idle : List event :=
    [event.napi_complete_done s.work, event.onic_set_completion_tail s.q.qid ntc 1]
  let tr : List event :=
    if e = rx_exit.out_of_budget then []
    else if ntc = env.cmpl_stat.pidx then idle
    else if ntc = 0 then idle
    else []
  { ret := (s.work : Int), priv := s.priv, q := s.q, trace := s.trace ++ tr
    consumed := s.consumed, exit := e, flipped := s.flipped }

/-- `onic_rx_poll(napi, budget)` on the queue `q` that owns `napi`.  The loop
is unrolled `max budget 1` times, which always reaches an exit. -/
def onic_rx_poll (env : rx_poll_env) (priv : onic_private) (q : onic_rx_queue)
    (budget : Int) : Option rx_poll_result :=
  match rx_poll_loop env budget (max budget 1).toNat (rx_poll_begin env priv q) with
  | none => none
  | some (s, e) => some (rx_poll_finish env s e)


/-- Successive calls of `onic_xmit_frame`, each with its own packet and
environment: the returned statuses in order and the final state. -/
def onic_xmit_frames (priv : onic_private) :
    List (sk_buff × xmit_env) → Option (List Nat × onic_private)
  | [] => some ([], priv)
  | s :: rest =>
      match onic_xmit_frame priv s.1 s.2 with
      | none => none
      | some r =>
        match onic_xmit_frames r.priv rest with
        | none => none
        | some t => some (r.ret :: t.1, t.2)

/-- Number of consumed entries whose error flag is set. -/
def error_entries (recs : List rx_consumed) : Nat :=
  (recs.filter (fun c => c.cmpl.err == 1)).length

/-- The state handed on by an iteration that completed its advance (the loop
goes on or is left through the budget test); `none` for `break`. -/
def rx_iter_outcome.completed : rx_iter_outcome → Option rx_poll_state
  | rx_iter_outcome.next s => some s
  | rx_iter_outcome.budget s => some s
  | rx_iter_outcome.brk _ _ => none

/-- The state an iteration hands on, however it ends. -/
def rx_iter_outcome.state : rx_iter_outcome → rx_poll_state
  | rx_iter_outcome.next s => s
  | rx_iter_outcome.budget s => s
  | rx_iter_outcome.brk s _ => s

/-! ## Trace projections -/

/-- The page of a `page_pool_put_page` call. -/
def event.pool_put : event → Option Nat
  | event.page_pool_put_page pg => some pg
  | _ => none

/-- The packet of a `napi_gro_receive` call. -/
def event.delivery : event → Option Nat
  | event.napi_gro_receive skb _ _ => some skb
  | _ => none

/-- Queue and index of an `onic_set_rx_head` call. -/
def event.rx_head : event → Option (Nat × Nat)
  | event.onic_set_rx_head qid idx => some (qid, idx)
  | _ => none

/-- Pages released to the pool by `page_pool_put_page`, in call order. -/
def pool_puts (tr : List event) : List Nat := tr.filterMap event.pool_put

/-- Packets handed to the host stack by `napi_gro_receive`, in call order. -/
def stack_deliveries (tr : List event) : List Nat := tr.filterMap event.delivery

/-- Receive heads published by `onic_set_rx_head`, in call order. -/
def rx_heads (tr : List event) : List (Nat × Nat) := tr.filterMap event.rx_head

/-- Verdict applied in a loop iteration of `onic_rx_poll` (source lines
211-223): `ONIC_XDP_PASS` unless a program is attached and run. -/
def rx_verdict (env : rx_poll_env) (s : rx_poll_state) : Nat :=
  match s.priv.prog with
  | some _ => onic_run_xdp (env.xdp_act s.work)
  | none => ONIC_XDP_PASS

/-- Slots of a descriptor ring posted to the hardware: the positions from
`next_to_clean` up to, not including, `next_to_use`. -/
def posted_slots (ring : onic_ring) : List Nat :=
  (List.range (ring_outstanding ring).toNat).map
    (fun i => (ring.next_to_clean + i) % onic_ring_get_real_count ring)

/-- Kernel verdict `XDP_ABORTED`. -/
def XDP_ABORTED : Int := 0

/-- Kernel verdict `XDP_DROP`. -/
def XDP_DROP : Int := 1


/-! ## Interface bring-up and teardown -/

/-- Error code `ENOMEM`. -/
def ENOMEM : Int := 12

/-- Error code `EOPNOTSUPP`. -/
def EOPNOTSUPP : Int := 95

/-- Error code `EINVAL`. -/
def EINVAL : Int := 22

/-- Kernel constant `PAGE_SIZE` (4 KiB pages). -/
def PAGE_SIZE : Nat := 4096

/-- Kernel constant `XDP_PACKET_HEADROOM`. -/
def XDP_PACKET_HEADROOM : Nat := 256

/-- Macro `ONIC_MAX_QDMA_BUF_SIZE`, `PAGE_SIZE - XDP_PACKET_HEADROOM`. -/
def ONIC_MAX_QDMA_BUF_SIZE : Nat := PAGE_SIZE - XDP_PACKET_HEADROOM

/-- Command `XDP_SETUP_PROG` of `enum bpf_netdev_command`. -/
def XDP_SETUP_PROG : Nat := 0

/-- One interface as the control path sees it: `struct net_device` (`mtu`,
`netif_running`) with its private area.  The receive slots
`priv->rx_queue[]` and `priv->num_rx_queues` of `struct onic_private` are kept
here (`none` is NULL). -/
structure onic_netdev where
  priv : onic_private
  num_rx_queues : Nat
  rx_queue : List (Option onic_rx_queue)
  mtu : Nat
  running : Bool
deriving DecidableEq

/-- Calls the control path makes into collaborators, in program order, and the
calls `onic_xdp_setup` makes to `onic_stop_netdev` / `onic_open_netdev`. -/
inductive ctl_event where
  | onic_qdma_init_tx_queue (qid : Nat) (rv : Int)
  | onic_qdma_clear_tx_queue (qid : Nat)
  | onic_qdma_init_rx_queue (qid : Nat) (rv : Int)
  | onic_qdma_clear_rx_queue (qid : Nat)
  | napi_enable (qid : Nat)
  | napi_disable (qid : Nat)
  | onic_set_rx_head (qid idx : Nat)
  | onic_set_completion_tail (qid idx rearm : Nat)
  | page_pool_recycle_direct (pg : Nat)
  | netif_carrier_off
  | netif_tx_stop_all_queues
  | netif_tx_start_all_queues
  | netif_carrier_on
  | call_onic_stop_netdev
  | call_onic_open_netdev
  | xchg_prog (old new : Option Nat)
  | bpf_prog_put (prog : Nat)
deriving DecidableEq

/-- What the kernel and the device decide during bring-up, per queue id:
ring sizes `onic_ring_count(0)` (transmit) and `onic_ring_count(13)` (receive),
the outcome of every allocation and registration, the values returned by
`onic_qdma_init_tx_queue` / `onic_qdma_init_rx_queue`, the pages drawn by
`page_pool_dev_alloc_pages` (queue, slot), and `rx_rv_uninit`, the
indeterminate value the local `rv` of `onic_init_rx_queue` holds while it has
not been assigned. -/
structure open_env where
  tx_ring_count : Nat
  rx_ring_count : Nat
  tx_queue_alloc : Nat → Bool
  tx_desc_alloc : Nat → Bool
  tx_buffer_alloc : Nat → Bool
  tx_qdma_init : Nat → Int
  rx_queue_alloc : Nat → Bool
  rx_pparam_alloc : Nat → Bool
  rx_ppool_create : Nat → Bool
  rx_xdp_reg : Nat → Int
  rx_xdp_reg_mem : Nat → Int
  rx_desc_alloc : Nat → Bool
  rx_buffer_alloc : Nat → Bool
  rx_page_alloc : Nat → Nat → Option Nat
  rx_cmpl_alloc : Nat → Bool
  rx_qdma_init : Nat → Int
  rx_rv_uninit : Nat → Int

/-- Outcome of a control-path function: returned code, state, calls made. -/
structure ctl_result where
  rv : Int
  dev : onic_netdev
  trace : List ctl_event
deriving DecidableEq

/-- `onic_clear_tx_queue`: nothing for a NULL slot; otherwise the device-side
queue is cleared, the memory freed and the slot set to NULL. -/
def onic_clear_tx_queue (dev : onic_netdev) (qid : Nat) : onic_netdev × List ctl_event :=
  match dev.priv.tx_queue.getD qid none with
  | none => (dev, [])
  | some _ =>
    ({ dev with priv := { dev.priv with tx_queue := dev.priv.tx_queue.set qid none } },
     [ctl_event.onic_qdma_clear_tx_queue qid])

/-- `onic_init_tx_queue`.  The usable capacity `real_count` is computed right
after `ring->count` is set, while `ring->wb` is still NULL. -/
def onic_init_tx_queue (env : open_env) (dev : onic_netdev) (qid : Nat) : ctl_result :=
  let c :=
    match dev.priv.tx_queue.getD qid none with
    | some _ => onic_clear_tx_queue dev qid
    | none => (dev, [])
  let dev := c.1
  if env.tx_queue_alloc qid = false then
    { rv := -ENOMEM, dev := dev, trace := c.2 }
  else
    let ring0 : onic_ring :=
      { count := env.tx_ring_count % 65536, wb := false, next_to_use := 0
        next_to_clean := 0, color := 0 }
    let real_count := onic_ring_get_real_count ring0
    if env.tx_desc_alloc qid = false then
      let c2 := onic_clear_tx_queue dev qid
      { rv := -ENOMEM, dev := c2.1, trace := c.2 ++ c2.2 }
    else
      let ring : onic_ring :=
        { ring0 with wb := true, next_to_use := 0, next_to_clean := 0, color := 0 }
      if env.tx_buffer_alloc qid = false then
        let c2 := onic_clear_tx_queue dev qid
        { rv := -ENOMEM, dev := c2.1, trace := c.2 ++ c2.2 }
      else
        let rv := env.tx_qdma_init qid
        if rv < 0 then
          let c2 := onic_clear_tx_queue dev qid
          { rv := rv, dev := c2.1
            trace := c.2 ++ [ctl_event.onic_qdma_init_tx_queue qid rv] ++ c2.2 }
        else
          let q : onic_tx_queue :=
            { qid := qid, state := 0, buffer := List.replicate real_count default
              ring := ring, desc := List.replicate real_count default }
          { rv := 0
            dev := { dev with priv := { dev.priv with
              tx_queue := dev.priv.tx_queue.set qid (some q) } }
            trace := c.2 ++ [ctl_event.onic_qdma_init_tx_queue qid rv] }

/-- `onic_clear_rx_queue`: nothing for a NULL slot; otherwise the device-side
queue is cleared, NAPI disabled, the pages recycled (as many as the usable
capacity of the completion ring) and the slot set to NULL. -/
def onic_clear_rx_queue (dev : onic_netdev) (qid : Nat) : onic_netdev × List ctl_event :=
  match dev.rx_queue.getD qid none with
  | none => (dev, [])
  | some q =>
    ({ dev with rx_queue := dev.rx_queue.set qid none },
     [ctl_event.onic_qdma_clear_rx_queue qid, ctl_event.napi_disable qid] ++
       (List.range (onic_ring_get_real_count q.cmpl_ring)).map
         (fun i => ctl_event.page_pool_recycle_direct (q.buffer.getD i default).pg))

/-- The page-acquisition loop of `onic_init_rx_queue`: `n` slots from slot
`i`; `none` as soon as `page_pool_dev_alloc_pages` fails. -/
def rx_alloc_pages (alloc : Nat → Option Nat) (offset : Nat) :
    Nat → Nat → Option (List onic_rx_buffer)
  | 0, _ => some []
  | n + 1, i =>
      match alloc i with
      | none => none
      | some pg =>
        match rx_alloc_pages alloc offset n (i + 1) with
        | none => none
        | some bufs => some ({ pg := pg, offset := offset, time_stamp := 0 } :: bufs)

/-- The exit `clear_rx_queue:` of `onic_init_rx_queue`, taken with the code
`rv` after the calls `tr`: `onic_clear_rx_queue(priv, qid)`, then `return rv`.
`c` is the state and the calls made when the function was entered. -/
def rx_init_fail (c : onic_netdev × List ctl_event) (qid : Nat) (rv : Int)
    (tr : List ctl_event) : ctl_result :=
  let c2 := onic_clear_rx_queue c.1 qid
  { rv := rv, dev := c2.1, trace := c.2 ++ tr ++ c2.2 }

/-- The part of `onic_init_rx_queue` after the page-acquisition loop (source
lines 689-759), given the buffers the loop filled (`none` when
`page_pool_dev_alloc_pages` failed) and the ring size `count`: completion
ring, NAPI, device queue, first descriptors. -/
def rx_init_rings (env : open_env) (c : onic_netdev × List ctl_event) (qid count : Nat) :
    Option (List onic_rx_buffer) → ctl_result
  | none => rx_init_fail c qid (-ENOMEM) []
  | some bufs =>
    if env.rx_cmpl_alloc qid = false then rx_init_fail c qid (-ENOMEM) []
    else
      let rv := env.rx_qdma_init qid
      if rv < 0 then
        rx_init_fail c qid rv
          [ctl_event.napi_enable qid, ctl_event.onic_qdma_init_rx_queue qid rv]
      else
        let q : onic_rx_queue :=
          { qid := qid
            buffer := bufs
            desc_ring := { count := count, wb := true, next_to_use := ONIC_RX_DESC_STEP
                           next_to_clean := 0, color := 0 }
            cmpl_ring := { count := count, wb := true, next_to_use := 0
                           next_to_clean := 0, color := 1 } }
        { rv := 0
          dev := { c.1 with rx_queue := c.1.rx_queue.set qid (some q) }
          trace := c.2 ++
            [ctl_event.napi_enable qid, ctl_event.onic_qdma_init_rx_queue qid rv,
             ctl_event.onic_set_rx_head qid ONIC_RX_DESC_STEP,
             ctl_event.onic_set_completion_tail qid 0 1] }

/-- The body of `onic_init_rx_queue` from the allocation of the queue object
on (source lines 608-759).  The local `rv` is unassigned until the first
`rv = -ENOMEM`; the exits taken before that return `env.rx_rv_uninit qid`.
`real_count = ring->count - 1` is computed in `u32`. -/
def rx_init_body (env : open_env) (c : onic_netdev × List ctl_event) (qid : Nat) :
    ctl_result :=
  if env.rx_queue_alloc qid = false then
    { rv := -ENOMEM, dev := c.1, trace := c.2 }
  else
    let rv : Int := env.rx_rv_uninit qid
    if env.rx_pparam_alloc qid = false then rx_init_fail c qid rv []
    else if env.rx_ppool_create qid = false then rx_init_fail c qid rv []
    else if env.rx_xdp_reg qid ≠ 0 then rx_init_fail c qid rv []
    else if env.rx_xdp_reg_mem qid ≠ 0 then rx_init_fail c qid rv []
    else
      let count := env.rx_ring_count % 65536
      let real_count := (count + 4294967295) % 4294967296
      if env.rx_desc_alloc qid = false then rx_init_fail c qid (-ENOMEM) []
      else if env.rx_buffer_alloc qid = false then rx_init_fail c qid (-ENOMEM) []
      else
        rx_init_rings env c qid count
          (rx_alloc_pages (env.rx_page_alloc qid) XDP_PACKET_HEADROOM real_count 0)

/-- `onic_init_rx_queue`: a queue already installed in the slot is cleared
first, then the body runs. -/
def onic_init_rx_queue (env : open_env) (dev : onic_netdev) (qid : Nat) : ctl_result :=
  rx_init_body env
    (match dev.rx_queue.getD qid none with
     | some _ => onic_clear_rx_queue dev qid
     | none => (dev, []))
    qid

/-- The rollback `while (qid--) onic_clear_tx_queue(priv, qid)`. -/
def onic_clear_tx_down (dev : onic_netdev) : Nat → onic_netdev × List ctl_event
  | 0 => (dev, [])
  | k + 1 =>
      let c := onic_clear_tx_queue dev k
      let r := onic_clear_tx_down c.1 k
      (r.1, c.2 ++ r.2)

/-- The rollback `while (qid--) onic_clear_rx_queue(priv, qid)`. -/
def onic_clear_rx_down (dev : onic_netdev) : Nat → onic_netdev × List ctl_event
  | 0 => (dev, [])
  | k + 1 =>
      let c := onic_clear_rx_queue dev k
      let r := onic_clear_rx_down c.1 k
      (r.1, c.2 ++ r.2)

/-- The loop of `onic_init_tx_resource`: `n` queues from `qid`; on the first
non-zero code the queues below `qid` are cleared and the code returned. -/
def onic_init_tx_loop (env : open_env) : Nat → Nat → onic_netdev → ctl_result
  | 0, _, dev => { rv := 0, dev := dev, trace := [] }
  | n + 1, qid, dev =>
      let r := onic_init_tx_queue env dev qid
      if r.rv = 0 then
        let t := onic_init_tx_loop env n (qid + 1) r.dev
        { rv := t.rv, dev := t.dev, trace := r.trace ++ t.trace }
      else
        let c := onic_clear_tx_down r.dev qid
        { rv := r.rv, dev := c.1, trace := r.trace ++ c.2 }

/-- `onic_init_tx_resource`. -/
def onic_init_tx_resource (env : open_env) (dev : onic_netdev) : ctl_result :=
  onic_init_tx_loop env dev.priv.num_tx_queues 0 dev

/-- The loop of `onic_init_rx_resource`: `n` queues from `qid`; on the first
non-zero code the queues below `qid` are cleared and the code returned. -/
def onic_init_rx_loop (env : open_env) : Nat → Nat → onic_netdev → ctl_result
  | 0, _, dev => { rv := 0, dev := dev, trace := [] }
  | n + 1, qid, dev =>
      let r := onic_init_rx_queue env dev qid
      if r.rv = 0 then
        let t := onic_init_rx_loop env n (qid + 1) r.dev
        { rv := t.rv, dev := t.dev, trace := r.trace ++ t.trace }
      else
        let c := onic_clear_rx_down r.dev qid
        { rv := r.rv, dev := c.1, trace := r.trace ++ c.2 }

/-- `onic_init_rx_resource`. -/
def onic_init_rx_resource (env : open_env) (dev : onic_netdev) : ctl_result :=
  onic_init_rx_loop env dev.num_rx_queues 0 dev

/-- The loop `for (qid = 0; qid < num; ++qid) onic_clear_tx_queue(priv, qid)`
of `onic_stop_netdev`: `n` queues from `qid`. -/
def onic_clear_tx_up : Nat → Nat → onic_netdev → onic_netdev × List ctl_event
  | 0, _, dev => (dev, [])
  | n + 1, qid, dev =>
      let c := onic_clear_tx_queue dev qid
      let r := onic_clear_tx_up n (qid + 1) c.1
      (r.1, c.2 ++ r.2)

/-- The loop `for (qid = 0; qid < num; ++qid) onic_clear_rx_queue(priv, qid)`
of `onic_stop_netdev`: `n` queues from `qid`. -/
def onic_clear_rx_up : Nat → Nat → onic_netdev → onic_netdev × List ctl_event
  | 0, _, dev => (dev, [])
  | n + 1, qid, dev =>
      let c := onic_clear_rx_queue dev qid
      let r := onic_clear_rx_up n (qid + 1) c.1
      (r.1, c.2 ++ r.2)

/-- `onic_stop_netdev`. -/
def onic_stop_netdev (dev : onic_netdev) : ctl_result :=
  let t := onic_clear_tx_up dev.priv.num_tx_queues 0 dev
  let r := onic_clear_rx_up t.1.num_rx_queues 0 t.1
  { rv := 0, dev := r.1
    trace := [ctl_event.netif_carrier_off, ctl_event.netif_tx_stop_all_queues] ++ t.2 ++ r.2 }

/-- `onic_open_netdev`. -/
def onic_open_netdev (env : open_env) (dev : onic_netdev) : ctl_result :=
  let t := onic_init_tx_resource env dev
  if t.rv < 0 then
    let s := onic_stop_netdev t.dev
    { rv := t.rv, dev := s.dev, trace := t.trace ++ s.trace }
  else
    let r := onic_init_rx_resource env t.dev
    if r.rv < 0 then
      let s := onic_stop_netdev r.dev
      { rv := r.rv, dev := s.dev, trace := t.trace ++ r.trace ++ s.trace }
    else
      { rv := 0, dev := r.dev
        trace := t.trace ++ r.trace ++
          [ctl_event.netif_tx_start_all_queues, ctl_event.netif_carrier_on] }

/-- `onic_xdp_setup(dev, prog, extack)`; `prog = none` is a NULL program. -/
def onic_xdp_setup (env : open_env) (dev : onic_netdev) (prog : Option Nat) : ctl_result :=
  if prog.isSome ∧ dev.mtu > ONIC_MAX_QDMA_BUF_SIZE then
    { rv := -EOPNOTSUPP, dev := dev, trace := [] }
  else
    let need_update : Bool := dev.priv.prog.isSome != prog.isSome
    if need_update then
      let running := dev.running
      let s : onic_netdev × List ctl_event :=
        if running then
          ((onic_stop_netdev dev).dev,
           [ctl_event.call_onic_stop_netdev] ++ (onic_stop_netdev dev).trace)
        else (dev, [])
      let old_prog := s.1.priv.prog
      let dev1 : onic_netdev := { s.1 with priv := { s.1.priv with prog := prog } }
      let tr_xchg : List ctl_event :=
        [ctl_event.xchg_prog old_prog prog] ++
          (match old_prog with
           | some p => [ctl_event.bpf_prog_put p]
           | none => [])
      let o : onic_netdev × List ctl_event :=
        if running then
          ((onic_open_netdev env dev1).dev,
           [ctl_event.call_onic_open_netdev] ++ (onic_open_netdev env dev1).trace)
        else (dev1, [])
      { rv := 0, dev := o.1, trace := s.2 ++ tr_xchg ++ o.2 }
    else { rv := 0, dev := dev, trace := [] }

/-- `onic_xdp(dev, bpf)`: only `XDP_SETUP_PROG` is served. -/
def onic_xdp (env : open_env) (dev : onic_netdev) (command : Nat) (prog : Option Nat) :
    ctl_result :=
  if command = XDP_SETUP_PROG then onic_xdp_setup env dev prog
  else { rv := -EINVAL, dev := dev, trace := [] }

/-- Device-side status of a queue after one control call: brought up by a
successful `onic_qdma_init_*_queue`, taken down by `onic_qdma_clear_*_queue`.
`tx` selects the transmit (`true`) or receive (`false`) queue `qid`. -/
def hw_queue_step (tx : Bool) (qid : Nat) (up : Bool) : ctl_event → Bool
  | ctl_event.onic_qdma_init_tx_queue q rv => if tx ∧ q = qid ∧ 0 ≤ rv then true else up
  | ctl_event.onic_qdma_clear_tx_queue q => if tx ∧ q = qid then false else up
  | ctl_event.onic_qdma_init_rx_queue q rv => if ¬ tx ∧ q = qid ∧ 0 ≤ rv then true else up
  | ctl_event.onic_qdma_clear_rx_queue q => if ¬ tx ∧ q = qid then false else up
  | _ => up

/-- Device-side status of a queue after a sequence of control calls, from the
status `up` before them. -/
def hw_queue_up (tx : Bool) (qid : Nat) (up : Bool) (tr : List ctl_event) : Bool :=
  tr.foldl (hw_queue_step tx qid) up

/-- Software and device agree: the slot arrays hold the configured number of
queues, and every queue that is up on the device has its slot installed. -/
def hw_consistent (dev : onic_netdev) (up : Bool → Nat → Bool) : Prop :=
  dev.priv.num_tx_queues ≤ dev.priv.tx_queue.length ∧
    dev.num_rx_queues ≤ dev.rx_queue.length ∧
    (∀ qid, up true qid = true →
      qid < dev.priv.num_tx_queues ∧ dev.priv.tx_queue.getD qid none ≠ none) ∧
    (∀ qid, up false qid = true →
      qid < dev.num_rx_queues ∧ dev.rx_queue.getD qid none ≠ none)

/-! ## Successive polls and page ownership -/

/-- Successive invocations of `onic_rx_poll` on one queue with the same
budget, each with its own environment: the final driver and queue state and
the calls of all invocations in order. -/
def onic_rx_polls (budget : Int) :
    List rx_poll_env → onic_private → onic_rx_queue →
      Option (onic_private × onic_rx_queue × List event)
  | [], priv, q => some (priv, q, [])
  | env :: rest, priv, q =>
      match onic_rx_poll env priv q budget with
      | none => none
      | some r =>
        match onic_rx_polls budget rest r.priv r.q with
        | none => none
        | some t => some (t.1, t.2.1, r.trace ++ t.2.2)

/-- Pages posted to the hardware: the pages held in the `q->buffer` slots
between `next_to_clean` and `next_to_use` of the descriptor ring. -/
def posted_pages (q : onic_rx_queue) : List Nat :=
  (posted_slots q.desc_ring).map (fun i => (q.buffer.getD i default).pg)

/-! ## Invariants of the control path -/

/-- Device-side status of every queue after a sequence of control calls, from
the status `up` before them. -/
def hw_after (up : Bool → Nat → Bool) (tr : List ctl_event) : Bool → Nat → Bool :=
  fun tx qid => hw_queue_up tx qid (up tx qid) tr

/-- What a transmit-side control function leaves alone: the queue counts, the
program and the receive slots. -/
def tx_frame (a b : onic_netdev) : Prop :=
  a.priv.num_tx_queues = b.priv.num_tx_queues ∧ a.priv.prog = b.priv.prog ∧
    a.num_rx_queues = b.num_rx_queues ∧ a.rx_queue = b.rx_queue

/-- What a receive-side control function leaves alone: the private area
(transmit slots, program, counters) and the receive queue count. -/
def rx_frame (a b : onic_netdev) : Prop :=
  a.priv = b.priv ∧ a.num_rx_queues = b.num_rx_queues

/-! ## Post-loop calls and consumed positions -/

/-- The two calls the idle branches after the loop of `onic_rx_poll` make:
`napi_complete_done` and `onic_set_completion_tail`. -/
def event.is_idle_call : event → Bool
  | event.napi_complete_done _ => true
  | event.onic_set_completion_tail _ _ _ => true
  | _ => false

/-- The idle-branch calls of a trace, in call order. -/
def idle_calls (tr : List event) : List event := tr.filter event.is_idle_call

/-- Queue, index and re-arm flag of an `onic_set_completion_tail` call. -/
def event.cmpl_tail : event → Option (Nat × Nat × Nat)
  | event.onic_set_completion_tail qid idx rearm => some (qid, idx, rearm)
  | _ => none

/-- Completion tails published by `onic_set_completion_tail`, in call order. -/
def cmpl_tails (tr : List event) : List (Nat × Nat × Nat) := tr.filterMap event.cmpl_tail

/-- Which idle branch after the loop of `onic_rx_poll` is taken (source lines
341-370): 1 for `cmpl_ring->next_to_clean == cmpl_stat.pidx`, 2 for the
`else if (cmpl_ring->next_to_clean == 0)`, 0 for neither; `goto out_of_budget`
jumps past both. -/
def rx_idle_branch (env : rx_poll_env) (r : rx_poll_result) : Nat :=
  if r.exit = rx_exit.out_of_budget then 0
  else if r.q.cmpl_ring.next_to_clean = env.cmpl_stat.pidx then 1
  else if r.q.cmpl_ring.next_to_clean = 0 then 2
  else 0

/-- Where the loop of `onic_rx_poll` stands after consuming `s.consumed`, for
the queue `q` the invocation started with: the queue id and both usable
capacities are those of `q`, each consumer index has advanced once per
consumed entry, and the consumed positions are consecutive from the indices
of `q`. -/
def rx_pos_inv (q : onic_rx_queue) (s : rx_poll_state) : Prop :=
  s.q.qid = q.qid ∧
    onic_ring_get_real_count s.q.cmpl_ring = onic_ring_get_real_count q.cmpl_ring ∧
    onic_ring_get_real_count s.q.desc_ring = onic_ring_get_real_count q.desc_ring ∧
    s.q.cmpl_ring.next_to_clean =
      (q.cmpl_ring.next_to_clean + s.consumed.length) % onic_ring_get_real_count q.cmpl_ring ∧
    s.q.desc_ring.next_to_clean =
      (q.desc_ring.next_to_clean + s.consumed.length) % onic_ring_get_real_count q.desc_ring ∧
    s.consumed.map (fun c => c.cmpl_idx) =
      (List.range s.consumed.length).map
        (fun i => (q.cmpl_ring.next_to_clean + i) % onic_ring_get_real_count q.cmpl_ring) ∧
    s.consumed.map (fun c => c.desc_idx) =
      (List.range s.consumed.length).map
        (fun i => (q.desc_ring.next_to_clean + i) % onic_ring_get_real_count q.desc_ring)

/-! ## Concrete inputs -/

/-- A ring of usable capacity 4 (five slots, the last one the writeback slot). -/
def ring_demo : onic_ring :=
  { count := 5, wb := true, next_to_use := 0, next_to_clean := 0, color := 0 }

/-- A transmit queue of usable capacity 4 holding a host packet at position 1
and a redirected frame at position 2. -/
def txq_demo : onic_tx_queue :=
  { qid := 0
    state := 0
    buffer :=
      [ { ptr := 0, dma_addr := 0, len := 0, type := 0, time_stamp := 0 },
        { ptr := 71, dma_addr := 4096, len := 60, type := 0, time_stamp := 0 },
        { ptr := 72, dma_addr := 8192, len := 90, type := 1, time_stamp := 0 },
        { ptr := 0, dma_addr := 0, len := 0, type := 0, time_stamp := 0 } ]
    ring := { count := 5, wb := true, next_to_use := 3, next_to_clean := 1, color := 0 }
    desc := [default, default, default, default] }

/-- A writeback slot reporting completion index 3. -/
def wb_demo : qdma_wb_stat := { pidx := 0, cidx := 3 }

/-- An empty transmit queue of usable capacity 4. -/
def txq_empty : onic_tx_queue :=
  { qid := 0
    state := 0
    buffer := [default, default, default, default]
    ring := { count := 5, wb := true, next_to_use := 0, next_to_clean := 0, color := 0 }
    desc := [default, default, default, default] }

/-- A device with one transmit queue, empty, and no program attached. -/
def priv_demo : onic_private :=
  { num_tx_queues := 1
    netdev_stats := default
    tx_queue := [some txq_empty]
    prog := none
    xdp_stats := default }

/-- A 60-byte host packet for transmit queue 0. -/
def skb_demo : sk_buff := { id := 900, len := 60, queue_mapping := 0 }

/-- No completion pending, mapping succeeds at address 4096. -/
def xmit_env_ok : xmit_env :=
  { wb := { pidx := 0, cidx := 0 }, pad_ok := true, dma_map := some 4096, xmit_more := false }

/-- No completion pending, mapping fails. -/
def xmit_env_map_fail : xmit_env :=
  { wb := { pidx := 0, cidx := 0 }, pad_ok := true, dma_map := none, xmit_more := false }

/-- A receive queue of usable capacity 4 on both rings: three descriptors
posted, consumer indices at 0, software color 1. -/
def rxq_demo : onic_rx_queue :=
  { qid := 0
    buffer :=
      [ { pg := 100, offset := 256, time_stamp := 0 },
        { pg := 101, offset := 256, time_stamp := 0 },
        { pg := 102, offset := 256, time_stamp := 0 },
        { pg := 103, offset := 256, time_stamp := 0 } ]
    desc_ring := { count := 5, wb := true, next_to_use := 3, next_to_clean := 0, color := 0 }
    cmpl_ring := { count := 5, wb := true, next_to_use := 0, next_to_clean := 0, color := 1 } }

/-- A device without transmit queues and without a program. -/
def priv_rx_demo : onic_private :=
  { num_tx_queues := 0
    netdev_stats := default
    tx_queue := []
    prog := none
    xdp_stats := default }

/-- Every kernel call succeeds; the completion entries are given by
`entry` and the producer index is `pidx`. -/
def rx_env_of (entry : Nat → qdma_c2h_cmpl) (pidx : Nat) : rx_poll_env :=
  { tx_wb := fun _ => default
    cmpl_entry := entry
    cmpl_stat := { pidx := pidx, cidx := 0, color := 1, intr_state := 0 }
    xdp_act := fun _ => 2
    skb_alloc := fun i => some (500 + i)
    gro_rv := fun _ => 0
    xdpf_alloc := fun _ => none
    xdp_update_ret := fun _ => 0
    xdp_tx_wb := fun _ => default
    xmit_more := fun _ => false
    page_dma := fun _ => 0
    sizeof_xdpf := 40 }

/-- Two completions pending (positions 0 and 1), color 1, no error. -/
def rx_env_two : rx_poll_env :=
  rx_env_of (fun p => { pkt_id := p, pkt_len := 60, err := 0, color := 1 }) 2

/-- Two completions pending; the second one (position 1) has its error flag
set. -/
def rx_env_err_second : rx_poll_env :=
  rx_env_of (fun p => { pkt_id := p, pkt_len := 60, err := (if p = 1 then 1 else 0), color := 1 }) 2

/-- A device with one transmit queue, empty, and program 7 attached. -/
def priv_rx_prog : onic_private :=
  { num_tx_queues := 1
    netdev_stats := default
    tx_queue := [some txq_empty]
    prog := some 7
    xdp_stats := default }

/-- One completion pending at position 0 with its error flag set; an attached
program would return `XDP_PASS`. -/
def rx_env_err_first : rx_poll_env :=
  rx_env_of (fun p => { pkt_id := p, pkt_len := 60, err := 1, color := 1 }) 1

/-- Loop state at the head of the first iteration on `rxq_demo` when the entry
at position 0 has its error flag set. -/
def rx_state_err : rx_poll_state :=
  { priv := priv_rx_demo
    q := rxq_demo
    cmpl := { pkt_id := 0, pkt_len := 60, err := 1, color := 1 }
    work := 0
    flipped := false
    trace := []
    consumed := [] }

/-- A transmit queue of usable capacity 4 that is full (three entries
outstanding, none completed). -/
def txq_full : onic_tx_queue :=
  { qid := 0
    state := 0
    buffer := [default, default, default, default]
    ring := { count := 5, wb := true, next_to_use := 3, next_to_clean := 0, color := 0 }
    desc := [default, default, default, default] }

/-- A device whose transmit queue 0 is full, with program 7 attached. -/
def priv_tx_full : onic_private :=
  { num_tx_queues := 1
    netdev_stats := default
    tx_queue := [some txq_full]
    prog := some 7
    xdp_stats := default }

/-- One completion pending; the attached program returns `XDP_TX`, the frame
record is allocated at address 800 and built without error. -/
def rx_env_tx : rx_poll_env :=
  { rx_env_of (fun p => { pkt_id := p, pkt_len := 60, err := 0, color := 1 }) 1 with
    xdp_act := fun _ => XDP_TX
    xdpf_alloc := fun _ => some 800 }

/-- One completion pending; the attached program returns `XDP_REDIRECT`. -/
def rx_env_redirect : rx_poll_env :=
  { rx_env_of (fun p => { pkt_id := p, pkt_len := 60, err := 0, color := 1 }) 1 with
    xdp_act := fun _ => XDP_REDIRECT }

/-- A receive queue whose descriptor ring has usable capacity 65534
(`count = 65535`), with head 65400 and tail 65399. -/
def rxq_wide : onic_rx_queue :=
  { qid := 0
    buffer := List.replicate 65534 { pg := 1, offset := 256, time_stamp := 0 }
    desc_ring := { count := 65535, wb := true, next_to_use := 65400, next_to_clean := 65399
                   color := 0 }
    cmpl_ring := { count := 5, wb := true, next_to_use := 0, next_to_clean := 0, color := 1 } }

/-- Loop state at the head of an iteration on `rxq_wide`. -/
def rx_state_wide : rx_poll_state :=
  { priv := priv_rx_demo
    q := rxq_wide
    cmpl := { pkt_id := 0, pkt_len := 60, err := 0, color := 1 }
    work := 0
    flipped := false
    trace := []
    consumed := [] }

/-- Loop state at the head of the first iteration on `rxq_demo` (three
descriptors posted on a ring of usable capacity 4). -/
def rx_state_demo : rx_poll_state :=
  { priv := priv_rx_demo
    q := rxq_demo
    cmpl := { pkt_id := 0, pkt_len := 60, err := 0, color := 1 }
    work := 0
    flipped := false
    trace := []
    consumed := [] }

/-- Bring-up in which every step succeeds: rings of 385 slots, and
`page_pool_dev_alloc_pages` hands out page `1000 + i` for slot `i`. -/
def open_env_ok : open_env :=
  { tx_ring_count := 5
    rx_ring_count := 385
    tx_queue_alloc := fun _ => true
    tx_desc_alloc := fun _ => true
    tx_buffer_alloc := fun _ => true
    tx_qdma_init := fun _ => 0
    rx_queue_alloc := fun _ => true
    rx_pparam_alloc := fun _ => true
    rx_ppool_create := fun _ => true
    rx_xdp_reg := fun _ => 0
    rx_xdp_reg_mem := fun _ => 0
    rx_desc_alloc := fun _ => true
    rx_buffer_alloc := fun _ => true
    rx_page_alloc := fun _ i => some (1000 + i)
    rx_cmpl_alloc := fun _ => true
    rx_qdma_init := fun _ => 0
    rx_rv_uninit := fun _ => 0 }

/-- A closed interface with one receive queue slot, no transmit queue, and
program 7 attached. -/
def dev_rx_closed : onic_netdev :=
  { priv := { num_tx_queues := 0, netdev_stats := default, tx_queue := [], prog := some 7
              xdp_stats := default }
    num_rx_queues := 1
    rx_queue := [none]
    mtu := 1500
    running := false }

/-- The receive queue `onic_init_rx_queue` installs under `open_env_ok`: 384
usable slots holding pages 1000 to 1383, head 256, tail 0. -/
def rxq_384 : onic_rx_queue :=
  { qid := 0
    buffer := (List.range 384).map (fun i => { pg := 1000 + i, offset := 256, time_stamp := 0 })
    desc_ring := { count := 385, wb := true, next_to_use := 256, next_to_clean := 0, color := 0 }
    cmpl_ring := { count := 385, wb := true, next_to_use := 0, next_to_clean := 0, color := 1 } }

/-- Completions pending at positions 0 to 128, color 1, no error; the attached
program returns `XDP_DROP`. -/
def rx_env_drop129 : rx_poll_env :=
  { rx_env_of (fun p => { pkt_id := p, pkt_len := 60, err := 0, color := 1 }) 129 with
    xdp_act := fun _ => XDP_DROP }

/-- A closed interface with one transmit and two receive queue slots. -/
def dev_two : onic_netdev :=
  { priv := { num_tx_queues := 1, netdev_stats := default, tx_queue := [none], prog := none
              xdp_stats := default }
    num_rx_queues := 2
    rx_queue := [none, none]
    mtu := 1500
    running := false }

/-- A running interface with program 7 attached. -/
def dev_running_prog : onic_netdev := { dev_rx_closed with running := true }

/-- A running interface without a program. -/
def dev_running_noprog : onic_netdev :=
  { dev_rx_closed with
    running := true
    priv := { dev_rx_closed.priv with prog := none } }

/-- Bring-up in which the allocation of the page-pool parameters fails; the
local `rv` of `onic_init_rx_queue` holds 0 on entry. -/
def open_env_no_pparam : open_env := { open_env_ok with rx_pparam_alloc := fun _ => false }

/-- Bring-up in which `page_pool_create` fails; the local `rv` holds 0. -/
def open_env_no_ppool : open_env := { open_env_ok with rx_ppool_create := fun _ => false }

/-- Bring-up in which `xdp_rxq_info_reg` fails with -22; the local `rv`
holds 0. -/
def open_env_no_xdp_reg : open_env := { open_env_ok with rx_xdp_reg := fun _ => -22 }

/-- Bring-up in which `xdp_rxq_info_reg_mem_model` fails with -22; the local
`rv` holds 0. -/
def open_env_no_mem_model : open_env := { open_env_ok with rx_xdp_reg_mem := fun _ => -22 }

/-- Two completions pending; `napi_alloc_skb` fails for every packet. -/
def rx_env_no_skb : rx_poll_env := { rx_env_two with skb_alloc := fun _ => none }

/-- Three completions pending (positions 0 to 2); `napi_alloc_skb` fails for
the second packet of the invocation and succeeds otherwise; an attached
program returns `XDP_PASS`. -/
def rx_env_skb_fail_second : rx_poll_env :=
  { rx_env_of (fun p => { pkt_id := p, pkt_len := 60, err := 0, color := 1 }) 3 with
    skb_alloc := fun i => if i = 1 then none else some (500 + i) }

/-- Loop state at the head of the first iteration on `rxq_384`, the queue
`onic_init_rx_queue` installs (head 256, tail 0, usable capacity 384). -/
def rx_state_384 : rx_poll_state :=
  { priv := dev_rx_closed.priv
    q := rxq_384
    cmpl := { pkt_id := 0, pkt_len := 60, err := 0, color := 1 }
    work := 0
    flipped := false
    trace := []
    consumed := [] }

/-! ## Ring arithmetic: proofs -/

theorem real_count_lt (ring : onic_ring) : onic_ring_get_real_count ring < 65536 := by
  unfold onic_ring_get_real_count
  split <;> omega

theorem real_count_increment_head (ring : onic_ring) :
    onic_ring_get_real_count (onic_ring_increment_head ring) = onic_ring_get_real_count ring := by
  simp [onic_ring_increment_head, onic_ring_get_real_count]

theorem real_count_increment_tail (ring : onic_ring) :
    onic_ring_get_real_count (onic_ring_increment_tail ring) = onic_ring_get_real_count ring := by
  simp [onic_ring_increment_tail, onic_ring_get_real_count]

theorem mod_real_count_u16 (ring : onic_ring) (h : 1 ≤ onic_ring_get_real_count ring) (x : Nat) :
    (x % onic_ring_get_real_count ring) % 65536 = x % onic_ring_get_real_count ring :=
  Nat.mod_eq_of_lt (lt_trans (Nat.mod_lt _ h) (real_count_lt ring))

theorem increment_head_next_to_use (ring : onic_ring) (h : 1 ≤ onic_ring_get_real_count ring) :
    (onic_ring_increment_head ring).next_to_use =
      (ring.next_to_use + 1) % onic_ring_get_real_count ring := by
  simp [onic_ring_increment_head, mod_real_count_u16 ring h]

theorem increment_tail_next_to_clean (ring : onic_ring) (h : 1 ≤ onic_ring_get_real_count ring) :
    (onic_ring_increment_tail ring).next_to_clean =
      (ring.next_to_clean + 1) % onic_ring_get_real_count ring := by
  simp [onic_ring_increment_tail, mod_real_count_u16 ring h]

theorem iterate_head_spec (ring : onic_ring) (h : 1 ≤ onic_ring_get_real_count ring) (k : Nat) :
    onic_ring_get_real_count (onic_ring_increment_head^[k + 1] ring) =
        onic_ring_get_real_count ring ∧
      (onic_ring_increment_head^[k + 1] ring).next_to_use =
        (ring.next_to_use + (k + 1)) % onic_ring_get_real_count ring ∧
      (onic_ring_increment_head^[k + 1] ring).next_to_clean = ring.next_to_clean := by
  induction k with
  | zero =>
    refine ⟨real_count_increment_head ring, ?_, rfl⟩
    simpa using increment_head_next_to_use ring h
  | succ k ih =>
    obtain ⟨h1, h2, h3⟩ := ih
    rw [Function.iterate_succ_apply']
    refine ⟨by rw [real_count_increment_head, h1], ?_, ?_⟩
    · rw [increment_head_next_to_use _ (by rw [h1]; exact h), h1, h2, Nat.mod_add_mod]
      rfl
    · rw [← h3]; rfl

theorem iterate_tail_spec (ring : onic_ring) (h : 1 ≤ onic_ring_get_real_count ring) (k : Nat) :
    onic_ring_get_real_count (onic_ring_increment_tail^[k + 1] ring) =
        onic_ring_get_real_count ring ∧
      (onic_ring_increment_tail^[k + 1] ring).next_to_clean =
        (ring.next_to_clean + (k + 1)) % onic_ring_get_real_count ring ∧
      (onic_ring_increment_tail^[k + 1] ring).next_to_use = ring.next_to_use := by
  induction k with
  | zero =>
    refine ⟨real_count_increment_tail ring, ?_, rfl⟩
    simpa using increment_tail_next_to_clean ring h
  | succ k ih =>
    obtain ⟨h1, h2, h3⟩ := ih
    rw [Function.iterate_succ_apply']
    refine ⟨by rw [real_count_increment_tail, h1], ?_, ?_⟩
    · rw [increment_tail_next_to_clean _ (by rw [h1]; exact h), h1, h2, Nat.mod_add_mod]
      rfl
    · rw [← h3]; rfl

theorem ring_outstanding_eq (ring : onic_ring)
    (hu : ring.next_to_use < onic_ring_get_real_count ring)
    (hc : ring.next_to_clean < onic_ring_get_real_count ring) :
    ring_outstanding ring =
      if ring.next_to_clean ≤ ring.next_to_use then
        (ring.next_to_use : Int) - ring.next_to_clean
      else (ring.next_to_use : Int) - ring.next_to_clean + onic_ring_get_real_count ring := by
  unfold ring_outstanding
  split
  · exact Int.emod_eq_of_lt (by omega) (by omega)
  · rw [← Int.add_emod_self]
    exact Int.emod_eq_of_lt (by omega) (by omega)

theorem ring_full_iff (ring : onic_ring)
    (hu : ring.next_to_use < onic_ring_get_real_count ring)
    (hc : ring.next_to_clean < onic_ring_get_real_count ring) :
    onic_ring_full ring = true ↔
      ring_outstanding ring = (onic_ring_get_real_count ring : Int) - 1 := by
  rw [ring_outstanding_eq ring hu hc]
  unfold onic_ring_full
  simp only [beq_iff_eq]
  by_cases h : ring.next_to_use + 1 < onic_ring_get_real_count ring
  · rw [Nat.mod_eq_of_lt h]
    split <;> omega
  · have h' : ring.next_to_use + 1 = onic_ring_get_real_count ring := by omega
    rw [h', Nat.mod_self]
    split <;> omega

theorem ring_step_spec (ring ring' : onic_ring) (op : ring_op)
    (hu : ring.next_to_use < onic_ring_get_real_count ring)
    (hc : ring.next_to_clean < onic_ring_get_real_count ring)
    (h : ring_step ring op = some ring') :
    onic_ring_get_real_count ring' = onic_ring_get_real_count ring ∧
      ring'.next_to_use < onic_ring_get_real_count ring ∧
      ring'.next_to_clean < onic_ring_get_real_count ring ∧
      ring_outstanding ring' = ring_outstanding ring + net_enqueued [op] := by
  have hN : 1 ≤ onic_ring_get_real_count ring := by omega
  cases op with
  | enqueue =>
    simp only [ring_step] at h
    split at h
    · exact absurd h (by simp)
    · rename_i hf
      have hf' : ¬ (ring_outstanding ring = (onic_ring_get_real_count ring : Int) - 1) :=
        fun e => hf ((ring_full_iff ring hu hc).2 e)
      simp only [Option.some.injEq] at h
      subst h
      have e1 := increment_head_next_to_use ring hN
      have e2 : (onic_ring_increment_head ring).next_to_clean = ring.next_to_clean := rfl
      have e3 := real_count_increment_head ring
      have hlt : (onic_ring_increment_head ring).next_to_use < onic_ring_get_real_count ring := by
        rw [e1]; exact Nat.mod_lt _ hN
      refine ⟨e3, hlt, by rw [e2]; exact hc, ?_⟩
      rw [ring_outstanding_eq _ (by rw [e3]; exact hlt) (by rw [e3, e2]; exact hc)]
      rw [ring_outstanding_eq ring hu hc] at hf' ⊢
      rw [e2, e3, e1]
      simp only [net_enqueued]
      by_cases hw : ring.next_to_use + 1 < onic_ring_get_real_count ring
      · rw [Nat.mod_eq_of_lt hw]
        split <;> split <;> split at hf' <;> omega
      · have h' : ring.next_to_use + 1 = onic_ring_get_real_count ring := by omega
        rw [h', Nat.mod_self]
        split <;> split <;> split at hf' <;> omega
  | reclaim =>
    simp only [ring_step] at h
    split at h
    · exact absurd h (by simp)
    · rename_i hne
      simp only [Option.some.injEq] at h
      subst h
      have e1 := increment_tail_next_to_clean ring hN
      have e2 : (onic_ring_increment_tail ring).next_to_use = ring.next_to_use := rfl
      have e3 := real_count_increment_tail ring
      have hlt : (onic_ring_increment_tail ring).next_to_clean < onic_ring_get_real_count ring := by
        rw [e1]; exact Nat.mod_lt _ hN
      refine ⟨e3, by rw [e2]; exact hu, hlt, ?_⟩
      rw [ring_outstanding_eq _ (by rw [e3, e2]; exact hu) (by rw [e3]; exact hlt)]
      rw [ring_outstanding_eq ring hu hc]
      rw [e2, e3, e1]
      simp only [net_enqueued]
      by_cases hw : ring.next_to_clean + 1 < onic_ring_get_real_count ring
      · rw [Nat.mod_eq_of_lt hw]
        split <;> split <;> omega
      · have h' : ring.next_to_clean + 1 = onic_ring_get_real_count ring := by omega
        rw [h', Nat.mod_self]
        split <;> split <;> omega

theorem net_enqueued_cons (op : ring_op) (ops : List ring_op) :
    net_enqueued (op :: ops) = net_enqueued ops + net_enqueued [op] := by
  cases op
  · simp [net_enqueued]
  · simp [net_enqueued]; omega

theorem ring_run_spec (ops : List ring_op) : ∀ (ring ring' : onic_ring),
    ring.next_to_use < onic_ring_get_real_count ring →
    ring.next_to_clean < onic_ring_get_real_count ring →
    ring_run ring ops = some ring' →
    onic_ring_get_real_count ring' = onic_ring_get_real_count ring ∧
      ring'.next_to_use < onic_ring_get_real_count ring ∧
      ring'.next_to_clean < onic_ring_get_real_count ring ∧
      ring_outstanding ring' = ring_outstanding ring + net_enqueued ops := by
  induction ops with
  | nil =>
    intro ring ring' hu hc h
    simp only [ring_run, Option.some.injEq] at h
    subst h
    simp [net_enqueued, hu, hc]
  | cons op ops ih =>
    intro ring ring' hu hc h
    simp only [ring_run] at h
    split at h
    · exact absurd h (by simp)
    · rename_i mid hstep
      obtain ⟨m1, m2, m3, m4⟩ := ring_step_spec ring mid op hu hc hstep
      obtain ⟨r1, r2, r3, r4⟩ := ih mid ring' (by rw [m1]; exact m2) (by rw [m1]; exact m3) h
      rw [m1] at r1 r2 r3
      refine ⟨r1, r2, r3, ?_⟩
      rw [r4, m4, net_enqueued_cons op ops]
      omega

/-- C1: on a ring of usable capacity `N ≥ 1` with both indices below `N`,
`onic_ring_full` holds exactly when `(next_to_use - next_to_clean) mod N = N - 1`;
and after any sequence of guarded head and tail advances from an empty ring the
outstanding count equals the number of entries enqueued and not yet reclaimed
and is at most `N - 1`, with both indices still below `N`. -/
theorem C1_ring_full_iff_outstanding (ring : onic_ring)
    (hu : ring.next_to_use < onic_ring_get_real_count ring)
    (hc : ring.next_to_clean < onic_ring_get_real_count ring) :
    (onic_ring_full ring = true ↔
        ring_outstanding ring = (onic_ring_get_real_count ring : Int) - 1) ∧
      ∀ (ops : List ring_op) (ring' : onic_ring),
        ring.next_to_use = ring.next_to_clean →
        ring_run ring ops = some ring' →
        ring_outstanding ring' = net_enqueued ops ∧
          net_enqueued ops ≤ (onic_ring_get_real_count ring : Int) - 1 ∧
          0 ≤ net_enqueued ops ∧
          onic_ring_get_real_count ring' = onic_ring_get_real_count ring ∧
          ring'.next_to_use < onic_ring_get_real_count ring ∧
          ring'.next_to_clean < onic_ring_get_real_count ring := by
  refine ⟨ring_full_iff ring hu hc, ?_⟩
  intro ops ring' hempty hrun
  obtain ⟨r1, r2, r3, r4⟩ := ring_run_spec ops ring ring' hu hc hrun
  have h0 : ring_outstanding ring = 0 := by
    rw [ring_outstanding_eq ring hu hc, hempty]; simp
  rw [h0, zero_add] at r4
  have hb := ring_outstanding_eq ring' (by rw [r1]; exact r2) (by rw [r1]; exact r3)
  rw [r1] at hb
  refine ⟨r4, ?_, ?_, r1, r2, r3⟩
  · rw [← r4, hb]; split <;> omega
  · rw [← r4, hb]; split <;> omega

theorem C1_ring_full_iff_outstanding_witness :
    (onic_ring_full ring_demo = true ↔
        ring_outstanding ring_demo = (onic_ring_get_real_count ring_demo : Int) - 1) ∧
      ring_outstanding
          { count := 5, wb := true, next_to_use := 3, next_to_clean := 1, color := 0 } = 2 :=
  have h := C1_ring_full_iff_outstanding ring_demo (by decide) (by decide)
  ⟨h.1,
   (h.2 [ring_op.enqueue, ring_op.enqueue, ring_op.reclaim, ring_op.enqueue]
      { count := 5, wb := true, next_to_use := 3, next_to_clean := 1, color := 0 }
      rfl (by decide)).1.trans (by decide)⟩

/-- C2: on a ring of usable capacity `N ≥ 1`, from any starting index, `k ≥ 1`
head advances leave `next_to_use` below `N` and equal to `(start + k) mod N`,
and `k ≥ 1` tail advances do the same for `next_to_clean`. -/
theorem C2_ring_index_in_range (ring : onic_ring) (k : Nat)
    (hN : 1 ≤ onic_ring_get_real_count ring) (hk : 1 ≤ k) :
    (onic_ring_increment_head^[k] ring).next_to_use < onic_ring_get_real_count ring ∧
      (onic_ring_increment_head^[k] ring).next_to_use =
        (ring.next_to_use + k) % onic_ring_get_real_count ring ∧
      (onic_ring_increment_tail^[k] ring).next_to_clean < onic_ring_get_real_count ring ∧
      (onic_ring_increment_tail^[k] ring).next_to_clean =
        (ring.next_to_clean + k) % onic_ring_get_real_count ring := by
  obtain ⟨j, rfl⟩ : ∃ j, k = j + 1 := ⟨k - 1, by omega⟩
  obtain ⟨_, h2, _⟩ := iterate_head_spec ring hN j
  obtain ⟨_, t2, _⟩ := iterate_tail_spec ring hN j
  refine ⟨?_, h2, ?_, t2⟩
  · rw [h2]; exact Nat.mod_lt _ hN
  · rw [t2]; exact Nat.mod_lt _ hN

theorem C2_ring_index_in_range_witness :
    (onic_ring_increment_head^[9] ring_demo).next_to_use = 1 ∧
      (onic_ring_increment_tail^[9] ring_demo).next_to_clean = 1 := by
  have h := C2_ring_index_in_range ring_demo 9 (by decide) (by decide)
  exact ⟨h.2.1.trans (by decide), h.2.2.2.trans (by decide)⟩

/-! ## Transmit cleanup: proofs -/

theorem clear_set_bit_zero (s : Nat) (h : test_bit 0 s = false) :
    clear_bit 0 (set_bit 0 s) = s := by
  have h1 : set_bit 0 s = s + 1 := by simp [set_bit, h]
  have h2 : test_bit 0 (s + 1) = true := by
    simp only [test_bit, pow_zero, Nat.div_one, beq_iff_eq, beq_eq_false_iff_ne] at h ⊢
    omega
  rw [h1]
  simp [clear_bit, h2]

theorem tx_clean_loop_spec (n : Nat) : ∀ (q : onic_tx_queue),
    q.ring.next_to_clean < onic_ring_get_real_count q.ring →
    (onic_tx_clean_loop n q).1 =
        { q with ring := { q.ring with
            next_to_clean := (q.ring.next_to_clean + n) % onic_ring_get_real_count q.ring } } ∧
      (onic_tx_clean_loop n q).2 =
        (List.range n).flatMap (fun i => tx_buffer_release
          (q.buffer.getD ((q.ring.next_to_clean + i) % onic_ring_get_real_count q.ring) default)) := by
  induction n with
  | zero =>
    intro q hc
    simp [onic_tx_clean_loop, Nat.mod_eq_of_lt hc]
  | succ n ih =>
    intro q hc
    have hN : 1 ≤ onic_ring_get_real_count q.ring := by omega
    have e1 := increment_tail_next_to_clean q.ring hN
    have e3 := real_count_increment_tail q.ring
    have hlt : (onic_ring_increment_tail q.ring).next_to_clean <
        onic_ring_get_real_count (onic_ring_increment_tail q.ring) := by
      rw [e1, e3]; exact Nat.mod_lt _ hN
    obtain ⟨i1, i2⟩ := ih { q with ring := onic_ring_increment_tail q.ring } hlt
    simp only [onic_tx_clean_loop]
    constructor
    · rw [i1]
      simp only [e1, e3]
      have : ((q.ring.next_to_clean + 1) % onic_ring_get_real_count q.ring + n) %
          onic_ring_get_real_count q.ring =
          (q.ring.next_to_clean + (n + 1)) % onic_ring_get_real_count q.ring := by
        rw [Nat.mod_add_mod]; congr 1; omega
      rw [this]
      rfl
    · rw [i2, List.range_succ_eq_map, List.flatMap_cons, List.flatMap_map]
      simp only [e1, e3, Nat.add_zero, Nat.mod_eq_of_lt hc]
      congr 1
      apply List.flatMap_congr
      intro i _
      have : ((q.ring.next_to_clean + 1) % onic_ring_get_real_count q.ring + i) %
          onic_ring_get_real_count q.ring =
          (q.ring.next_to_clean + i.succ) % onic_ring_get_real_count q.ring := by
        rw [Nat.mod_add_mod]; congr 1; omega
      simp only [Function.comp, this]

theorem tx_clean_spec (q : onic_tx_queue) (wb : qdma_wb_stat)
    (hlock : test_bit 0 q.state = false)
    (hc : q.ring.next_to_clean < onic_ring_get_real_count q.ring)
    (hw : wb.cidx < onic_ring_get_real_count q.ring) :
    (onic_tx_clean q wb).1 = { q with ring := { q.ring with next_to_clean := wb.cidx } } ∧
      (onic_tx_clean q wb).2 =
        (List.range
            (((wb.cidx : Int) - (q.ring.next_to_clean : Int)) %
              (onic_ring_get_real_count q.ring : Int)).toNat).flatMap
          (fun i => tx_buffer_release
            (q.buffer.getD ((q.ring.next_to_clean + i) % onic_ring_get_real_count q.ring)
              default)) := by
  unfold onic_tx_clean
  rw [if_neg (by simp [hlock])]
  simp only []
  by_cases heq : wb.cidx = q.ring.next_to_clean
  · rw [if_pos heq]
    simp only [clear_set_bit_zero _ hlock, heq, sub_self, Int.zero_emod, Int.toNat_zero,
      List.range_zero, List.flatMap_nil, and_self]
  · rw [if_neg heq]
    have hwork : (if (wb.cidx : Int) - (q.ring.next_to_clean : Int) < 0 then
          (wb.cidx : Int) - (q.ring.next_to_clean : Int) + (onic_ring_get_real_count q.ring : Int)
        else (wb.cidx : Int) - (q.ring.next_to_clean : Int)) =
        ((wb.cidx : Int) - (q.ring.next_to_clean : Int)) %
          (onic_ring_get_real_count q.ring : Int) := by
      split
      · rw [← Int.add_emod_self]
        exact (Int.emod_eq_of_lt (by omega) (by omega)).symm
      · exact (Int.emod_eq_of_lt (by omega) (by omega)).symm
    rw [hwork]
    obtain ⟨l1, l2⟩ := tx_clean_loop_spec
      (((wb.cidx : Int) - (q.ring.next_to_clean : Int)) %
        (onic_ring_get_real_count q.ring : Int)).toNat
      { q with state := set_bit 0 q.state } hc
    rw [l1, l2]
    simp only [clear_set_bit_zero _ hlock]
    refine ⟨?_, trivial⟩
    have : (q.ring.next_to_clean +
        (((wb.cidx : Int) - (q.ring.next_to_clean : Int)) %
          (onic_ring_get_real_count q.ring : Int)).toNat) %
        onic_ring_get_real_count q.ring = wb.cidx := by
      rw [← hwork]
      split
      · have : (q.ring.next_to_clean + ((wb.cidx : Int) - (q.ring.next_to_clean : Int) +
            (onic_ring_get_real_count q.ring : Int)).toNat) =
            wb.cidx + onic_ring_get_real_count q.ring := by omega
        rw [this, Nat.add_mod_right, Nat.mod_eq_of_lt hw]
      · have : (q.ring.next_to_clean +
            ((wb.cidx : Int) - (q.ring.next_to_clean : Int)).toNat) = wb.cidx := by omega
        rw [this, Nat.mod_eq_of_lt hw]
    rw [this]

theorem ring_positions_nodup (c N n : Nat) (h : n ≤ N) :
    ((List.range n).map (fun i => (c + i) % N)).Nodup := by
  apply List.Nodup.map_on _ (List.nodup_range n)
  intro i hi j hj hij
  simp only [List.mem_range] at hi hj
  have hmod : i % N = j % N := Nat.ModEq.add_left_cancel' c hij
  rwa [Nat.mod_eq_of_lt (by omega), Nat.mod_eq_of_lt (by omega)] at hmod

/-- C3: with the try-lock bit clear and `next_to_clean`, `cidx` below the usable
capacity `N`, `onic_tx_clean` releases the records at positions
`next_to_clean, next_to_clean+1, ...` (mod `N`), `(cidx - next_to_clean) mod N`
of them, in that order and each once (the positions are pairwise distinct),
each payload according to its tag; on return `next_to_clean = cidx` and nothing
else of the queue has changed. -/
theorem C3_tx_clean_releases_completed (q : onic_tx_queue) (wb : qdma_wb_stat)
    (hlock : test_bit 0 q.state = false)
    (hc : q.ring.next_to_clean < onic_ring_get_real_count q.ring)
    (hw : wb.cidx < onic_ring_get_real_count q.ring) :
    (onic_tx_clean q wb).2 =
        (List.range
            (((wb.cidx : Int) - (q.ring.next_to_clean : Int)) %
              (onic_ring_get_real_count q.ring : Int)).toNat).flatMap
          (fun i => tx_buffer_release
            (q.buffer.getD ((q.ring.next_to_clean + i) % onic_ring_get_real_count q.ring)
              default)) ∧
      (∀ buf : onic_tx_buffer, buf.type = ONIC_SKB_BUFF →
        tx_buffer_release buf =
          [event.dma_unmap_single buf.dma_addr buf.len, event.dev_kfree_skb_any buf.ptr]) ∧
      (∀ buf : onic_tx_buffer, buf.type = ONIC_XDP_FRAME →
        tx_buffer_release buf =
          [event.dma_unmap_single buf.dma_addr buf.len,
           event.xdp_return_frame_rx_napi buf.ptr, event.kfree buf.ptr]) ∧
      (onic_tx_clean q wb).1.ring.next_to_clean = wb.cidx ∧
      (onic_tx_clean q wb).1.ring.next_to_use = q.ring.next_to_use ∧
      (onic_tx_clean q wb).1 = { q with ring := { q.ring with next_to_clean := wb.cidx } } ∧
      ((List.range
          (((wb.cidx : Int) - (q.ring.next_to_clean : Int)) %
            (onic_ring_get_real_count q.ring : Int)).toNat).map
        (fun i => (q.ring.next_to_clean + i) % onic_ring_get_real_count q.ring)).Nodup := by
  obtain ⟨h1, h2⟩ := tx_clean_spec q wb hlock hc hw
  refine ⟨h2, ?_, ?_, by rw [h1], by rw [h1], h1, ?_⟩
  · intro buf hb
    simp [tx_buffer_release, hb]
  · intro buf hb
    simp [tx_buffer_release, hb, ONIC_XDP_FRAME, ONIC_SKB_BUFF]
  · apply ring_positions_nodup
    have := Int.emod_lt_of_pos ((wb.cidx : Int) - (q.ring.next_to_clean : Int))
      (show (0 : Int) < (onic_ring_get_real_count q.ring : Int) by omega)
    omega

theorem C3_tx_clean_releases_completed_witness :
    (onic_tx_clean txq_demo wb_demo).2 =
        [event.dma_unmap_single 4096 60, event.dev_kfree_skb_any 71,
         event.dma_unmap_single 8192 90, event.xdp_return_frame_rx_napi 72, event.kfree 72] ∧
      (onic_tx_clean txq_demo wb_demo).1.ring.next_to_clean = 3 ∧
      (onic_tx_clean txq_demo wb_demo).1.ring.next_to_use = 3 :=
  have h := C3_tx_clean_releases_completed txq_demo wb_demo (by decide) (by decide) (by decide)
  ⟨h.1.trans (by decide), h.2.2.2.1, h.2.2.2.2.1⟩

/-- C4: with `next_to_clean` and the completion index below the usable
capacity, a second `onic_tx_clean` on the same writeback slot leaves the queue
(indices, buffer records, lock bit) as the first one left it and releases
nothing. -/
theorem C4_tx_clean_idempotent (q : onic_tx_queue) (wb : qdma_wb_stat)
    (hc : q.ring.next_to_clean < onic_ring_get_real_count q.ring)
    (hw : wb.cidx < onic_ring_get_real_count q.ring) :
    (onic_tx_clean (onic_tx_clean q wb).1 wb).1 = (onic_tx_clean q wb).1 ∧
      (onic_tx_clean (onic_tx_clean q wb).1 wb).2 = [] := by
  by_cases hlock : test_bit 0 q.state = true
  · have h1 : onic_tx_clean q wb = (q, []) := by
      unfold onic_tx_clean; rw [if_pos hlock]
    rw [h1]
    simp only [h1, and_self]
  · have hlock' : test_bit 0 q.state = false := by simpa using hlock
    obtain ⟨h1, _⟩ := tx_clean_spec q wb hlock' hc hw
    obtain ⟨g1, g2⟩ := tx_clean_spec { q with ring := { q.ring with next_to_clean := wb.cidx } } wb
      hlock' hw hw
    rw [h1, g1, g2]
    simp

theorem C4_tx_clean_idempotent_witness :
    (onic_tx_clean (onic_tx_clean txq_demo wb_demo).1 wb_demo).1 =
        (onic_tx_clean txq_demo wb_demo).1 ∧
      (onic_tx_clean (onic_tx_clean txq_demo wb_demo).1 wb_demo).2 = [] :=
  C4_tx_clean_idempotent txq_demo wb_demo (by decide) (by decide)

/-! ## Transmit submission: proofs -/

theorem list_getD_set_self {α : Type} (l : List α) (i : Nat) (x d : α) (h : i < l.length) :
    (l.set i x).getD i d = x := by
  simp [List.getD_eq_getElem?_getD, List.getElem?_set_self h]

theorem list_getD_some_lt {α : Type} (l : List (Option α)) (i : Nat) (x : α)
    (h : l.getD i none = some x) : i < l.length := by
  by_contra hn
  rw [List.getD_eq_default _ _ (by omega)] at h
  exact absurd h (by simp)

theorem tx_clean_loop_frame (n : Nat) : ∀ (q : onic_tx_queue),
    (onic_tx_clean_loop n q).1.buffer = q.buffer ∧
      (onic_tx_clean_loop n q).1.desc = q.desc ∧
      (onic_tx_clean_loop n q).1.qid = q.qid ∧
      (onic_tx_clean_loop n q).1.state = q.state ∧
      (onic_tx_clean_loop n q).1.ring.next_to_use = q.ring.next_to_use ∧
      onic_ring_get_real_count (onic_tx_clean_loop n q).1.ring =
        onic_ring_get_real_count q.ring ∧
      ∀ e ∈ (onic_tx_clean_loop n q).2, ∃ buf, e ∈ tx_buffer_release buf := by
  induction n with
  | zero => intro q; simp [onic_tx_clean_loop]
  | succ n ih =>
    intro q
    obtain ⟨i1, i2, i3, i4, i5, i6, i7⟩ := ih { q with ring := onic_ring_increment_tail q.ring }
    simp only [onic_tx_clean_loop]
    refine ⟨i1, i2, i3, i4, i5, by rw [i6]; exact real_count_increment_tail q.ring, ?_⟩
    intro e he
    rcases List.mem_append.1 he with h | h
    · exact ⟨_, h⟩
    · exact i7 e h

theorem tx_clean_frame (q : onic_tx_queue) (wb : qdma_wb_stat) :
    (onic_tx_clean q wb).1.buffer = q.buffer ∧
      (onic_tx_clean q wb).1.desc = q.desc ∧
      (onic_tx_clean q wb).1.qid = q.qid ∧
      (onic_tx_clean q wb).1.ring.next_to_use = q.ring.next_to_use ∧
      onic_ring_get_real_count (onic_tx_clean q wb).1.ring =
        onic_ring_get_real_count q.ring ∧
      ∀ e ∈ (onic_tx_clean q wb).2, ∃ buf, e ∈ tx_buffer_release buf := by
  unfold onic_tx_clean
  split
  · simp
  · simp only []
    split
    · simp
    · rename_i h1 h2
      obtain ⟨i1, i2, i3, _, i5, i6, i7⟩ := tx_clean_loop_frame
        (if (wb.cidx : Int) - (q.ring.next_to_clean : Int) < 0 then
          (wb.cidx : Int) - (q.ring.next_to_clean : Int) +
            (onic_ring_get_real_count q.ring : Int)
         else (wb.cidx : Int) - (q.ring.next_to_clean : Int)).toNat
        { q with state := set_bit 0 q.state }
      exact ⟨i1, i2, i3, i5, i6, i7⟩

theorem tx_buffer_release_no_head (buf : onic_tx_buffer) (e : event)
    (he : e ∈ tx_buffer_release buf) :
    (∀ i j, e ≠ event.onic_set_tx_head i j) ∧ (∀ s, e ≠ event.dev_kfree_skb s) ∧
      (∀ s, e ≠ event.kfree_skb s) := by
  unfold tx_buffer_release at he
  cases e <;> simp at he ⊢ <;> split_ifs at he <;> simp at he

theorem tx_clean_idle (q : onic_tx_queue) (wb : qdma_wb_stat)
    (h : wb.cidx = q.ring.next_to_clean) : onic_tx_clean q wb = (q, []) := by
  unfold onic_tx_clean
  by_cases hlock : test_bit 0 q.state = true
  · rw [if_pos hlock]
  · rw [if_neg hlock]
    simp only []
    rw [if_pos h, clear_set_bit_zero _ (by simpa using hlock)]

theorem xmit_frame_busy (priv : onic_private) (skb : sk_buff) (env : xmit_env)
    (q0 : onic_tx_queue) (hq : priv.tx_queue.getD skb.queue_mapping none = some q0)
    (hf : onic_ring_full (onic_tx_clean q0 env.wb).1.ring = true) :
    onic_xmit_frame priv skb env =
      some { ret := NETDEV_TX_BUSY
             priv := { priv with
               tx_queue :=
                 priv.tx_queue.set skb.queue_mapping (some (onic_tx_clean q0 env.wb).1) }
             trace := (onic_tx_clean q0 env.wb).2 } := by
  unfold onic_xmit_frame
  simp only [hq, hf, if_true]

theorem xmit_frame_map_failed (priv : onic_private) (skb : sk_buff) (env : xmit_env)
    (q0 : onic_tx_queue) (hq : priv.tx_queue.getD skb.queue_mapping none = some q0)
    (hf : onic_ring_full (onic_tx_clean q0 env.wb).1.ring = false)
    (hm : env.dma_map = none) :
    onic_xmit_frame priv skb env =
      some { ret := NETDEV_TX_OK
             priv := { priv with
               tx_queue :=
                 priv.tx_queue.set skb.queue_mapping (some (onic_tx_clean q0 env.wb).1)
               netdev_stats := { priv.netdev_stats with
                 tx_dropped := priv.netdev_stats.tx_dropped + 1
                 tx_errors := priv.netdev_stats.tx_errors + 1 } }
             trace := (onic_tx_clean q0 env.wb).2 ++
               (if (skb_put_padto skb ETH_ZLEN env.pad_ok).1 < 0 then
                 [event.kfree_skb (skb_put_padto skb ETH_ZLEN env.pad_ok).2.id] else []) ++
               [event.dev_kfree_skb (skb_put_padto skb ETH_ZLEN env.pad_ok).2.id] } := by
  unfold onic_xmit_frame
  simp only [hq, hf, hm, Bool.false_eq_true, if_false]

/-- The queue `onic_xmit_frame` leaves when it accepts a packet mapped at
`dma_addr`, in terms of the queue `q` the cleanup left. -/
theorem xmit_frame_mapped (priv : onic_private) (skb : sk_buff) (env : xmit_env)
    (q0 : onic_tx_queue) (dma_addr : Nat)
    (hq : priv.tx_queue.getD skb.queue_mapping none = some q0)
    (hf : onic_ring_full (onic_tx_clean q0 env.wb).1.ring = false)
    (hm : env.dma_map = some dma_addr) :
    ∃ r, onic_xmit_frame priv skb env = some r ∧ r.ret = NETDEV_TX_OK ∧
      r.priv.num_tx_queues = priv.num_tx_queues ∧ r.priv.prog = priv.prog ∧
      r.priv.xdp_stats = priv.xdp_stats ∧
      r.priv.netdev_stats = { priv.netdev_stats with
        tx_packets := priv.netdev_stats.tx_packets + 1
        tx_bytes := priv.netdev_stats.tx_bytes +
          (skb_put_padto skb ETH_ZLEN env.pad_ok).2.len } ∧
      r.priv.tx_queue = priv.tx_queue.set skb.queue_mapping (some
        { (onic_tx_clean q0 env.wb).1 with
          desc := (onic_tx_clean q0 env.wb).1.desc.set
            (onic_tx_clean q0 env.wb).1.ring.next_to_use
            { len := (skb_put_padto skb ETH_ZLEN env.pad_ok).2.len, src_addr := dma_addr
              metadata := (skb_put_padto skb ETH_ZLEN env.pad_ok).2.len }
          buffer := (onic_tx_clean q0 env.wb).1.buffer.set
            (onic_tx_clean q0 env.wb).1.ring.next_to_use
            { (onic_tx_clean q0 env.wb).1.buffer.getD
                (onic_tx_clean q0 env.wb).1.ring.next_to_use default with
              ptr := (skb_put_padto skb ETH_ZLEN env.pad_ok).2.id, dma_addr := dma_addr
              len := (skb_put_padto skb ETH_ZLEN env.pad_ok).2.len, type := ONIC_SKB_BUFF }
          ring := onic_ring_increment_head (onic_tx_clean q0 env.wb).1.ring }) := by
  unfold onic_xmit_frame
  simp only [hq, hf, hm, Bool.false_eq_true, if_false]
  exact ⟨_, rfl, rfl, rfl, rfl, rfl, rfl, rfl⟩

theorem skb_put_padto_id (skb : sk_buff) (len : Nat) (pad_ok : Bool) :
    (skb_put_padto skb len pad_ok).2.id = skb.id := by
  unfold skb_put_padto
  split_ifs <;> rfl

theorem skb_put_padto_len (skb : sk_buff) (len : Nat) (pad_ok : Bool) (h : len ≤ skb.len) :
    (skb_put_padto skb len pad_ok).2.len = skb.len := by
  unfold skb_put_padto
  rw [if_pos h]

theorem xmit_frames_fill (qid : Nat) (subs : List (sk_buff × xmit_env)) :
    ∀ (priv : onic_private) (q : onic_tx_queue) (k : Nat),
      priv.tx_queue.getD qid none = some q →
      q.ring.next_to_clean < onic_ring_get_real_count q.ring →
      q.ring.next_to_use = (q.ring.next_to_clean + k) % onic_ring_get_real_count q.ring →
      k + subs.length + 1 = onic_ring_get_real_count q.ring →
      (∀ s ∈ subs, s.1.queue_mapping = qid ∧ s.2.wb.cidx = q.ring.next_to_clean ∧
        s.2.dma_map ≠ none) →
      ∀ last : sk_buff × xmit_env, last.1.queue_mapping = qid →
        last.2.wb.cidx = q.ring.next_to_clean →
        ∃ p, onic_xmit_frames priv (subs ++ [last]) =
          some (List.replicate subs.length NETDEV_TX_OK ++ [NETDEV_TX_BUSY], p) := by
  induction subs with
  | nil =>
    intro priv q k hq hc hu hk _ last hl hw
    have hclean := tx_clean_idle q last.2.wb hw
    have hfull : onic_ring_full q.ring = true := by
      unfold onic_ring_full
      simp only [beq_iff_eq]
      rw [hu, Nat.mod_add_mod]
      have : q.ring.next_to_clean + k + 1 =
          q.ring.next_to_clean + onic_ring_get_real_count q.ring := by
        simp only [List.length_nil] at hk; omega
      rw [this, Nat.add_mod_right, Nat.mod_eq_of_lt hc]
    have hb := xmit_frame_busy priv last.1 last.2 q (by rw [hl]; exact hq)
      (by rw [hclean]; exact hfull)
    simp [onic_xmit_frames, hb]
  | cons s subs ih =>
    intro priv q k hq hc hu hk hall last hl hw
    obtain ⟨hs1, hs2, hs3⟩ := hall s (List.mem_cons_self _ _)
    have hN : 1 ≤ onic_ring_get_real_count q.ring := by omega
    have hclean := tx_clean_idle q s.2.wb hs2
    have hnf : onic_ring_full q.ring = false := by
      unfold onic_ring_full
      simp only [beq_eq_false_iff_ne, ne_eq]
      rw [hu, Nat.mod_add_mod]
      simp only [List.length_cons] at hk
      by_cases hlt : q.ring.next_to_clean + k + 1 < onic_ring_get_real_count q.ring
      · rw [Nat.mod_eq_of_lt hlt]; omega
      · rw [Nat.mod_eq_sub_mod (by omega), Nat.mod_eq_of_lt (by omega)]; omega
    obtain ⟨a, ha⟩ : ∃ a, s.2.dma_map = some a := Option.ne_none_iff_exists'.1 hs3
    obtain ⟨r, hr, hret, _, _, _, _, htx⟩ := xmit_frame_mapped priv s.1 s.2 q a
      (by rw [hs1]; exact hq) (by rw [hclean]; exact hnf) ha
    rw [hclean, hs1] at htx
    simp only [] at htx
    have hlen := list_getD_some_lt _ _ _ hq
    have hq' := list_getD_set_self priv.tx_queue qid
      (some { q with
        desc := q.desc.set q.ring.next_to_use
          { len := (skb_put_padto s.1 ETH_ZLEN s.2.pad_ok).2.len, src_addr := a
            metadata := (skb_put_padto s.1 ETH_ZLEN s.2.pad_ok).2.len }
        buffer := q.buffer.set q.ring.next_to_use
          { q.buffer.getD q.ring.next_to_use default with
            ptr := (skb_put_padto s.1 ETH_ZLEN s.2.pad_ok).2.id, dma_addr := a
            len := (skb_put_padto s.1 ETH_ZLEN s.2.pad_ok).2.len, type := ONIC_SKB_BUFF }
        ring := onic_ring_increment_head q.ring }) none hlen
    rw [← htx] at hq'
    have e1 := increment_head_next_to_use q.ring hN
    have e3 := real_count_increment_head q.ring
    obtain ⟨p, hp⟩ := ih r.priv _ (k + 1) hq'
      (by simp only [e3]; exact hc)
      (by simp only [e3, e1]
          rw [hu, Nat.mod_add_mod]
          rfl)
      (by simp only [e3]; simp only [List.length_cons] at hk; omega)
      (fun t ht => by
        obtain ⟨t1, t2, t3⟩ := hall t (List.mem_cons_of_mem _ ht)
        exact ⟨t1, t2, t3⟩)
      last hl hw
    refine ⟨p, ?_⟩
    rw [List.cons_append, onic_xmit_frames, hr]
    simp only []
    rw [hp]
    simp [hret, List.replicate_succ]

/-- C5: `onic_xmit_frame` returns `NETDEV_TX_BUSY` exactly when the ring is
full after the cleanup it runs first, and then the state is the one the cleanup
left (which never moves `next_to_use`, the buffer records or the descriptors)
and the calls made are those of the cleanup: no head is published and no
packet is freed by the submission path.  From an empty ring of usable capacity `N`
without device completions, `N - 1` submissions whose mappings succeed are
accepted and the `N`-th returns `NETDEV_TX_BUSY`. -/
theorem C5_xmit_busy_iff_ring_full (priv : onic_private) (skb : sk_buff) (env : xmit_env)
    (q0 : onic_tx_queue) (hq : priv.tx_queue.getD skb.queue_mapping none = some q0) :
    (∃ r, onic_xmit_frame priv skb env = some r ∧
        (r.ret = NETDEV_TX_BUSY ↔ onic_ring_full (onic_tx_clean q0 env.wb).1.ring = true) ∧
        (r.ret = NETDEV_TX_BUSY →
          r.priv = { priv with
            tx_queue :=
              priv.tx_queue.set skb.queue_mapping (some (onic_tx_clean q0 env.wb).1) } ∧
          r.trace = (onic_tx_clean q0 env.wb).2 ∧
          (onic_tx_clean q0 env.wb).1.ring.next_to_use = q0.ring.next_to_use ∧
          (onic_tx_clean q0 env.wb).1.buffer = q0.buffer ∧
          (onic_tx_clean q0 env.wb).1.desc = q0.desc ∧
          (∀ e ∈ r.trace, (∀ i j, e ≠ event.onic_set_tx_head i j) ∧
            (∀ p, e ≠ event.dev_kfree_skb p) ∧ (∀ p, e ≠ event.kfree_skb p)))) ∧
      ∀ (subs : List (sk_buff × xmit_env)) (last : sk_buff × xmit_env),
        q0.ring.next_to_use = q0.ring.next_to_clean →
        q0.ring.next_to_clean < onic_ring_get_real_count q0.ring →
        subs.length + 1 = onic_ring_get_real_count q0.ring →
        (∀ s ∈ subs, s.1.queue_mapping = skb.queue_mapping ∧
          s.2.wb.cidx = q0.ring.next_to_clean ∧ s.2.dma_map ≠ none) →
        last.1.queue_mapping = skb.queue_mapping →
        last.2.wb.cidx = q0.ring.next_to_clean →
        ∃ p, onic_xmit_frames priv (subs ++ [last]) =
          some (List.replicate subs.length NETDEV_TX_OK ++ [NETDEV_TX_BUSY], p) := by
  constructor
  · by_cases hf : onic_ring_full (onic_tx_clean q0 env.wb).1.ring = true
    · obtain ⟨f1, f2, _, f4, _, f6⟩ := tx_clean_frame q0 env.wb
      refine ⟨_, xmit_frame_busy priv skb env q0 hq hf, ?_, ?_⟩
      · simp [hf]
      · intro _
        refine ⟨rfl, rfl, f4, f1, f2, fun e he => ?_⟩
        obtain ⟨buf, hb⟩ := f6 e he
        exact tx_buffer_release_no_head buf e hb
    · have hf' : onic_ring_full (onic_tx_clean q0 env.wb).1.ring = false := by simpa using hf
      cases hm : env.dma_map with
      | none =>
        refine ⟨_, xmit_frame_map_failed priv skb env q0 hq hf' hm, ?_, ?_⟩
        · simp [hf', NETDEV_TX_OK, NETDEV_TX_BUSY]
        · intro h; simp [NETDEV_TX_OK, NETDEV_TX_BUSY] at h
      | some a =>
        obtain ⟨r, hr, hret, _⟩ := xmit_frame_mapped priv skb env q0 a hq hf' hm
        refine ⟨r, hr, ?_, ?_⟩
        · simp [hf', hret, NETDEV_TX_OK, NETDEV_TX_BUSY]
        · intro h; rw [hret] at h; simp [NETDEV_TX_OK, NETDEV_TX_BUSY] at h
  · intro subs last hempty hc hlen hall hl hw
    exact xmit_frames_fill skb.queue_mapping subs priv q0 0 hq hc
      (by rw [Nat.add_zero, Nat.mod_eq_of_lt hc]; exact hempty) (by omega) hall last hl hw

/-- C6: when the ring is not full after the cleanup and the mapping fails,
`onic_xmit_frame` releases the packet, adds one to `tx_dropped` and to
`tx_errors`, leaves `tx_packets`, `tx_bytes` and the queue as the cleanup left
it (which never moves `next_to_use`, the buffer records or the descriptors, and
changes nothing at all when no completion is pending), publishes no head, and
returns a status other than `NETDEV_TX_BUSY`. -/
theorem C6_xmit_mapping_failure (priv : onic_private) (skb : sk_buff) (env : xmit_env)
    (q0 : onic_tx_queue) (hq : priv.tx_queue.getD skb.queue_mapping none = some q0)
    (hf : onic_ring_full (onic_tx_clean q0 env.wb).1.ring = false)
    (hm : env.dma_map = none) :
    ∃ r, onic_xmit_frame priv skb env = some r ∧
      r.ret ≠ NETDEV_TX_BUSY ∧
      event.dev_kfree_skb skb.id ∈ r.trace ∧
      (∀ i j, event.onic_set_tx_head i j ∉ r.trace) ∧
      r.priv.netdev_stats.tx_dropped = priv.netdev_stats.tx_dropped + 1 ∧
      r.priv.netdev_stats.tx_errors = priv.netdev_stats.tx_errors + 1 ∧
      r.priv.netdev_stats.tx_packets = priv.netdev_stats.tx_packets ∧
      r.priv.netdev_stats.tx_bytes = priv.netdev_stats.tx_bytes ∧
      r.priv.tx_queue =
        priv.tx_queue.set skb.queue_mapping (some (onic_tx_clean q0 env.wb).1) ∧
      (onic_tx_clean q0 env.wb).1.ring.next_to_use = q0.ring.next_to_use ∧
      (onic_tx_clean q0 env.wb).1.buffer = q0.buffer ∧
      (onic_tx_clean q0 env.wb).1.desc = q0.desc ∧
      (env.wb.cidx = q0.ring.next_to_clean → (onic_tx_clean q0 env.wb).1 = q0) := by
  obtain ⟨f1, f2, _, f4, _, f6⟩ := tx_clean_frame q0 env.wb
  refine ⟨_, xmit_frame_map_failed priv skb env q0 hq hf hm, ?_, ?_, ?_, rfl, rfl, rfl, rfl,
    rfl, f4, f1, f2, ?_⟩
  · simp [NETDEV_TX_OK, NETDEV_TX_BUSY]
  · simp [skb_put_padto_id]
  · intro i j hmem
    simp only [List.mem_append, List.mem_singleton] at hmem
    rcases hmem with (h | h) | h
    · obtain ⟨buf, hb⟩ := f6 _ h
      exact (tx_buffer_release_no_head buf _ hb).1 i j rfl
    · split_ifs at h <;> simp at h
    · exact absurd h (by simp)
  · intro h; rw [tx_clean_idle q0 env.wb h]

/-- C7: when the ring is not full after the cleanup and the mapping succeeds,
`onic_xmit_frame` writes at the old `next_to_use` a descriptor with the mapped
address and with length and metadata equal to the packet length `skb->len`
(the original length for a packet of at least `ETH_ZLEN` bytes), records there
a host-packet buffer entry with that packet, address and length, advances
`next_to_use` by one modulo `N` leaving `next_to_clean` as the cleanup left it,
adds one to `tx_packets` and the packet length to `tx_bytes`, and returns
`NETDEV_TX_OK`. -/
theorem C7_xmit_accepts_packet (priv : onic_private) (skb : sk_buff) (env : xmit_env)
    (q0 : onic_tx_queue) (dma_addr : Nat)
    (hq : priv.tx_queue.getD skb.queue_mapping none = some q0)
    (hf : onic_ring_full (onic_tx_clean q0 env.wb).1.ring = false)
    (hm : env.dma_map = some dma_addr)
    (hN : 1 ≤ onic_ring_get_real_count q0.ring)
    (hb : q0.ring.next_to_use < q0.buffer.length)
    (hd : q0.ring.next_to_use < q0.desc.length) :
    ∃ r q', onic_xmit_frame priv skb env = some r ∧ r.ret = NETDEV_TX_OK ∧
      r.priv.tx_queue.getD skb.queue_mapping none = some q' ∧
      q'.desc.getD q0.ring.next_to_use default =
        { len := (skb_put_padto skb ETH_ZLEN env.pad_ok).2.len, src_addr := dma_addr
          metadata := (skb_put_padto skb ETH_ZLEN env.pad_ok).2.len } ∧
      q'.buffer.getD q0.ring.next_to_use default =
        { q0.buffer.getD q0.ring.next_to_use default with
          ptr := skb.id, dma_addr := dma_addr
          len := (skb_put_padto skb ETH_ZLEN env.pad_ok).2.len, type := ONIC_SKB_BUFF } ∧
      q'.ring.next_to_use = (q0.ring.next_to_use + 1) % onic_ring_get_real_count q0.ring ∧
      q'.ring.next_to_clean = (onic_tx_clean q0 env.wb).1.ring.next_to_clean ∧
      r.priv.netdev_stats.tx_packets = priv.netdev_stats.tx_packets + 1 ∧
      r.priv.netdev_stats.tx_bytes =
        priv.netdev_stats.tx_bytes + (skb_put_padto skb ETH_ZLEN env.pad_ok).2.len ∧
      r.priv.netdev_stats.tx_dropped = priv.netdev_stats.tx_dropped ∧
      r.priv.netdev_stats.tx_errors = priv.netdev_stats.tx_errors ∧
      (ETH_ZLEN ≤ skb.len → (skb_put_padto skb ETH_ZLEN env.pad_ok).2.len = skb.len) := by
  obtain ⟨f1, f2, _, f4, f5, _⟩ := tx_clean_frame q0 env.wb
  obtain ⟨r, hr, hret, _, _, _, hst, htx⟩ := xmit_frame_mapped priv skb env q0 dma_addr hq hf hm
  have hlen := list_getD_some_lt _ _ _ hq
  have hget := congrArg (fun l => l.getD skb.queue_mapping none) htx
  simp only [list_getD_set_self _ _ _ _ hlen] at hget
  refine ⟨r, _, hr, hret, hget, ?_, ?_, ?_, ?_, ?_, ?_, ?_, ?_, skb_put_padto_len skb _ _⟩
  · simp only [f4, f2]
    exact list_getD_set_self _ _ _ _ hd
  · simp only [f4, f1, skb_put_padto_id]
    exact list_getD_set_self _ _ _ _ hb
  · simp only []
    rw [increment_head_next_to_use _ (by rw [f5]; exact hN), f4, f5]
  · rfl
  · rw [hst]
  · rw [hst]
  · rw [hst]
  · rw [hst]

theorem C5_xmit_busy_iff_ring_full_witness :
    ∃ p, onic_xmit_frames priv_demo
        ([(skb_demo, xmit_env_ok), (skb_demo, xmit_env_ok), (skb_demo, xmit_env_ok)] ++
          [(skb_demo, xmit_env_ok)]) =
      some (List.replicate 3 NETDEV_TX_OK ++ [NETDEV_TX_BUSY], p) :=
  (C5_xmit_busy_iff_ring_full priv_demo skb_demo xmit_env_ok txq_empty rfl).2
    [(skb_demo, xmit_env_ok), (skb_demo, xmit_env_ok), (skb_demo, xmit_env_ok)]
    (skb_demo, xmit_env_ok) rfl (by decide) (by decide) (by decide) rfl rfl

theorem C6_xmit_mapping_failure_witness :
    ∃ r, onic_xmit_frame priv_demo skb_demo xmit_env_map_fail = some r ∧
      r.ret ≠ NETDEV_TX_BUSY ∧ event.dev_kfree_skb 900 ∈ r.trace ∧
      r.priv.netdev_stats.tx_dropped = 1 ∧ r.priv.netdev_stats.tx_errors = 1 := by
  obtain ⟨r, h1, h2, h3, _, h5, h6, _⟩ :=
    C6_xmit_mapping_failure priv_demo skb_demo xmit_env_map_fail txq_empty rfl (by decide) rfl
  exact ⟨r, h1, h2, h3, h5, h6⟩

theorem C7_xmit_accepts_packet_witness :
    ∃ r q', onic_xmit_frame priv_demo skb_demo xmit_env_ok = some r ∧
      r.ret = NETDEV_TX_OK ∧
      r.priv.tx_queue.getD 0 none = some q' ∧
      q'.desc.getD 0 default = { len := 60, src_addr := 4096, metadata := 60 } ∧
      q'.ring.next_to_use = 1 ∧
      r.priv.netdev_stats.tx_packets = 1 ∧ r.priv.netdev_stats.tx_bytes = 60 := by
  obtain ⟨r, q', h1, h2, h3, h4, _, h6, _, h8, h9, _⟩ :=
    C7_xmit_accepts_packet priv_demo skb_demo xmit_env_ok txq_empty 4096 rfl (by decide) rfl
      (by decide) (by decide) (by decide)
  exact ⟨r, q', h1, h2, h3, h4, h6, h8, h9⟩

/-! ## Receive poll: proofs -/

theorem rx_dispatch_brk (env : rx_poll_env) (s : rx_poll_state) (v : Nat) (e : rx_exit)
    (h : (rx_dispatch env s v).brk = some e) :
    e = rx_exit.alloc_failed ∨ e = rx_exit.deliver_failed := by
  unfold rx_dispatch at h
  simp only [] at h
  split_ifs at h <;> (try split at h) <;> (try split at h) <;> simp at h <;>
    first
    | exact Or.inl h.symm
    | exact Or.inr h.symm

theorem rx_refill_cmpl_ring (q : onic_rx_queue) :
    (if onic_rx_high_watermark q then onic_rx_refill q else (q, [])).1.cmpl_ring =
      q.cmpl_ring := by
  split_ifs <;> rfl

theorem rx_advanced_work (s : rx_poll_state) (v : Nat) :
    (rx_poll_advanced s v).work = s.work + 1 := rfl

theorem rx_advanced_consumed (s : rx_poll_state) (v : Nat) :
    ∃ c : rx_consumed, (rx_poll_advanced s v).consumed = s.consumed ++ [c] ∧
      c.cmpl_idx = s.q.cmpl_ring.next_to_clean ∧ c.cmpl = s.cmpl ∧
      c.color_before = s.q.cmpl_ring.color ∧
      c.color_after = (rx_poll_advanced s v).q.cmpl_ring.color := by
  refine ⟨_, rfl, ?_, rfl, ?_, rfl⟩
  · simp only [rx_refill_cmpl_ring]
  · simp only [rx_refill_cmpl_ring]; rfl

theorem rx_advanced_cmpl_ring (s : rx_poll_state) (v : Nat) :
    (rx_poll_advanced s v).q.cmpl_ring.next_to_clean =
        (onic_ring_increment_tail s.q.cmpl_ring).next_to_clean ∧
      onic_ring_get_real_count (rx_poll_advanced s v).q.cmpl_ring =
        onic_ring_get_real_count s.q.cmpl_ring ∧
      (rx_poll_advanced s v).q.cmpl_ring.color =
        (if s.cmpl.color ≠ s.q.cmpl_ring.color then
          (if s.q.cmpl_ring.color = 0 then 1 else 0)
         else s.q.cmpl_ring.color) := by
  unfold rx_poll_advanced
  simp only [rx_refill_cmpl_ring]
  have hcol : (onic_ring_increment_tail s.q.cmpl_ring).color = s.q.cmpl_ring.color := rfl
  simp only [hcol, bne_iff_ne, ne_eq]
  split_ifs <;> refine ⟨rfl, ?_, rfl⟩ <;>
    simp [onic_ring_get_real_count, onic_ring_increment_tail]

theorem rx_poll_advance_cases (env : rx_poll_env) (budget : Int) (s : rx_poll_state) (v : Nat) :
    (rx_poll_advance env budget s v =
          rx_iter_outcome.next { rx_poll_advanced s v with
            cmpl := env.cmpl_entry (rx_poll_advanced s v).q.cmpl_ring.next_to_clean } ∧
        (s.work : Int) + 1 < budget) ∨
      (rx_poll_advance env budget s v =
          rx_iter_outcome.budget { rx_poll_advanced s v with
            trace := (rx_poll_advanced s v).trace ++
              [event.napi_complete, event.napi_reschedule] } ∧
        budget ≤ (s.work : Int) + 1) := by
  unfold rx_poll_advance
  simp only [rx_advanced_work]
  by_cases h : ((s.work + 1 : Nat) : Int) ≥ budget
  · right
    rw [if_pos h]
    exact ⟨rfl, by push_cast at h; omega⟩
  · left
    rw [if_neg h]
    exact ⟨rfl, by push_cast at h; omega⟩

/-- How one loop iteration ends, with the state it hands on expressed through
`rx_poll_advanced`. -/
theorem rx_poll_iter_cases (env : rx_poll_env) (budget : Int) (s : rx_poll_state) :
    (∃ s1 v, rx_poll_iter env budget s =
          rx_iter_outcome.next { rx_poll_advanced s1 v with
            cmpl := env.cmpl_entry (rx_poll_advanced s1 v).q.cmpl_ring.next_to_clean } ∧
        s1.q = s.q ∧ s1.cmpl = s.cmpl ∧ s1.work = s.work ∧ s1.consumed = s.consumed ∧
        (s.work : Int) + 1 < budget) ∨
      (∃ s1 v, rx_poll_iter env budget s =
          rx_iter_outcome.budget { rx_poll_advanced s1 v with
            trace := (rx_poll_advanced s1 v).trace ++
              [event.napi_complete, event.napi_reschedule] } ∧
        s1.q = s.q ∧ s1.cmpl = s.cmpl ∧ s1.work = s.work ∧ s1.consumed = s.consumed ∧
        budget ≤ (s.work : Int) + 1) ∨
      (∃ s1 e, rx_poll_iter env budget s = rx_iter_outcome.brk s1 e ∧
        s1.q = s.q ∧ s1.cmpl = s.cmpl ∧ s1.work = s.work ∧ s1.consumed = s.consumed ∧
        (e = rx_exit.alloc_failed ∨ e = rx_exit.deliver_failed)) := by
  unfold rx_poll_iter
  simp only []
  split
  · rename_i e he
    exact Or.inr (Or.inr ⟨_, e, rfl, rfl, rfl, rfl, rfl, rx_dispatch_brk _ _ _ _ he⟩)
  · rcases rx_poll_advance_cases env budget _ _ with ⟨h1, h2⟩ | ⟨h1, h2⟩
    · exact Or.inl ⟨_, _, h1, rfl, rfl, rfl, rfl, h2⟩
    · exact Or.inr (Or.inl ⟨_, _, h1, rfl, rfl, rfl, rfl, h2⟩)

/-- The loop reaches an exit within `fuel` iterations as soon as
`fuel + work ≥ max budget 1`; the work counter equals the number of consumed
entries and, on the budget exit, the budget. -/
theorem rx_poll_loop_spec (env : rx_poll_env) (budget : Int) (fuel : Nat) :
    ∀ s : rx_poll_state, (s.work : Int) < max budget 1 →
      max budget 1 ≤ (fuel : Int) + s.work → s.consumed.length = s.work →
      ∃ s' e, rx_poll_loop env budget fuel s = some (s', e) ∧
        s'.consumed.length = s'.work ∧ (s'.work : Int) ≤ max budget 1 ∧
        (e = rx_exit.out_of_budget →
          budget ≤ (s'.work : Int) ∧ event.napi_reschedule ∈ s'.trace) := by
  induction fuel with
  | zero => intro s h1 h2 _; omega
  | succ fuel ih =>
    intro s h1 h2 h3
    unfold rx_poll_loop
    split_ifs with hc
    · exact ⟨s, _, rfl, h3, le_of_lt h1, fun h => by simp at h⟩
    · rcases rx_poll_iter_cases env budget s with
        ⟨s1, v, hit, _, _, hw, hcs, hb⟩ | ⟨s1, v, hit, _, _, hw, hcs, hb⟩ |
        ⟨s1, e, hit, _, _, hw, hcs, he⟩
      · rw [hit]
        simp only []
        apply ih
        · simp only [rx_advanced_work, hw]; push_cast
          exact lt_of_lt_of_le hb (le_max_left _ _)
        · simp only [rx_advanced_work, hw]; push_cast; push_cast at h2; omega
        · obtain ⟨c, hc', _⟩ := rx_advanced_consumed s1 v
          simp only [hc', rx_advanced_work, List.length_append, List.length_singleton, hcs,
            h3, hw]
      · rw [hit]
        simp only []
        refine ⟨_, _, rfl, ?_, ?_, fun _ => ⟨?_, ?_⟩⟩
        · obtain ⟨c, hc', _⟩ := rx_advanced_consumed s1 v
          simp only [hc', rx_advanced_work, List.length_append, List.length_singleton, hcs,
            h3, hw]
        · simp only [rx_advanced_work, hw]; push_cast; omega
        · simp only [rx_advanced_work, hw]; push_cast; exact hb
        · simp
      · rw [hit]
        simp only []
        refine ⟨_, _, rfl, by rw [hcs, hw, h3], by rw [hw]; exact le_of_lt h1, fun h => ?_⟩
        rcases he with he | he <;> rw [he] at h <;> simp at h

/-- `onic_rx_poll` always returns: unrolling the loop `max budget 1` times
reaches an exit.  The returned count is the number of entries consumed. -/
theorem onic_rx_poll_returns (env : rx_poll_env) (priv : onic_private) (q : onic_rx_queue)
    (budget : Int) :
    ∃ r, onic_rx_poll env priv q budget = some r ∧
      r.ret = (r.consumed.length : Int) ∧ r.ret ≤ max budget 1 ∧
      (r.exit = rx_exit.out_of_budget →
        budget ≤ r.ret ∧ event.napi_reschedule ∈ r.trace) := by
  obtain ⟨s', e, h1, h2, h3, h4⟩ := rx_poll_loop_spec env budget (max budget 1).toNat
    (rx_poll_begin env priv q)
    (by simp [rx_poll_begin])
    (by simp only [rx_poll_begin]; push_cast; omega)
    (by simp [rx_poll_begin])
  unfold onic_rx_poll
  rw [h1]
  simp only []
  refine ⟨_, rfl, ?_, ?_, ?_⟩
  · simp [rx_poll_finish, h2]
  · simpa [rx_poll_finish] using h3
  · intro he
    simp only [rx_poll_finish] at he
    obtain ⟨g1, g2⟩ := h4 he
    refine ⟨by simpa [rx_poll_finish] using g1, ?_⟩
    simp only [rx_poll_finish]
    exact List.mem_append_left _ g2

theorem option_map_eq_some {α β : Type} (o : Option α) (f : α → β) (b : β)
    (h : o.map f = some b) : ∃ a, o = some a ∧ f a = b := by
  cases o with
  | none => simp at h
  | some a => exact ⟨a, rfl, by simpa using h⟩

/-- C8 at budget 0: with budget 0 and a completion pending,
`onic_rx_poll` consumes one entry and returns 1, which exceeds the budget. -/
theorem C8_budget_zero_counterexample :
    ∃ r, onic_rx_poll rx_env_two priv_rx_demo rxq_demo 0 = some r ∧
      r.ret = 1 ∧ r.consumed.length = 1 ∧ ¬ (r.ret ≤ 0) := by
  obtain ⟨r, hr, h⟩ := option_map_eq_some
    (onic_rx_poll rx_env_two priv_rx_demo rxq_demo 0)
    (fun r => (r.ret, r.consumed.length)) (1, 1) (by decide)
  simp only [Prod.mk.injEq] at h
  exact ⟨r, hr, h.1, h.2, by rw [h.1]; decide⟩

/-- C8 for budgets `B ≥ 1`: for every budget `B ≥ 1`, `onic_rx_poll` returns, consumes at
most `B` completion entries and returns their number, which is at most `B`; and
when the loop is left through the budget test the returned count equals `B` and
the poll context has been rescheduled. -/
theorem C8_rx_poll_budget_respected (env : rx_poll_env) (priv : onic_private)
    (q : onic_rx_queue) (budget : Int) (hB : 1 ≤ budget) :
    ∃ r, onic_rx_poll env priv q budget = some r ∧
      (r.consumed.length : Int) ≤ budget ∧ r.ret = (r.consumed.length : Int) ∧
      r.ret ≤ budget ∧
      (r.exit = rx_exit.out_of_budget →
        r.ret = budget ∧ event.napi_reschedule ∈ r.trace) := by
  obtain ⟨r, h1, h2, h3, h4⟩ := onic_rx_poll_returns env priv q budget
  have hmax : max budget 1 = budget := max_eq_left hB
  rw [hmax] at h3
  refine ⟨r, h1, by rw [← h2]; exact h3, h2, h3, fun he => ?_⟩
  obtain ⟨g1, g2⟩ := h4 he
  exact ⟨le_antisymm h3 g1, g2⟩

theorem C8_rx_poll_budget_respected_witness :
    ∃ r, onic_rx_poll rx_env_two priv_rx_demo rxq_demo 1 = some r ∧
      (r.consumed.length : Int) ≤ 1 ∧ r.ret = (r.consumed.length : Int) ∧
      r.ret ≤ 1 ∧
      (r.exit = rx_exit.out_of_budget →
        r.ret = 1 ∧ event.napi_reschedule ∈ r.trace) :=
  C8_rx_poll_budget_respected rx_env_two priv_rx_demo rxq_demo 1 (by decide)

/-- C10 on a batch of two: two completions are consumed,
the second one has its error flag set, and `onic_qdma_clear_error_interrupt`
is not called. -/
theorem C10_error_flag_unchecked_in_loop :
    ∃ r, onic_rx_poll rx_env_err_second priv_rx_demo rxq_demo 64 = some r ∧
      r.consumed.length = 2 ∧ error_entries r.consumed = 1 ∧
      r.trace.count event.onic_qdma_clear_error_interrupt = 0 := by
  obtain ⟨r, hr, h⟩ := option_map_eq_some
    (onic_rx_poll rx_env_err_second priv_rx_demo rxq_demo 64)
    (fun r => (r.consumed.length, error_entries r.consumed,
      r.trace.count event.onic_qdma_clear_error_interrupt)) (2, 1, 0) (by decide)
  simp only [Prod.mk.injEq] at h
  exact ⟨r, hr, h.1, h.2.1, h.2.2⟩

theorem tx_buffer_release_no_clear (buf : onic_tx_buffer) :
    event.onic_qdma_clear_error_interrupt ∉ tx_buffer_release buf := by
  unfold tx_buffer_release
  split_ifs <;> simp

theorem tx_clean_no_clear (q : onic_tx_queue) (wb : qdma_wb_stat) :
    event.onic_qdma_clear_error_interrupt ∉ (onic_tx_clean q wb).2 := by
  intro h
  obtain ⟨_, _, _, _, _, f6⟩ := tx_clean_frame q wb
  obtain ⟨buf, hb⟩ := f6 _ h
  exact tx_buffer_release_no_clear buf hb

theorem tx_clean_all_no_clear (wb : Nat → qdma_wb_stat) (n : Nat) :
    ∀ (i : Nat) (qs : List (Option onic_tx_queue)),
      event.onic_qdma_clear_error_interrupt ∉ (onic_tx_clean_all wb n i qs).2 := by
  induction n with
  | zero => intro i qs; simp [onic_tx_clean_all]
  | succ n ih =>
    intro i qs
    simp only [onic_tx_clean_all]
    split
    · exact ih _ _
    · simp only [List.mem_append, not_or]
      exact ⟨tx_clean_no_clear _ _, ih _ _⟩

theorem xmit_xdp_frame_no_clear (priv : onic_private) (xdpf : xdp_frame) (rx_qid : Nat)
    (wb : qdma_wb_stat) (xmit_more : Bool) (page_dma sizeof_xdpf : Nat) (r : xdp_xmit_result)
    (h : onic_xmit_xdp_frame priv xdpf rx_qid wb xmit_more page_dma sizeof_xdpf = some r) :
    event.onic_qdma_clear_error_interrupt ∉ r.trace := by
  unfold onic_xmit_xdp_frame at h
  simp only [] at h
  split at h
  · exact absurd h (by simp)
  · rename_i q0 _
    have hc := tx_clean_no_clear q0 wb
    split_ifs at h <;> simp only [Option.some.injEq] at h <;> subst h <;> simp [hc]

theorem rx_dispatch_no_clear (env : rx_poll_env) (s : rx_poll_state) (v : Nat) :
    event.onic_qdma_clear_error_interrupt ∉ (rx_dispatch env s v).trace := by
  unfold rx_dispatch
  simp only []
  split_ifs <;> (try split) <;> (try split) <;>
    first
    | (simp; done)
    | (rename_i r hr; exact xmit_xdp_frame_no_clear _ _ _ _ _ _ _ r hr)

theorem rx_advanced_trace (s : rx_poll_state) (v : Nat) :
    (rx_poll_advanced s v).trace.count event.onic_qdma_clear_error_interrupt =
      s.trace.count event.onic_qdma_clear_error_interrupt := by
  unfold rx_poll_advanced
  simp only [List.count_append]
  split_ifs <;> simp [onic_rx_refill]

/-- One loop iteration makes no call to `onic_qdma_clear_error_interrupt`. -/
theorem rx_poll_iter_no_clear (env : rx_poll_env) (budget : Int) (s : rx_poll_state) :
    (rx_poll_iter env budget s).state.trace.count event.onic_qdma_clear_error_interrupt =
      s.trace.count event.onic_qdma_clear_error_interrupt := by
  have hd := rx_dispatch_no_clear env s
    (match s.priv.prog with
      | some _ => onic_run_xdp (env.xdp_act s.work)
      | none => ONIC_XDP_PASS)
  unfold rx_poll_iter
  simp only []
  split
  · simp [rx_iter_outcome.state, List.count_append, List.count_eq_zero_of_not_mem hd]
  · unfold rx_poll_advance
    simp only []
    split_ifs
    · simp [rx_iter_outcome.state, rx_advanced_trace, List.count_append,
        List.count_eq_zero_of_not_mem hd]
    · simp [rx_iter_outcome.state, rx_advanced_trace, List.count_append,
        List.count_eq_zero_of_not_mem hd]

theorem rx_poll_loop_no_clear (env : rx_poll_env) (budget : Int) (fuel : Nat) :
    ∀ (s s' : rx_poll_state) (e : rx_exit), rx_poll_loop env budget fuel s = some (s', e) →
      s'.trace.count event.onic_qdma_clear_error_interrupt =
        s.trace.count event.onic_qdma_clear_error_interrupt := by
  induction fuel with
  | zero =>
    intro s s' e h
    simp only [rx_poll_loop] at h
    split_ifs at h
    simp only [Option.some.injEq, Prod.mk.injEq] at h
    rw [← h.1]
  | succ fuel ih =>
    intro s s' e h
    have hit := rx_poll_iter_no_clear env budget s
    simp only [rx_poll_loop] at h
    split_ifs at h
    · simp only [Option.some.injEq, Prod.mk.injEq] at h
      rw [← h.1]
    · split at h
      · rename_i t ht
        rw [ht] at hit
        rw [ih _ _ _ h]
        exact hit
      · rename_i t e' ht
        rw [ht] at hit
        simp only [Option.some.injEq, Prod.mk.injEq] at h
        rw [← h.1]
        exact hit
      · rename_i t ht
        rw [ht] at hit
        simp only [Option.some.injEq, Prod.mk.injEq] at h
        rw [← h.1]
        exact hit

/-- In every invocation of `onic_rx_poll` the number of calls to
`onic_qdma_clear_error_interrupt` is decided by the entry found at the consumer
index when the invocation starts: one call when its error flag is set, none
otherwise, whatever entries are consumed afterwards. -/
theorem rx_poll_error_clear_count (env : rx_poll_env) (priv : onic_private)
    (q : onic_rx_queue) (budget : Int) (r : rx_poll_result)
    (h : onic_rx_poll env priv q budget = some r) :
    r.trace.count event.onic_qdma_clear_error_interrupt =
      if (env.cmpl_entry q.cmpl_ring.next_to_clean).err = 1 then 1 else 0 := by
  unfold onic_rx_poll at h
  split at h
  · exact absurd h (by simp)
  · rename_i s e hl
    simp only [Option.some.injEq] at h
    subst h
    have h1 := rx_poll_loop_no_clear env budget _ _ _ _ hl
    have h2 : (rx_poll_begin env priv q).trace.count event.onic_qdma_clear_error_interrupt =
        if (env.cmpl_entry q.cmpl_ring.next_to_clean).err = 1 then 1 else 0 := by
      simp only [rx_poll_begin, List.count_append,
        List.count_eq_zero_of_not_mem (tx_clean_all_no_clear env.tx_wb _ _ _)]
      split_ifs <;> simp
    rw [← h2, ← h1]
    simp only [rx_poll_finish, List.count_append]
    split_ifs <;> simp

/-! ## Receive dispatch: proofs -/

theorem rx_poll_iter_eq (env : rx_poll_env) (budget : Int) (s : rx_poll_state) :
    rx_poll_iter env budget s =
      match (rx_dispatch env s (rx_verdict env s)).brk with
      | some e => rx_iter_outcome.brk
          { s with priv := (rx_dispatch env s (rx_verdict env s)).priv
                   trace := s.trace ++ (rx_dispatch env s (rx_verdict env s)).trace } e
      | none => rx_poll_advance env budget
          { s with priv := (rx_dispatch env s (rx_verdict env s)).priv
                   trace := s.trace ++ (rx_dispatch env s (rx_verdict env s)).trace }
          (rx_verdict env s) := rfl

/-- Induction over the consumption loop: a property kept by every iteration
started while completions are pending holds at the loop exit. -/
theorem rx_poll_loop_induct (env : rx_poll_env) (budget : Int) (P : rx_poll_state → Prop)
    (hstep : ∀ s, P s → s.q.cmpl_ring.next_to_clean ≠ env.cmpl_stat.pidx →
      P (rx_poll_iter env budget s).state) (fuel : Nat) :
    ∀ (s s' : rx_poll_state) (e : rx_exit), P s →
      rx_poll_loop env budget fuel s = some (s', e) → P s' := by
  induction fuel with
  | zero =>
    intro s s' e hP h
    simp only [rx_poll_loop] at h
    split_ifs at h
    simp only [Option.some.injEq, Prod.mk.injEq] at h
    rw [← h.1]; exact hP
  | succ fuel ih =>
    intro s s' e hP h
    simp only [rx_poll_loop] at h
    split_ifs at h with hc
    · simp only [Option.some.injEq, Prod.mk.injEq] at h
      rw [← h.1]; exact hP
    · have hs := hstep s hP hc
      split at h
      · rename_i t ht
        rw [ht] at hs
        exact ih _ _ _ hs h
      · rename_i t e' ht
        rw [ht] at hs
        simp only [Option.some.injEq, Prod.mk.injEq] at h
        rw [← h.1]; exact hs
      · rename_i t ht
        rw [ht] at hs
        simp only [Option.some.injEq, Prod.mk.injEq] at h
        rw [← h.1]; exact hs

theorem rx_advanced_fields (s : rx_poll_state) (v : Nat) :
    (rx_poll_advanced s v).priv.xdp_stats = s.priv.xdp_stats ∧
      (rx_poll_advanced s v).priv.prog = s.priv.prog ∧
      (rx_poll_advanced s v).priv.tx_queue = s.priv.tx_queue ∧
      (rx_poll_advanced s v).priv.num_tx_queues = s.priv.num_tx_queues ∧
      (rx_poll_advanced s v).q.buffer = s.q.buffer ∧
      (rx_poll_advanced s v).q.qid = s.q.qid ∧
      (rx_poll_advanced s v).q.desc_ring.next_to_clean =
        (onic_ring_increment_tail s.q.desc_ring).next_to_clean ∧
      onic_ring_get_real_count (rx_poll_advanced s v).q.desc_ring =
        onic_ring_get_real_count s.q.desc_ring := by
  unfold rx_poll_advanced
  simp only []
  split_ifs <;>
    simp [onic_rx_refill, onic_ring_get_real_count, onic_ring_increment_tail]

theorem rx_advanced_record (s : rx_poll_state) (v : Nat) :
    ∃ c : rx_consumed, (rx_poll_advanced s v).consumed = s.consumed ++ [c] ∧
      c.desc_idx = s.q.desc_ring.next_to_clean ∧ c.verdict = v ∧ c.cmpl = s.cmpl :=
  ⟨_, rfl, rfl, rfl, rfl⟩

theorem rx_advanced_trace_eq (s : rx_poll_state) (v : Nat) :
    (rx_poll_advanced s v).trace = s.trace ++
      (if onic_rx_high_watermark
          { s.q with desc_ring := onic_ring_increment_tail s.q.desc_ring } then
        (onic_rx_refill { s.q with desc_ring := onic_ring_increment_tail s.q.desc_ring }).2
       else []) := by
  unfold rx_poll_advanced
  simp only []
  split_ifs <;> rfl

theorem rx_advanced_puts (s : rx_poll_state) (v : Nat) :
    pool_puts (rx_poll_advanced s v).trace = pool_puts s.trace ∧
      stack_deliveries (rx_poll_advanced s v).trace = stack_deliveries s.trace := by
  rw [rx_advanced_trace_eq]
  simp only [pool_puts, stack_deliveries, List.filterMap_append]
  split_ifs <;> simp [onic_rx_refill, event.pool_put, event.delivery]

/-- The state an advance hands on: that of `rx_poll_advanced`, with the two
NAPI calls appended to the trace on the budget exit. -/
theorem rx_advance_state (env : rx_poll_env) (budget : Int) (s : rx_poll_state) (v : Nat) :
    (rx_poll_advance env budget s v).state.priv = (rx_poll_advanced s v).priv ∧
      (rx_poll_advance env budget s v).state.q = (rx_poll_advanced s v).q ∧
      (rx_poll_advance env budget s v).state.work = (rx_poll_advanced s v).work ∧
      (rx_poll_advance env budget s v).state.consumed = (rx_poll_advanced s v).consumed ∧
      pool_puts (rx_poll_advance env budget s v).state.trace =
        pool_puts (rx_poll_advanced s v).trace ∧
      stack_deliveries (rx_poll_advance env budget s v).state.trace =
        stack_deliveries (rx_poll_advanced s v).trace ∧
      rx_heads (rx_poll_advance env budget s v).state.trace =
        rx_heads (rx_poll_advanced s v).trace := by
  unfold rx_poll_advance
  simp only []
  split_ifs <;>
    simp [rx_iter_outcome.state, pool_puts, stack_deliveries, rx_heads, event.pool_put,
      event.delivery, event.rx_head]

theorem xmit_xdp_frame_fields (priv : onic_private) (xdpf : xdp_frame) (rx_qid : Nat)
    (wb : qdma_wb_stat) (xmit_more : Bool) (page_dma sizeof_xdpf : Nat) (r : xdp_xmit_result)
    (h : onic_xmit_xdp_frame priv xdpf rx_qid wb xmit_more page_dma sizeof_xdpf = some r) :
    r.priv.prog = priv.prog ∧ r.priv.num_tx_queues = priv.num_tx_queues ∧
      r.priv.netdev_stats = priv.netdev_stats := by
  unfold onic_xmit_xdp_frame at h
  simp only [] at h
  split at h
  · exact absurd h (by simp)
  · split_ifs at h <;> simp only [Option.some.injEq] at h <;> subst h <;> simp

theorem rx_dispatch_prog (env : rx_poll_env) (s : rx_poll_state) (v : Nat) :
    (rx_dispatch env s v).priv.prog = s.priv.prog := by
  unfold rx_dispatch
  simp only []
  split_ifs <;> (try split) <;> (try split) <;>
    first
    | rfl
    | (rename_i r hr; exact (xmit_xdp_frame_fields _ _ _ _ _ _ _ r hr).1)

/-- The attached program is not changed by a loop iteration. -/
theorem rx_poll_iter_prog (env : rx_poll_env) (budget : Int) (s : rx_poll_state) :
    (rx_poll_iter env budget s).state.priv.prog = s.priv.prog := by
  rw [rx_poll_iter_eq]
  split
  · exact rx_dispatch_prog env s _
  · rw [(rx_advance_state env budget _ _).1, (rx_advanced_fields _ _).2.1]
    exact rx_dispatch_prog env s _

theorem rx_poll_iter_xdp_act_irrelevant (env : rx_poll_env) (budget : Int) (s : rx_poll_state)
    (f : Nat → Int) (h : s.priv.prog = none) :
    rx_poll_iter { env with xdp_act := f } budget s = rx_poll_iter env budget s := by
  rw [rx_poll_iter_eq, rx_poll_iter_eq]
  have hv : rx_verdict { env with xdp_act := f } s = rx_verdict env s := by
    simp [rx_verdict, h]
  rw [hv]
  rfl

theorem rx_poll_loop_xdp_act_irrelevant (env : rx_poll_env) (budget : Int) (f : Nat → Int)
    (fuel : Nat) :
    ∀ s : rx_poll_state, s.priv.prog = none →
      rx_poll_loop { env with xdp_act := f } budget fuel s = rx_poll_loop env budget fuel s := by
  induction fuel with
  | zero => intro s _; rfl
  | succ fuel ih =>
    intro s h
    simp only [rx_poll_loop]
    rw [rx_poll_iter_xdp_act_irrelevant env budget s f h]
    have hp := rx_poll_iter_prog env budget s
    split_ifs
    · rfl
    · split
      · rename_i t ht
        rw [ht] at hp
        exact ih t (by rw [← h]; exact hp)
      · rfl
      · rfl

theorem rx_poll_iter_verdicts (env : rx_poll_env) (budget : Int) (s : rx_poll_state) (v : Nat)
    (hv : rx_verdict env s = v) (h : ∀ c ∈ s.consumed, c.verdict = v) :
    ∀ c ∈ (rx_poll_iter env budget s).state.consumed, c.verdict = v := by
  rw [rx_poll_iter_eq]
  split
  · exact h
  · rw [(rx_advance_state env budget _ _).2.2.2.1]
    obtain ⟨c, hc, _, hcv, _⟩ := rx_advanced_record
      { s with priv := (rx_dispatch env s (rx_verdict env s)).priv
               trace := s.trace ++ (rx_dispatch env s (rx_verdict env s)).trace }
      (rx_verdict env s)
    rw [hc]
    intro c' hc'
    rcases List.mem_append.1 hc' with h1 | h1
    · exact h c' h1
    · rw [List.mem_singleton.1 h1, hcv, hv]

/-- C12: `onic_run_xdp` maps `XDP_PASS`, `XDP_TX`, `XDP_REDIRECT` to the
driver verdicts of the same name and every other value to `ONIC_XDP_DROP`; and
when no program is attached, `onic_rx_poll` applies the verdict Pass to every
entry it consumes and its outcome does not depend on what the program would
return (the program is not run). -/
theorem C12_verdict_mapping_and_no_program (env : rx_poll_env) (priv : onic_private)
    (q : onic_rx_queue) (budget : Int) :
    (onic_run_xdp XDP_PASS = ONIC_XDP_PASS ∧ onic_run_xdp XDP_TX = ONIC_XDP_TX ∧
        onic_run_xdp XDP_REDIRECT = ONIC_XDP_REDIRECT ∧
        ∀ act : Int, act ≠ XDP_PASS → act ≠ XDP_TX → act ≠ XDP_REDIRECT →
          onic_run_xdp act = ONIC_XDP_DROP) ∧
      (priv.prog = none →
        ∃ r, onic_rx_poll env priv q budget = some r ∧
          (∀ c ∈ r.consumed, c.verdict = ONIC_XDP_PASS) ∧
          ∀ f : Nat → Int, onic_rx_poll { env with xdp_act := f } priv q budget = some r) := by
  refine ⟨⟨by decide, by decide, by decide, ?_⟩, ?_⟩
  · intro act h1 h2 h3
    simp [onic_run_xdp, h1, h2, h3]
  · intro hprog
    obtain ⟨r, hr, _⟩ := onic_rx_poll_returns env priv q budget
    refine ⟨r, hr, ?_, ?_⟩
    · unfold onic_rx_poll at hr
      split at hr
      · exact absurd hr (by simp)
      · rename_i s e hl
        simp only [Option.some.injEq] at hr
        subst hr
        have hP := rx_poll_loop_induct env budget
          (fun s => s.priv.prog = none ∧ ∀ c ∈ s.consumed, c.verdict = ONIC_XDP_PASS)
          (fun s hs _ => ⟨by rw [rx_poll_iter_prog]; exact hs.1,
            rx_poll_iter_verdicts env budget s _ (by simp [rx_verdict, hs.1]) hs.2⟩)
          _ _ _ _ ⟨hprog, by simp [rx_poll_begin]⟩ hl
        exact hP.2
    · intro f
      rw [← hr]
      unfold onic_rx_poll
      have hb : rx_poll_begin { env with xdp_act := f } priv q = rx_poll_begin env priv q := rfl
      rw [hb, rx_poll_loop_xdp_act_irrelevant env budget f _ _ hprog]
      rfl

theorem C12_verdict_mapping_and_no_program_witness :
    ∃ r, onic_rx_poll rx_env_two priv_rx_demo rxq_demo 64 = some r ∧
      (∀ c ∈ r.consumed, c.verdict = ONIC_XDP_PASS) ∧
      ∀ f : Nat → Int,
        onic_rx_poll { rx_env_two with xdp_act := f } priv_rx_demo rxq_demo 64 = some r :=
  (C12_verdict_mapping_and_no_program rx_env_two priv_rx_demo rxq_demo 64).2 rfl

theorem tx_buffer_release_projections (buf : onic_tx_buffer) (e : event)
    (he : e ∈ tx_buffer_release buf) :
    e.pool_put = none ∧ e.delivery = none ∧ e.rx_head = none := by
  unfold tx_buffer_release at he
  cases e <;>
    first
    | exact ⟨rfl, rfl, rfl⟩
    | (exfalso; split_ifs at he <;> simp at he)

theorem tx_clean_all_mem (wb : Nat → qdma_wb_stat) (n : Nat) :
    ∀ (i : Nat) (qs : List (Option onic_tx_queue)),
      ∀ e ∈ (onic_tx_clean_all wb n i qs).2, ∃ buf, e ∈ tx_buffer_release buf := by
  induction n with
  | zero => intro i qs e he; simp [onic_tx_clean_all] at he
  | succ n ih =>
    intro i qs e he
    simp only [onic_tx_clean_all] at he
    split at he
    · exact ih _ _ e he
    · rcases List.mem_append.1 he with h | h
      · exact (tx_clean_frame _ _).2.2.2.2.2 e h
      · exact ih _ _ e h

/-- C11 on one error-flagged entry: without a program the packet built from
the error-flagged entry is delivered to the host stack, and with a program
returning `XDP_PASS` it is delivered and counted as passed. -/
theorem C11_error_entry_delivered_counterexample :
    (∃ r, onic_rx_poll rx_env_err_first priv_rx_demo rxq_demo 64 = some r ∧
        error_entries r.consumed = 1 ∧ stack_deliveries r.trace = [500]) ∧
      ∃ r, onic_rx_poll rx_env_err_first priv_rx_prog rxq_demo 64 = some r ∧
        error_entries r.consumed = 1 ∧ stack_deliveries r.trace = [500] ∧
        r.priv.xdp_stats.xdp_passed = 1 := by
  constructor
  · obtain ⟨r, hr, h⟩ := option_map_eq_some
      (onic_rx_poll rx_env_err_first priv_rx_demo rxq_demo 64)
      (fun r => (error_entries r.consumed, stack_deliveries r.trace)) (1, [500]) (by decide)
    simp only [Prod.mk.injEq] at h
    exact ⟨r, hr, h.1, h.2⟩
  · obtain ⟨r, hr, h⟩ := option_map_eq_some
      (onic_rx_poll rx_env_err_first priv_rx_prog rxq_demo 64)
      (fun r => (error_entries r.consumed, stack_deliveries r.trace,
        r.priv.xdp_stats.xdp_passed)) (1, [500], 1) (by decide)
    simp only [Prod.mk.injEq] at h
    exact ⟨r, hr, h.1, h.2.1, h.2.2⟩

theorem rx_dispatch_pass (env : rx_poll_env) (s : rx_poll_state)
    (h : (rx_dispatch env s ONIC_XDP_PASS).brk = none) :
    ∃ skb, env.skb_alloc s.work = some skb ∧
      (rx_dispatch env s ONIC_XDP_PASS).trace =
        [event.page_pool_put_page (s.q.buffer.getD s.q.desc_ring.next_to_clean default).pg,
         event.napi_gro_receive skb s.cmpl.pkt_len s.q.qid] ∧
      (rx_dispatch env s ONIC_XDP_PASS).priv.xdp_stats.xdp_passed =
        s.priv.xdp_stats.xdp_passed + (if s.priv.prog.isSome then 1 else 0) := by
  unfold rx_dispatch at h ⊢
  simp only [if_true] at h ⊢
  cases hs : env.skb_alloc s.work with
  | none => rw [hs] at h; simp at h
  | some skb =>
    rw [hs] at h
    simp only [] at h ⊢
    refine ⟨skb, rfl, ?_, ?_⟩ <;> split_ifs at h ⊢ <;> rfl

theorem rx_iter_completed (o : rx_iter_outcome) (s' : rx_poll_state)
    (h : o.completed = some s') : o.state = s' ∧ ∀ t e, o ≠ rx_iter_outcome.brk t e := by
  cases o <;> simp [rx_iter_outcome.completed, rx_iter_outcome.state] at h ⊢ <;> exact h

theorem rx_advance_not_brk (env : rx_poll_env) (budget : Int) (s : rx_poll_state) (v : Nat) :
    ∀ t e, rx_poll_advance env budget s v ≠ rx_iter_outcome.brk t e := by
  intro t e
  unfold rx_poll_advance
  simp only []
  split_ifs <;> simp

theorem rx_advance_trace_projections (env : rx_poll_env) (budget : Int) (s : rx_poll_state)
    (v : Nat) :
    pool_puts (rx_poll_advance env budget s v).state.trace = pool_puts s.trace ∧
      stack_deliveries (rx_poll_advance env budget s v).state.trace =
        stack_deliveries s.trace := by
  obtain ⟨_, _, _, _, a5, a6, _⟩ := rx_advance_state env budget s v
  obtain ⟨g1, g2⟩ := rx_advanced_puts s v
  exact ⟨a5.trans g1, a6.trans g2⟩

/-- C11, disposition of an error-flagged entry: an iteration of `onic_rx_poll`
that completes its advance on an entry whose error flag is set moves both
consumer indices past it and disposes of it by its verdict exactly as if the
flag were clear; with verdict Pass the packet built from it is delivered to the
host stack, and the pass counter increases by one exactly when a program is
attached. -/
theorem C11_error_entry_follows_verdict (env : rx_poll_env) (budget : Int)
    (s s' : rx_poll_state) (_herr : s.cmpl.err = 1)
    (h : (rx_poll_iter env budget s).completed = some s') :
    s'.q.desc_ring.next_to_clean =
        (onic_ring_increment_tail s.q.desc_ring).next_to_clean ∧
      s'.q.cmpl_ring.next_to_clean =
        (onic_ring_increment_tail s.q.cmpl_ring).next_to_clean ∧
      (rx_verdict env s = ONIC_XDP_PASS →
        ∃ skb, env.skb_alloc s.work = some skb ∧
          stack_deliveries s'.trace = stack_deliveries s.trace ++ [skb] ∧
          s'.priv.xdp_stats.xdp_passed =
            s.priv.xdp_stats.xdp_passed + (if s.priv.prog.isSome then 1 else 0)) ∧
      (∀ e : Nat,
        (rx_poll_iter env budget { s with cmpl := { s.cmpl with err := e } }).state.priv =
            s'.priv ∧
          (rx_poll_iter env budget { s with cmpl := { s.cmpl with err := e } }).state.q =
            s'.q ∧
          (rx_poll_iter env budget { s with cmpl := { s.cmpl with err := e } }).state.trace =
            s'.trace) := by
  obtain ⟨hst, hnb⟩ := rx_iter_completed _ _ h
  have hbrk : (rx_dispatch env s (rx_verdict env s)).brk = none := by
    cases hb : (rx_dispatch env s (rx_verdict env s)).brk with
    | none => rfl
    | some e =>
      exfalso
      rw [rx_poll_iter_eq, hb] at hnb
      exact hnb _ e rfl
  have hiter : rx_poll_iter env budget s = rx_poll_advance env budget
      { s with priv := (rx_dispatch env s (rx_verdict env s)).priv
               trace := s.trace ++ (rx_dispatch env s (rx_verdict env s)).trace }
      (rx_verdict env s) := by
    rw [rx_poll_iter_eq, hbrk]
  rw [hiter] at hst
  subst hst
  obtain ⟨a1, a2, _⟩ := rx_advance_state env budget
    { s with priv := (rx_dispatch env s (rx_verdict env s)).priv
             trace := s.trace ++ (rx_dispatch env s (rx_verdict env s)).trace }
    (rx_verdict env s)
  obtain ⟨f1, _, _, _, _, _, f7, _⟩ := rx_advanced_fields
    { s with priv := (rx_dispatch env s (rx_verdict env s)).priv
             trace := s.trace ++ (rx_dispatch env s (rx_verdict env s)).trace }
    (rx_verdict env s)
  obtain ⟨c1, _, _⟩ := rx_advanced_cmpl_ring
    { s with priv := (rx_dispatch env s (rx_verdict env s)).priv
             trace := s.trace ++ (rx_dispatch env s (rx_verdict env s)).trace }
    (rx_verdict env s)
  refine ⟨by rw [a2, f7], by rw [a2, c1], ?_, ?_⟩
  · intro hv
    rw [hv] at hbrk
    obtain ⟨skb, k1, k2, k3⟩ := rx_dispatch_pass env s hbrk
    refine ⟨skb, k1, ?_, ?_⟩
    · rw [(rx_advance_trace_projections env budget _ _).2]
      simp only [hv, k2, stack_deliveries, List.filterMap_append]
      simp [event.delivery]
    · rw [a1, f1]
      simp only [hv]
      exact k3
  · intro e
    have hd : rx_poll_iter env budget { s with cmpl := { s.cmpl with err := e } } =
        rx_poll_advance env budget
          { s with priv := (rx_dispatch env s (rx_verdict env s)).priv
                   trace := s.trace ++ (rx_dispatch env s (rx_verdict env s)).trace
                   cmpl := { s.cmpl with err := e } }
          (rx_verdict env s) := by
      rw [rx_poll_iter_eq]
      have : (rx_dispatch env { s with cmpl := { s.cmpl with err := e } }
          (rx_verdict env { s with cmpl := { s.cmpl with err := e } })).brk = none := hbrk
      rw [this]
      rfl
    rw [hd]
    unfold rx_poll_advance
    simp only []
    have hw : (rx_poll_advanced
        { s with priv := (rx_dispatch env s (rx_verdict env s)).priv
                 trace := s.trace ++ (rx_dispatch env s (rx_verdict env s)).trace
                 cmpl := { s.cmpl with err := e } } (rx_verdict env s)).work =
        (rx_poll_advanced
        { s with priv := (rx_dispatch env s (rx_verdict env s)).priv
                 trace := s.trace ++ (rx_dispatch env s (rx_verdict env s)).trace }
        (rx_verdict env s)).work := rfl
    rw [hw]
    split_ifs <;> exact ⟨rfl, rfl, rfl⟩

theorem C11_error_entry_follows_verdict_witness :
    ∃ s', (rx_poll_iter rx_env_err_first 64 rx_state_err).completed = some s' ∧
      s'.q.desc_ring.next_to_clean = 1 ∧ s'.q.cmpl_ring.next_to_clean = 1 ∧
      stack_deliveries s'.trace = [500] ∧ s'.priv.xdp_stats.xdp_passed = 0 := by
  obtain ⟨s', hs'⟩ := Option.isSome_iff_exists.1
    (show ((rx_poll_iter rx_env_err_first 64 rx_state_err).completed).isSome = true by decide)
  obtain ⟨h1, h2, h3, _⟩ :=
    C11_error_entry_follows_verdict rx_env_err_first 64 rx_state_err s' rfl hs'
  obtain ⟨skb, k1, k2, k3⟩ := h3 rfl
  have hskb : skb = 500 := by
    have : rx_env_err_first.skb_alloc rx_state_err.work = some 500 := rfl
    rw [this] at k1
    exact (Option.some.inj k1).symm
  rw [hskb] at k2
  exact ⟨s', hs', h1.trans (by decide), h2.trans (by decide), k2, k3⟩

/-! ## Retransmit-out and redirect verdicts: proofs -/

theorem option_map_at {α β : Type} (o : Option α) (f : α → β) (a : α) (b : β)
    (ho : o = some a) (h : o.map f = some b) : f a = b := by
  subst ho
  simpa using h

/-- C14 on a full transmit ring: the verdict is Retransmit-out, the frame is
built, the enqueue fails because transmit queue 0 is full; the frame is handed
back by `xdp_return_frame_rx_napi`, and neither `xdp_tx_dropped` nor `xdp_txed`
changes. -/
theorem C14_enqueue_failure_not_counted :
    ∃ r, onic_rx_poll rx_env_tx priv_tx_full rxq_demo 64 = some r ∧
      r.consumed.map (fun c => c.verdict) = [ONIC_XDP_TX] ∧
      r.priv.xdp_stats.xdp_tx_dropped = 0 ∧ r.priv.xdp_stats.xdp_txed = 0 ∧
      r.trace.count (event.xdp_return_frame_rx_napi 800) = 1 ∧ pool_puts r.trace = [] ∧
      (r.priv.tx_queue.getD 0 none).map (fun q => q.ring.next_to_use) = some 3 := by
  obtain ⟨r, hr⟩ := Option.isSome_iff_exists.1
    (show (onic_rx_poll rx_env_tx priv_tx_full rxq_demo 64).isSome = true by decide)
  exact ⟨r, hr,
    option_map_at _ (fun r => r.consumed.map (fun c => c.verdict)) _ _ hr (by decide),
    option_map_at _ (fun r => r.priv.xdp_stats.xdp_tx_dropped) _ _ hr (by decide),
    option_map_at _ (fun r => r.priv.xdp_stats.xdp_txed) _ _ hr (by decide),
    option_map_at _ (fun r => r.trace.count (event.xdp_return_frame_rx_napi 800)) _ _ hr
      (by decide),
    option_map_at _ (fun r => pool_puts r.trace) _ _ hr (by decide),
    option_map_at _
      (fun r => (r.priv.tx_queue.getD 0 none).map (fun q => q.ring.next_to_use)) _ _ hr
      (by decide)⟩

/-- The Retransmit-out dispatch, case by case: a failed frame allocation or a
failed frame build adds one to `xdp_tx_dropped` and releases the page; a full
transmit ring hands the frame back and changes no counter; otherwise
`xdp_txed` increases by one. -/
theorem rx_dispatch_tx_outcomes (env : rx_poll_env) (s : rx_poll_state) :
    (env.xdpf_alloc s.work = none →
        (rx_dispatch env s ONIC_XDP_TX).priv.xdp_stats =
          { s.priv.xdp_stats with xdp_tx_dropped := s.priv.xdp_stats.xdp_tx_dropped + 1 } ∧
        pool_puts (rx_dispatch env s ONIC_XDP_TX).trace =
          [(s.q.buffer.getD s.q.desc_ring.next_to_clean default).pg]) ∧
      (∀ ptr, env.xdpf_alloc s.work = some ptr → env.xdp_update_ret s.work < 0 →
        (rx_dispatch env s ONIC_XDP_TX).priv.xdp_stats =
          { s.priv.xdp_stats with xdp_tx_dropped := s.priv.xdp_stats.xdp_tx_dropped + 1 } ∧
        pool_puts (rx_dispatch env s ONIC_XDP_TX).trace =
          [(s.q.buffer.getD s.q.desc_ring.next_to_clean default).pg]) ∧
      (∀ ptr q0, env.xdpf_alloc s.work = some ptr → ¬ env.xdp_update_ret s.work < 0 →
        s.priv.tx_queue.getD (s.q.qid % 65536) none = some q0 →
        (onic_ring_full (onic_tx_clean q0 (env.xdp_tx_wb s.work)).1.ring = true →
          (rx_dispatch env s ONIC_XDP_TX).priv.xdp_stats = s.priv.xdp_stats ∧
          (rx_dispatch env s ONIC_XDP_TX).trace =
            (onic_tx_clean q0 (env.xdp_tx_wb s.work)).2 ++
              [event.xdp_return_frame_rx_napi ptr]) ∧
        (onic_ring_full (onic_tx_clean q0 (env.xdp_tx_wb s.work)).1.ring = false →
          (rx_dispatch env s ONIC_XDP_TX).priv.xdp_stats =
            { s.priv.xdp_stats with xdp_txed := s.priv.xdp_stats.xdp_txed + 1 })) := by
  refine ⟨?_, ?_, ?_⟩
  · intro h
    simp [rx_dispatch, ONIC_XDP_TX, ONIC_XDP_PASS, ONIC_XDP_DROP, h, pool_puts,
      event.pool_put]
  · intro ptr h hu
    simp [rx_dispatch, ONIC_XDP_TX, ONIC_XDP_PASS, ONIC_XDP_DROP, h, hu, pool_puts,
      event.pool_put]
  · intro ptr q0 h hu hq
    have hb : (rx_dispatch env s ONIC_XDP_TX) =
        match onic_xmit_xdp_frame s.priv
            { ptr := ptr, pg := (s.q.buffer.getD s.q.desc_ring.next_to_clean default).pg
              len := s.cmpl.pkt_len
              headroom := (s.q.buffer.getD s.q.desc_ring.next_to_clean default).offset -
                env.sizeof_xdpf }
            s.q.qid (env.xdp_tx_wb s.work) (env.xmit_more s.work)
            (env.page_dma (s.q.buffer.getD s.q.desc_ring.next_to_clean default).pg)
            env.sizeof_xdpf with
        | some r => { priv := r.priv, trace := r.trace, brk := none }
        | none => { priv := s.priv, trace := [], brk := none } := by
      unfold rx_dispatch
      simp only [ONIC_XDP_TX, ONIC_XDP_PASS, ONIC_XDP_DROP, h, if_neg hu]
      rfl
    rw [hb]
    unfold onic_xmit_xdp_frame
    simp only [hq]
    constructor
    · intro hf
      simp [hf]
    · intro hf
      simp only [hf, Bool.false_eq_true, if_false]

theorem rx_dispatch_redirect (env : rx_poll_env) (s : rx_poll_state) :
    rx_dispatch env s ONIC_XDP_REDIRECT = { priv := s.priv, trace := [], brk := none } := rfl

/-- C15 on one redirected packet: the verdict is Redirect, the entry is
consumed, and no fast-path counter changes (`xdp_redirected` stays 0); the page
is neither released nor handed on. -/
theorem C15_redirect_not_counted :
    ∃ r, onic_rx_poll rx_env_redirect priv_rx_prog rxq_demo 64 = some r ∧
      r.consumed.map (fun c => c.verdict) = [ONIC_XDP_REDIRECT] ∧
      r.priv.xdp_stats.xdp_redirected = 0 ∧ r.priv.xdp_stats = priv_rx_prog.xdp_stats ∧
      r.q.desc_ring.next_to_clean = 1 ∧ r.q.cmpl_ring.next_to_clean = 1 ∧
      pool_puts r.trace = [] ∧ stack_deliveries r.trace = [] := by
  obtain ⟨r, hr⟩ := Option.isSome_iff_exists.1
    (show (onic_rx_poll rx_env_redirect priv_rx_prog rxq_demo 64).isSome = true by decide)
  exact ⟨r, hr,
    option_map_at _ (fun r => r.consumed.map (fun c => c.verdict)) _ _ hr (by decide),
    option_map_at _ (fun r => r.priv.xdp_stats.xdp_redirected) _ _ hr (by decide),
    option_map_at _ (fun r => r.priv.xdp_stats) _ _ hr (by decide),
    option_map_at _ (fun r => r.q.desc_ring.next_to_clean) _ _ hr (by decide),
    option_map_at _ (fun r => r.q.cmpl_ring.next_to_clean) _ _ hr (by decide),
    option_map_at _ (fun r => pool_puts r.trace) _ _ hr (by decide),
    option_map_at _ (fun r => stack_deliveries r.trace) _ _ hr (by decide)⟩

/-! ## Watermark refill: proofs -/

theorem xmit_xdp_frame_no_rx_head (priv : onic_private) (xdpf : xdp_frame) (rx_qid : Nat)
    (wb : qdma_wb_stat) (xmit_more : Bool) (page_dma sizeof_xdpf : Nat) (r : xdp_xmit_result)
    (h : onic_xmit_xdp_frame priv xdpf rx_qid wb xmit_more page_dma sizeof_xdpf = some r) :
    ∀ e ∈ r.trace, e.rx_head = none := by
  unfold onic_xmit_xdp_frame at h
  simp only [] at h
  split at h
  · exact absurd h (by simp)
  · rename_i q0 _
    have hc : ∀ e ∈ (onic_tx_clean q0 wb).2, e.rx_head = none := fun e he => by
      obtain ⟨buf, hb⟩ := (tx_clean_frame q0 wb).2.2.2.2.2 e he
      exact (tx_buffer_release_projections buf e hb).2.2
    intro e he
    split_ifs at h <;> simp only [Option.some.injEq] at h <;> subst h <;>
      simp only [List.mem_append, List.mem_singleton, List.mem_nil_iff, or_false] at he <;>
      rcases he with he | he <;> 
      first
      | exact hc e he
      | (rw [he]; rfl)
      | (rcases he with he | he <;> first | exact hc e he | (rw [he]; rfl))

theorem rx_dispatch_rx_heads (env : rx_poll_env) (s : rx_poll_state) (v : Nat) :
    rx_heads (rx_dispatch env s v).trace = [] := by
  apply List.filterMap_eq_nil_iff.2
  unfold rx_dispatch
  simp only []
  split_ifs <;> (try split) <;> (try split) <;>
    first
    | (intro e he; simp at he; done)
    | (intro e he; simp at he; rcases he with he | he <;> rw [he] <;> rfl)
    | (intro e he; simp at he; rw [he]; rfl)
    | (rename_i r hr; exact xmit_xdp_frame_no_rx_head _ _ _ _ _ _ _ r hr)

theorem rx_advanced_desc_head (s : rx_poll_state) (v : Nat) :
    (rx_poll_advanced s v).q.desc_ring.next_to_use =
      (if onic_rx_high_watermark
          { s.q with desc_ring := onic_ring_increment_tail s.q.desc_ring } then
        (onic_rx_refill
          { s.q with desc_ring := onic_ring_increment_tail s.q.desc_ring }).1.desc_ring.next_to_use
       else s.q.desc_ring.next_to_use) := by
  unfold rx_poll_advanced
  simp only []
  split_ifs <;> rfl

/-- An iteration that completes its advance is the advance applied to the state
its dispatch left. -/
theorem rx_iter_completed_advance (env : rx_poll_env) (budget : Int) (s s' : rx_poll_state)
    (h : (rx_poll_iter env budget s).completed = some s') :
    (rx_dispatch env s (rx_verdict env s)).brk = none ∧
      s' = (rx_poll_advance env budget
        { s with priv := (rx_dispatch env s (rx_verdict env s)).priv
                 trace := s.trace ++ (rx_dispatch env s (rx_verdict env s)).trace }
        (rx_verdict env s)).state := by
  obtain ⟨hst, hnb⟩ := rx_iter_completed _ _ h
  have hbrk : (rx_dispatch env s (rx_verdict env s)).brk = none := by
    cases hb : (rx_dispatch env s (rx_verdict env s)).brk with
    | none => rfl
    | some e =>
      exfalso
      rw [rx_poll_iter_eq, hb] at hnb
      exact hnb _ e rfl
  refine ⟨hbrk, ?_⟩
  rw [← hst, rx_poll_iter_eq, hbrk]

theorem rx_high_watermark_iff (q : onic_rx_queue)
    (hu : q.desc_ring.next_to_use < onic_ring_get_real_count q.desc_ring)
    (hc : q.desc_ring.next_to_clean < onic_ring_get_real_count q.desc_ring) :
    onic_rx_high_watermark q = true ↔ ring_outstanding q.desc_ring < 128 := by
  rw [ring_outstanding_eq q.desc_ring hu hc]
  unfold onic_rx_high_watermark
  simp only [decide_eq_true_eq, ONIC_RX_DESC_STEP]
  split_ifs <;> omega

theorem rx_refill_head (q : onic_rx_queue)
    (hu : q.desc_ring.next_to_use < onic_ring_get_real_count q.desc_ring)
    (hN : onic_ring_get_real_count q.desc_ring ≤ 65280) :
    (onic_rx_refill q).1.desc_ring.next_to_use =
        (q.desc_ring.next_to_use + 256) % onic_ring_get_real_count q.desc_ring ∧
      (onic_rx_refill q).2 =
        [event.onic_set_rx_head q.qid
          ((q.desc_ring.next_to_use + 256) % onic_ring_get_real_count q.desc_ring)] := by
  have h1 : (q.desc_ring.next_to_use + ONIC_RX_DESC_STEP) % 65536 =
      q.desc_ring.next_to_use + 256 := by
    simp only [ONIC_RX_DESC_STEP]
    exact Nat.mod_eq_of_lt (by omega)
  have h2 : ((q.desc_ring.next_to_use + 256) % onic_ring_get_real_count q.desc_ring) % 65536 =
      (q.desc_ring.next_to_use + 256) % onic_ring_get_real_count q.desc_ring :=
    mod_real_count_u16 q.desc_ring (by omega) _
  unfold onic_rx_refill
  simp only [h1, h2, and_self]

/-- C16 on a ring of usable capacity 65534 with head 65400 and tail 65399: the
iteration refills, the head becomes 120 and 120 is published, while
`(65400 + 256) mod 65534` is 122. -/
theorem C16_refill_head_wraps_counterexample :
    rxq_wide.desc_ring.next_to_use < onic_ring_get_real_count rxq_wide.desc_ring ∧
      onic_ring_get_real_count rxq_wide.desc_ring ≤ 65535 ∧
      ring_outstanding (onic_ring_increment_tail rxq_wide.desc_ring) < 128 ∧
      (rxq_wide.desc_ring.next_to_use + 256) % onic_ring_get_real_count rxq_wide.desc_ring
        = 122 ∧
      ∃ s', (rx_poll_iter (rx_env_of (fun p => { pkt_id := p, pkt_len := 60, err := 0, color := 1 }) 1)
          64 rx_state_wide).completed = some s' ∧
        s'.q.desc_ring.next_to_use = 120 ∧ rx_heads s'.trace = [(0, 120)] := by
  refine ⟨by decide, by decide, by decide, by decide, ?_⟩
  obtain ⟨s', hs'⟩ := Option.isSome_iff_exists.1
    (show ((rx_poll_iter (rx_env_of (fun p => { pkt_id := p, pkt_len := 60, err := 0, color := 1 }) 1)
      64 rx_state_wide).completed).isSome = true by decide)
  exact ⟨s', hs', option_map_at _ (fun t => t.q.desc_ring.next_to_use) _ _ hs' (by decide),
    option_map_at _ (fun t => rx_heads t.trace) _ _ hs' (by decide)⟩

/-- C16, amended to rings of usable capacity at most 65280: in an iteration of
`onic_rx_poll` that completes its advance, with the descriptor head inside the
ring, the refill is performed exactly when the posted count after the tail
advance is below 128; a refill sets the head to `(old head + 256) mod N` and
publishes exactly that value once, and an iteration without refill leaves the
head unchanged and publishes nothing. -/
theorem C16_refill_below_watermark (env : rx_poll_env) (budget : Int)
    (s s' : rx_poll_state)
    (hu : s.q.desc_ring.next_to_use < onic_ring_get_real_count s.q.desc_ring)
    (hN : onic_ring_get_real_count s.q.desc_ring ≤ 65280)
    (h : (rx_poll_iter env budget s).completed = some s') :
    (onic_rx_high_watermark { s.q with desc_ring := onic_ring_increment_tail s.q.desc_ring }
        = true ↔ ring_outstanding (onic_ring_increment_tail s.q.desc_ring) < 128) ∧
      (ring_outstanding (onic_ring_increment_tail s.q.desc_ring) < 128 →
        s'.q.desc_ring.next_to_use =
            (s.q.desc_ring.next_to_use + 256) % onic_ring_get_real_count s.q.desc_ring ∧
          rx_heads s'.trace = rx_heads s.trace ++
            [(s.q.qid,
              (s.q.desc_ring.next_to_use + 256) % onic_ring_get_real_count s.q.desc_ring)]) ∧
      (¬ ring_outstanding (onic_ring_increment_tail s.q.desc_ring) < 128 →
        s'.q.desc_ring.next_to_use = s.q.desc_ring.next_to_use ∧
          rx_heads s'.trace = rx_heads s.trace) := by
  have hN1 : 1 ≤ onic_ring_get_real_count s.q.desc_ring := by omega
  have hrc := real_count_increment_tail s.q.desc_ring
  have hu1 : (onic_ring_increment_tail s.q.desc_ring).next_to_use <
      onic_ring_get_real_count (onic_ring_increment_tail s.q.desc_ring) := by
    rw [hrc]; exact hu
  have hc1 : (onic_ring_increment_tail s.q.desc_ring).next_to_clean <
      onic_ring_get_real_count (onic_ring_increment_tail s.q.desc_ring) := by
    rw [hrc, increment_tail_next_to_clean _ hN1]
    exact Nat.mod_lt _ hN1
  have hw := rx_high_watermark_iff
    { s.q with desc_ring := onic_ring_increment_tail s.q.desc_ring } hu1 hc1
  obtain ⟨hr1, hr2⟩ := rx_refill_head
    { s.q with desc_ring := onic_ring_increment_tail s.q.desc_ring } hu1 (by rw [hrc]; exact hN)
  simp only [hrc] at hr1 hr2
  have hntu : (onic_ring_increment_tail s.q.desc_ring).next_to_use =
      s.q.desc_ring.next_to_use := rfl
  rw [hntu] at hr1 hr2
  obtain ⟨_, hs'⟩ := rx_iter_completed_advance env budget s s' h
  obtain ⟨_, a2, _, _, _, _, a7⟩ := rx_advance_state env budget
    { s with priv := (rx_dispatch env s (rx_verdict env s)).priv
             trace := s.trace ++ (rx_dispatch env s (rx_verdict env s)).trace }
    (rx_verdict env s)
  have hd := rx_advanced_desc_head
    { s with priv := (rx_dispatch env s (rx_verdict env s)).priv
             trace := s.trace ++ (rx_dispatch env s (rx_verdict env s)).trace }
    (rx_verdict env s)
  have ht := rx_advanced_trace_eq
    { s with priv := (rx_dispatch env s (rx_verdict env s)).priv
             trace := s.trace ++ (rx_dispatch env s (rx_verdict env s)).trace }
    (rx_verdict env s)
  have hdz := rx_dispatch_rx_heads env s (rx_verdict env s)
  simp only [rx_heads] at hdz
  subst hs'
  refine ⟨hw, ?_, ?_⟩
  · intro hlt
    have hwt := hw.2 hlt
    rw [a2, a7, hd, ht, if_pos hwt, if_pos hwt, hr1, hr2]
    refine ⟨rfl, ?_⟩
    simp only [rx_heads, List.filterMap_append]
    rw [hdz]
    simp [event.rx_head]
  · intro hlt
    have hwf : ¬ onic_rx_high_watermark
        { s.q with desc_ring := onic_ring_increment_tail s.q.desc_ring } = true :=
      fun hb => hlt (hw.1 hb)
    rw [a2, a7, hd, ht, if_neg hwf, if_neg hwf]
    refine ⟨rfl, ?_⟩
    simp only [rx_heads, List.filterMap_append]
    rw [hdz]
    simp

theorem C16_refill_below_watermark_witness :
    ∃ s', (rx_poll_iter rx_env_two 64 rx_state_demo).completed = some s' ∧
      ring_outstanding (onic_ring_increment_tail rx_state_demo.q.desc_ring) < 128 ∧
      s'.q.desc_ring.next_to_use = 3 ∧ rx_heads s'.trace = [(0, 3)] := by
  obtain ⟨s', hs'⟩ := Option.isSome_iff_exists.1
    (show ((rx_poll_iter rx_env_two 64 rx_state_demo).completed).isSome = true by decide)
  have hlt : ring_outstanding (onic_ring_increment_tail rx_state_demo.q.desc_ring) < 128 := by
    decide
  obtain ⟨_, h2, _⟩ :=
    C16_refill_below_watermark rx_env_two 64 rx_state_demo s' (by decide) (by decide) hs'
  obtain ⟨k1, k2⟩ := h2 hlt
  exact ⟨s', hs', hlt, k1.trans (by decide), k2.trans (by decide)⟩

/-! ## Page ownership: proofs -/

set_option maxRecDepth 100000 in
/-- C17 on a queue of 384 pages: from the state `onic_init_rx_queue`
installs, three polls of budget 64 consume 129 completions with verdict Drop;
afterwards page 1000 has been released to the pool by `page_pool_put_page` and
is posted to the hardware again (slot 0 lies between tail 129 and head 128),
and 129 released plus 383 posted pages exceed the 384 pages drawn. -/
theorem C17_released_page_posted_again :
    (onic_init_rx_queue open_env_ok dev_rx_closed 0).dev.rx_queue = [some rxq_384] ∧
      rxq_384.buffer.length = 384 ∧
      ∃ t, onic_rx_polls 64 [rx_env_drop129, rx_env_drop129, rx_env_drop129]
          dev_rx_closed.priv rxq_384 = some t ∧
        t.2.1.desc_ring.next_to_use = 128 ∧ t.2.1.desc_ring.next_to_clean = 129 ∧
        1000 ∈ pool_puts t.2.2 ∧ 1000 ∈ posted_pages t.2.1 ∧
        (pool_puts t.2.2).length = 129 ∧ (posted_pages t.2.1).length = 383 := by
  refine ⟨by decide, by decide, ?_⟩
  obtain ⟨t, ht⟩ := Option.isSome_iff_exists.1
    (show (onic_rx_polls 64 [rx_env_drop129, rx_env_drop129, rx_env_drop129]
      dev_rx_closed.priv rxq_384).isSome = true by decide)
  have h := option_map_at _
    (fun t : onic_private × onic_rx_queue × List event =>
      (t.2.1.desc_ring.next_to_use, t.2.1.desc_ring.next_to_clean,
        decide (1000 ∈ pool_puts t.2.2), decide (1000 ∈ posted_pages t.2.1),
        (pool_puts t.2.2).length, (posted_pages t.2.1).length))
    t (128, 129, true, true, 129, 383) ht (by decide)
  simp only [Prod.mk.injEq, decide_eq_true_eq] at h
  exact ⟨t, ht, h.1, h.2.1, h.2.2.1, h.2.2.2.1, h.2.2.2.2.1, h.2.2.2.2.2⟩

/-! ## Bring-up and teardown: proofs -/

theorem list_getD_set_ne {α : Type} (l : List α) (i j : Nat) (a d : α) (h : i ≠ j) :
    (l.set i a).getD j d = l.getD j d := by
  simp [List.getD_eq_getElem?_getD, List.getElem?_set_ne h]

theorem hw_after_nil (up : Bool → Nat → Bool) : hw_after up [] = up := rfl

theorem hw_after_append (up : Bool → Nat → Bool) (a b : List ctl_event) :
    hw_after up (a ++ b) = hw_after (hw_after up a) b := by
  funext tx qid
  simp [hw_after, hw_queue_up, List.foldl_append]

theorem tx_frame_refl (a : onic_netdev) : tx_frame a a := ⟨rfl, rfl, rfl, rfl⟩

theorem tx_frame_trans (a b c : onic_netdev) (h1 : tx_frame a b) (h2 : tx_frame b c) :
    tx_frame a c :=
  ⟨h1.1.trans h2.1, h1.2.1.trans h2.2.1, h1.2.2.1.trans h2.2.2.1, h1.2.2.2.trans h2.2.2.2⟩

theorem rx_frame_refl (a : onic_netdev) : rx_frame a a := ⟨rfl, rfl⟩

theorem rx_frame_trans (a b c : onic_netdev) (h1 : rx_frame a b) (h2 : rx_frame b c) :
    rx_frame a c :=
  ⟨h1.1.trans h2.1, h1.2.trans h2.2⟩

theorem clear_tx_queue_frame (dev : onic_netdev) (qid : Nat) :
    tx_frame (onic_clear_tx_queue dev qid).1 dev ∧
      (onic_clear_tx_queue dev qid).1.priv.tx_queue.length = dev.priv.tx_queue.length := by
  unfold onic_clear_tx_queue tx_frame
  split <;> simp

theorem clear_tx_queue_slot (dev : onic_netdev) (qid i : Nat) :
    (onic_clear_tx_queue dev qid).1.priv.tx_queue.getD i none =
      if i = qid then none else dev.priv.tx_queue.getD i none := by
  unfold onic_clear_tx_queue
  split
  · rename_i hq
    by_cases hi : i = qid
    · subst hi; simp only [if_true]; exact hq
    · simp only [if_neg hi]
  · rename_i v hq
    by_cases hi : i = qid
    · subst hi
      simp only [if_true]
      exact list_getD_set_self _ _ _ _ (list_getD_some_lt _ _ v hq)
    · simp only [if_neg hi]
      exact list_getD_set_ne _ _ _ _ _ (Ne.symm hi)

theorem clear_tx_queue_hw (dev : onic_netdev) (qid : Nat) (up : Bool → Nat → Bool)
    (tx : Bool) (q : Nat) (h : hw_after up (onic_clear_tx_queue dev qid).2 tx q = true) :
    up tx q = true ∧
      ¬ (tx = true ∧ q = qid ∧ dev.priv.tx_queue.getD qid none ≠ none) := by
  unfold onic_clear_tx_queue at h
  split at h
  · rename_i hq
    exact ⟨h, fun hc => hc.2.2 hq⟩
  · simp only [hw_after, hw_queue_up, List.foldl_cons, List.foldl_nil, hw_queue_step] at h
    split_ifs at h with hc
    exact ⟨h, fun hd => hc ⟨hd.1, hd.2.1.symm⟩⟩

theorem clear_tx_queue_consistent (dev : onic_netdev) (qid : Nat) (up : Bool → Nat → Bool)
    (h : hw_consistent dev up) :
    hw_consistent (onic_clear_tx_queue dev qid).1
      (hw_after up (onic_clear_tx_queue dev qid).2) := by
  obtain ⟨⟨f1, _, f3, f4⟩, f5⟩ := clear_tx_queue_frame dev qid
  obtain ⟨h1, h2, h3, h4⟩ := h
  refine ⟨by rw [f1, f5]; exact h1, by rw [f3, f4]; exact h2, ?_, ?_⟩
  · intro q hq
    obtain ⟨hu, hn⟩ := clear_tx_queue_hw dev qid up true q hq
    obtain ⟨g1, g2⟩ := h3 q hu
    rw [f1, clear_tx_queue_slot]
    refine ⟨g1, ?_⟩
    by_cases hi : q = qid
    · subst hi
      exact absurd ⟨rfl, rfl, g2⟩ hn
    · simp only [if_neg hi]
      exact g2
  · intro q hq
    obtain ⟨hu, _⟩ := clear_tx_queue_hw dev qid up false q hq
    rw [f3, f4]
    exact h4 q hu

theorem clear_rx_queue_frame (dev : onic_netdev) (qid : Nat) :
    rx_frame (onic_clear_rx_queue dev qid).1 dev ∧
      (onic_clear_rx_queue dev qid).1.rx_queue.length = dev.rx_queue.length := by
  unfold onic_clear_rx_queue rx_frame
  split <;> simp

theorem clear_rx_queue_slot (dev : onic_netdev) (qid i : Nat) :
    (onic_clear_rx_queue dev qid).1.rx_queue.getD i none =
      if i = qid then none else dev.rx_queue.getD i none := by
  unfold onic_clear_rx_queue
  split
  · rename_i hq
    by_cases hi : i = qid
    · subst hi; simp only [if_true]; exact hq
    · simp only [if_neg hi]
  · rename_i v hq
    by_cases hi : i = qid
    · subst hi
      simp only [if_true]
      exact list_getD_set_self _ _ _ _ (list_getD_some_lt _ _ v hq)
    · simp only [if_neg hi]
      exact list_getD_set_ne _ _ _ _ _ (Ne.symm hi)

/-- Control calls that are neither `onic_qdma_init_*_queue` nor
`onic_qdma_clear_*_queue` leave the device-side status as it is. -/
theorem hw_queue_up_recycle (tx : Bool) (qid : Nat) (f : Nat → ctl_event)
    (hf : ∀ i up, hw_queue_step tx qid up (f i) = up) (l : List Nat) (up : Bool) :
    hw_queue_up tx qid up (l.map f) = up := by
  induction l generalizing up with
  | nil => rfl
  | cons a l ih =>
    simp only [hw_queue_up, List.map_cons, List.foldl_cons] at ih ⊢
    rw [hf a up]
    exact ih up

theorem clear_rx_queue_hw (dev : onic_netdev) (qid : Nat) (up : Bool → Nat → Bool)
    (tx : Bool) (q : Nat) (h : hw_after up (onic_clear_rx_queue dev qid).2 tx q = true) :
    up tx q = true ∧
      ¬ (tx = false ∧ q = qid ∧ dev.rx_queue.getD qid none ≠ none) := by
  unfold onic_clear_rx_queue at h
  split at h
  · rename_i hq
    exact ⟨h, fun hc => hc.2.2 hq⟩
  · rename_i v hq
    simp only [hw_after, hw_queue_up, List.foldl_append, List.foldl_cons, List.foldl_nil] at h
    have hr := hw_queue_up_recycle tx q
      (fun i => ctl_event.page_pool_recycle_direct (v.buffer.getD i default).pg)
      (fun _ _ => rfl) (List.range (onic_ring_get_real_count v.cmpl_ring))
    simp only [hw_queue_up] at hr
    rw [hr] at h
    simp only [hw_queue_step] at h
    split_ifs at h with hc
    refine ⟨h, fun hd => hc ⟨?_, hd.2.1.symm⟩⟩
    simp [hd.1]

theorem clear_rx_queue_consistent (dev : onic_netdev) (qid : Nat) (up : Bool → Nat → Bool)
    (h : hw_consistent dev up) :
    hw_consistent (onic_clear_rx_queue dev qid).1
      (hw_after up (onic_clear_rx_queue dev qid).2) := by
  obtain ⟨⟨f1, f2⟩, f3⟩ := clear_rx_queue_frame dev qid
  obtain ⟨h1, h2, h3, h4⟩ := h
  refine ⟨by rw [f1]; exact h1, by rw [f2, f3]; exact h2, ?_, ?_⟩
  · intro q hq
    obtain ⟨hu, _⟩ := clear_rx_queue_hw dev qid up true q hq
    rw [f1]
    exact h3 q hu
  · intro q hq
    obtain ⟨hu, hn⟩ := clear_rx_queue_hw dev qid up false q hq
    obtain ⟨g1, g2⟩ := h4 q hu
    rw [f2, clear_rx_queue_slot]
    refine ⟨g1, ?_⟩
    by_cases hi : q = qid
    · subst hi
      exact absurd ⟨rfl, rfl, g2⟩ hn
    · simp only [if_neg hi]
      exact g2

theorem clear_tx_down_spec (k : Nat) : ∀ dev : onic_netdev,
    tx_frame (onic_clear_tx_down dev k).1 dev ∧
      ∀ up, hw_consistent dev up →
        hw_consistent (onic_clear_tx_down dev k).1 (hw_after up (onic_clear_tx_down dev k).2) := by
  induction k with
  | zero => exact fun dev => ⟨tx_frame_refl dev, fun up h => h⟩
  | succ k ih =>
    intro dev
    obtain ⟨i1, i2⟩ := ih (onic_clear_tx_queue dev k).1
    simp only [onic_clear_tx_down]
    refine ⟨tx_frame_trans _ _ _ i1 (clear_tx_queue_frame dev k).1, fun up h => ?_⟩
    rw [hw_after_append]
    exact i2 _ (clear_tx_queue_consistent dev k up h)

theorem clear_rx_down_spec (k : Nat) : ∀ dev : onic_netdev,
    rx_frame (onic_clear_rx_down dev k).1 dev ∧
      ∀ up, hw_consistent dev up →
        hw_consistent (onic_clear_rx_down dev k).1 (hw_after up (onic_clear_rx_down dev k).2) := by
  induction k with
  | zero => exact fun dev => ⟨rx_frame_refl dev, fun up h => h⟩
  | succ k ih =>
    intro dev
    obtain ⟨i1, i2⟩ := ih (onic_clear_rx_queue dev k).1
    simp only [onic_clear_rx_down]
    refine ⟨rx_frame_trans _ _ _ i1 (clear_rx_queue_frame dev k).1, fun up h => ?_⟩
    rw [hw_after_append]
    exact i2 _ (clear_rx_queue_consistent dev k up h)

theorem clear_tx_up_spec (n : Nat) : ∀ (qid : Nat) (dev : onic_netdev),
    tx_frame (onic_clear_tx_up n qid dev).1 dev ∧
      (∀ i, (onic_clear_tx_up n qid dev).1.priv.tx_queue.getD i none =
        if qid ≤ i ∧ i < qid + n then none else dev.priv.tx_queue.getD i none) ∧
      ∀ up, hw_consistent dev up →
        hw_consistent (onic_clear_tx_up n qid dev).1
          (hw_after up (onic_clear_tx_up n qid dev).2) := by
  induction n with
  | zero =>
    intro qid dev
    refine ⟨tx_frame_refl dev, fun i => ?_, fun up h => h⟩
    simp only [onic_clear_tx_up]
    rw [if_neg (by omega)]
  | succ n ih =>
    intro qid dev
    obtain ⟨i1, i2, i3⟩ := ih (qid + 1) (onic_clear_tx_queue dev qid).1
    simp only [onic_clear_tx_up]
    refine ⟨tx_frame_trans _ _ _ i1 (clear_tx_queue_frame dev qid).1, fun i => ?_, fun up h => ?_⟩
    · rw [i2 i, clear_tx_queue_slot]
      by_cases h1 : i = qid
      · subst h1
        simp
      · simp only [if_neg h1]
        by_cases h2 : qid + 1 ≤ i ∧ i < qid + 1 + n
        · rw [if_pos h2, if_pos (by omega)]
        · rw [if_neg h2, if_neg (by omega)]
    · rw [hw_after_append]
      exact i3 _ (clear_tx_queue_consistent dev qid up h)

theorem clear_rx_up_spec (n : Nat) : ∀ (qid : Nat) (dev : onic_netdev),
    rx_frame (onic_clear_rx_up n qid dev).1 dev ∧
      (∀ i, (onic_clear_rx_up n qid dev).1.rx_queue.getD i none =
        if qid ≤ i ∧ i < qid + n then none else dev.rx_queue.getD i none) ∧
      ∀ up, hw_consistent dev up →
        hw_consistent (onic_clear_rx_up n qid dev).1
          (hw_after up (onic_clear_rx_up n qid dev).2) := by
  induction n with
  | zero =>
    intro qid dev
    refine ⟨rx_frame_refl dev, fun i => ?_, fun up h => h⟩
    simp only [onic_clear_rx_up]
    rw [if_neg (by omega)]
  | succ n ih =>
    intro qid dev
    obtain ⟨i1, i2, i3⟩ := ih (qid + 1) (onic_clear_rx_queue dev qid).1
    simp only [onic_clear_rx_up]
    refine ⟨rx_frame_trans _ _ _ i1 (clear_rx_queue_frame dev qid).1, fun i => ?_, fun up h => ?_⟩
    · rw [i2 i, clear_rx_queue_slot]
      by_cases h1 : i = qid
      · subst h1
        simp
      · simp only [if_neg h1]
        by_cases h2 : qid + 1 ≤ i ∧ i < qid + 1 + n
        · rw [if_pos h2, if_pos (by omega)]
        · rw [if_neg h2, if_neg (by omega)]
    · rw [hw_after_append]
      exact i3 _ (clear_rx_queue_consistent dev qid up h)

/-- After `onic_stop_netdev` every configured slot is NULL; the queue counts
and the program are those before the call, and software and device still
agree. -/
theorem stop_netdev_spec (dev : onic_netdev) :
    (onic_stop_netdev dev).rv = 0 ∧
      (onic_stop_netdev dev).dev.priv.num_tx_queues = dev.priv.num_tx_queues ∧
      (onic_stop_netdev dev).dev.num_rx_queues = dev.num_rx_queues ∧
      (onic_stop_netdev dev).dev.priv.prog = dev.priv.prog ∧
      (∀ i, i < dev.priv.num_tx_queues →
        (onic_stop_netdev dev).dev.priv.tx_queue.getD i none = none) ∧
      (∀ i, i < dev.num_rx_queues → (onic_stop_netdev dev).dev.rx_queue.getD i none = none) ∧
      ∀ up, hw_consistent dev up →
        hw_consistent (onic_stop_netdev dev).dev (hw_after up (onic_stop_netdev dev).trace) := by
  obtain ⟨⟨t1, t2, t3, _⟩, ts, tc⟩ := clear_tx_up_spec dev.priv.num_tx_queues 0 dev
  obtain ⟨⟨r1, r2⟩, rs, rc⟩ := clear_rx_up_spec
    (onic_clear_tx_up dev.priv.num_tx_queues 0 dev).1.num_rx_queues 0
    (onic_clear_tx_up dev.priv.num_tx_queues 0 dev).1
  simp only [onic_stop_netdev]
  refine ⟨trivial, by rw [r1, t1], by rw [r2, t3], by rw [r1, t2], fun i hi => ?_, fun i hi => ?_,
    fun up h => ?_⟩
  · rw [r1, ts i, if_pos (by omega)]
  · rw [rs i, if_pos (by omega)]
  · rw [hw_after_append, hw_after_append]
    exact rc _ (tc _ h)

theorem failed_init_tx_hw (up : Bool → Nat → Bool) (qid : Nat) (rv : Int) (h : rv < 0) :
    hw_after up [ctl_event.onic_qdma_init_tx_queue qid rv] = up := by
  funext tx q
  simp only [hw_after, hw_queue_up, List.foldl_cons, List.foldl_nil, hw_queue_step]
  rw [if_neg (by omega)]

theorem install_tx_consistent (dev : onic_netdev) (qid : Nat) (q : onic_tx_queue) (rv : Int)
    (up : Bool → Nat → Bool) (hq : qid < dev.priv.num_tx_queues) (h : hw_consistent dev up) :
    hw_consistent
      { dev with priv := { dev.priv with tx_queue := dev.priv.tx_queue.set qid (some q) } }
      (hw_after up [ctl_event.onic_qdma_init_tx_queue qid rv]) := by
  obtain ⟨h1, h2, h3, h4⟩ := h
  refine ⟨by simpa using h1, h2, ?_, ?_⟩
  · intro i hi
    simp only [hw_after, hw_queue_up, List.foldl_cons, List.foldl_nil, hw_queue_step] at hi
    by_cases hiq : i = qid
    · subst hiq
      refine ⟨hq, ?_⟩
      show (dev.priv.tx_queue.set i (some q)).getD i none ≠ none
      rw [list_getD_set_self _ _ _ _ (by omega)]
      simp
    · rw [if_neg (fun hc => hiq hc.2.1.symm)] at hi
      obtain ⟨g1, g2⟩ := h3 i hi
      refine ⟨g1, ?_⟩
      show (dev.priv.tx_queue.set qid (some q)).getD i none ≠ none
      rw [list_getD_set_ne _ _ _ _ _ (Ne.symm hiq)]
      exact g2
  · intro i hi
    simp only [hw_after, hw_queue_up, List.foldl_cons, List.foldl_nil, hw_queue_step] at hi
    exact h4 i hi

theorem init_tx_queue_spec (env : open_env) (dev : onic_netdev) (qid : Nat) :
    tx_frame (onic_init_tx_queue env dev qid).dev dev ∧
      ∀ up, qid < dev.priv.num_tx_queues → hw_consistent dev up →
        hw_consistent (onic_init_tx_queue env dev qid).dev
          (hw_after up (onic_init_tx_queue env dev qid).trace) := by
  have hpre : ∀ c : onic_netdev × List ctl_event,
      c = onic_clear_tx_queue dev qid ∨ (c = (dev, []) ∧ dev.priv.tx_queue.getD qid none = none) →
      tx_frame c.1 dev ∧ ∀ up, hw_consistent dev up → hw_consistent c.1 (hw_after up c.2) := by
    intro c hc
    rcases hc with hc | ⟨hc, _⟩
    · subst hc
      exact ⟨(clear_tx_queue_frame dev qid).1, fun up h => clear_tx_queue_consistent dev qid up h⟩
    · subst hc
      exact ⟨tx_frame_refl dev, fun up h => h⟩
  have hbody : ∀ c : onic_netdev × List ctl_event,
      (tx_frame c.1 dev ∧ ∀ up, hw_consistent dev up → hw_consistent c.1 (hw_after up c.2)) →
      ∀ r : ctl_result,
        ((r.dev = c.1 ∧ r.trace = c.2) ∨
          (r.dev = (onic_clear_tx_queue c.1 qid).1 ∧
            r.trace = c.2 ++ (onic_clear_tx_queue c.1 qid).2) ∨
          (∃ rv, rv < 0 ∧ r.dev = (onic_clear_tx_queue c.1 qid).1 ∧
            r.trace = c.2 ++ [ctl_event.onic_qdma_init_tx_queue qid rv] ++
              (onic_clear_tx_queue c.1 qid).2) ∨
          (∃ rv q,
            r.dev = { c.1 with priv := { c.1.priv with
              tx_queue := c.1.priv.tx_queue.set qid (some q) } } ∧
            r.trace = c.2 ++ [ctl_event.onic_qdma_init_tx_queue qid rv])) →
        tx_frame r.dev dev ∧
          ∀ up, qid < dev.priv.num_tx_queues → hw_consistent dev up →
            hw_consistent r.dev (hw_after up r.trace) := by
    intro c ⟨cf, cc⟩ r hr
    rcases hr with ⟨hd, ht⟩ | ⟨hd, ht⟩ | ⟨rv, hrv, hd, ht⟩ | ⟨rv, q, hd, ht⟩ <;> rw [hd, ht]
    · exact ⟨cf, fun up _ h => cc up h⟩
    · refine ⟨tx_frame_trans _ _ _ (clear_tx_queue_frame c.1 qid).1 cf, fun up _ h => ?_⟩
      rw [hw_after_append]
      exact clear_tx_queue_consistent _ _ _ (cc up h)
    · refine ⟨tx_frame_trans _ _ _ (clear_tx_queue_frame c.1 qid).1 cf, fun up _ h => ?_⟩
      rw [hw_after_append, hw_after_append, failed_init_tx_hw _ _ _ hrv]
      exact clear_tx_queue_consistent _ _ _ (cc up h)
    · refine ⟨⟨cf.1, cf.2.1, cf.2.2.1, cf.2.2.2⟩, fun up hq h => ?_⟩
      rw [hw_after_append]
      exact install_tx_consistent c.1 qid q rv _ (by rw [cf.1]; exact hq) (cc up h)
  cases hslot : dev.priv.tx_queue.getD qid none with
  | none =>
    refine hbody (dev, []) (hpre _ (Or.inr ⟨rfl, hslot⟩)) _ ?_
    simp only [onic_init_tx_queue, hslot]
    split_ifs
    · exact Or.inl ⟨rfl, rfl⟩
    · exact Or.inr (Or.inl ⟨rfl, rfl⟩)
    · exact Or.inr (Or.inl ⟨rfl, rfl⟩)
    · rename_i hrv
      exact Or.inr (Or.inr (Or.inl ⟨_, hrv, rfl, rfl⟩))
    · exact Or.inr (Or.inr (Or.inr ⟨_, _, rfl, rfl⟩))
  | some v =>
    refine hbody (onic_clear_tx_queue dev qid) (hpre _ (Or.inl rfl)) _ ?_
    simp only [onic_init_tx_queue, hslot]
    split_ifs
    · exact Or.inl ⟨rfl, rfl⟩
    · exact Or.inr (Or.inl ⟨rfl, rfl⟩)
    · exact Or.inr (Or.inl ⟨rfl, rfl⟩)
    · rename_i hrv
      exact Or.inr (Or.inr (Or.inl ⟨_, hrv, rfl, rfl⟩))
    · exact Or.inr (Or.inr (Or.inr ⟨_, _, rfl, rfl⟩))

theorem failed_init_rx_hw (up : Bool → Nat → Bool) (qid : Nat) (rv : Int) (h : rv < 0) :
    hw_after up [ctl_event.napi_enable qid, ctl_event.onic_qdma_init_rx_queue qid rv] = up := by
  funext tx q
  simp only [hw_after, hw_queue_up, List.foldl_cons, List.foldl_nil, hw_queue_step]
  rw [if_neg (by omega)]

theorem install_rx_consistent (dev : onic_netdev) (qid : Nat) (q : onic_rx_queue) (rv : Int)
    (a b c : Nat) (up : Bool → Nat → Bool) (hq : qid < dev.num_rx_queues)
    (h : hw_consistent dev up) :
    hw_consistent { dev with rx_queue := dev.rx_queue.set qid (some q) }
      (hw_after up
        [ctl_event.napi_enable qid, ctl_event.onic_qdma_init_rx_queue qid rv,
         ctl_event.onic_set_rx_head qid a, ctl_event.onic_set_completion_tail qid b c]) := by
  obtain ⟨h1, h2, h3, h4⟩ := h
  refine ⟨h1, by simpa using h2, ?_, ?_⟩
  · intro i hi
    simp only [hw_after, hw_queue_up, List.foldl_cons, List.foldl_nil, hw_queue_step] at hi
    rw [if_neg (by simp)] at hi
    exact h3 i hi
  · intro i hi
    simp only [hw_after, hw_queue_up, List.foldl_cons, List.foldl_nil, hw_queue_step] at hi
    by_cases hiq : i = qid
    · subst hiq
      refine ⟨hq, ?_⟩
      show (dev.rx_queue.set i (some q)).getD i none ≠ none
      rw [list_getD_set_self _ _ _ _ (by omega)]
      simp
    · rw [if_neg (fun hc => hiq hc.2.1.symm)] at hi
      obtain ⟨g1, g2⟩ := h4 i hi
      refine ⟨g1, ?_⟩
      show (dev.rx_queue.set qid (some q)).getD i none ≠ none
      rw [list_getD_set_ne _ _ _ _ _ (Ne.symm hiq)]
      exact g2

theorem init_rx_queue_spec (env : open_env) (dev : onic_netdev) (qid : Nat) :
    rx_frame (onic_init_rx_queue env dev qid).dev dev ∧
      ∀ up, qid < dev.num_rx_queues → hw_consistent dev up →
        hw_consistent (onic_init_rx_queue env dev qid).dev
          (hw_after up (onic_init_rx_queue env dev qid).trace) := by
  have hpre : ∀ c : onic_netdev × List ctl_event,
      c = onic_clear_rx_queue dev qid ∨ (c = (dev, []) ∧ dev.rx_queue.getD qid none = none) →
      rx_frame c.1 dev ∧ ∀ up, hw_consistent dev up → hw_consistent c.1 (hw_after up c.2) := by
    intro c hc
    rcases hc with hc | ⟨hc, _⟩
    · subst hc
      exact ⟨(clear_rx_queue_frame dev qid).1, fun up h => clear_rx_queue_consistent dev qid up h⟩
    · subst hc
      exact ⟨rx_frame_refl dev, fun up h => h⟩
  have hbody : ∀ c : onic_netdev × List ctl_event,
      (rx_frame c.1 dev ∧ ∀ up, hw_consistent dev up → hw_consistent c.1 (hw_after up c.2)) →
      ∀ r : ctl_result,
        ((r.dev = c.1 ∧ r.trace = c.2) ∨
          (r.dev = (onic_clear_rx_queue c.1 qid).1 ∧
            r.trace = c.2 ++ [] ++ (onic_clear_rx_queue c.1 qid).2) ∨
          (∃ rv, rv < 0 ∧ r.dev = (onic_clear_rx_queue c.1 qid).1 ∧
            r.trace = c.2 ++
              [ctl_event.napi_enable qid, ctl_event.onic_qdma_init_rx_queue qid rv] ++
              (onic_clear_rx_queue c.1 qid).2) ∨
          (∃ rv q a b d,
            r.dev = { c.1 with rx_queue := c.1.rx_queue.set qid (some q) } ∧
            r.trace = c.2 ++
              [ctl_event.napi_enable qid, ctl_event.onic_qdma_init_rx_queue qid rv,
               ctl_event.onic_set_rx_head qid a, ctl_event.onic_set_completion_tail qid b d])) →
        rx_frame r.dev dev ∧
          ∀ up, qid < dev.num_rx_queues → hw_consistent dev up →
            hw_consistent r.dev (hw_after up r.trace) := by
    intro c ⟨cf, cc⟩ r hr
    rcases hr with ⟨hd, ht⟩ | ⟨hd, ht⟩ | ⟨rv, hrv, hd, ht⟩ | ⟨rv, q, a, b, d, hd, ht⟩ <;>
      rw [hd, ht]
    · exact ⟨cf, fun up _ h => cc up h⟩
    · refine ⟨rx_frame_trans _ _ _ (clear_rx_queue_frame c.1 qid).1 cf, fun up _ h => ?_⟩
      rw [List.append_nil, hw_after_append]
      exact clear_rx_queue_consistent _ _ _ (cc up h)
    · refine ⟨rx_frame_trans _ _ _ (clear_rx_queue_frame c.1 qid).1 cf, fun up _ h => ?_⟩
      rw [hw_after_append, hw_after_append, failed_init_rx_hw _ _ _ hrv]
      exact clear_rx_queue_consistent _ _ _ (cc up h)
    · refine ⟨⟨cf.1, cf.2⟩, fun up hq h => ?_⟩
      rw [hw_after_append]
      exact install_rx_consistent c.1 qid q rv a b d _ (by rw [cf.2]; exact hq) (cc up h)
  have hrings : ∀ (c : onic_netdev × List ctl_event) (count : Nat)
      (p : Option (List onic_rx_buffer)),
      ((rx_init_rings env c qid count p).dev = (onic_clear_rx_queue c.1 qid).1 ∧
          (rx_init_rings env c qid count p).trace =
            c.2 ++ [] ++ (onic_clear_rx_queue c.1 qid).2) ∨
        (∃ rv, rv < 0 ∧ (rx_init_rings env c qid count p).dev = (onic_clear_rx_queue c.1 qid).1 ∧
          (rx_init_rings env c qid count p).trace = c.2 ++
            [ctl_event.napi_enable qid, ctl_event.onic_qdma_init_rx_queue qid rv] ++
            (onic_clear_rx_queue c.1 qid).2) ∨
        (∃ rv q a b d,
          (rx_init_rings env c qid count p).dev =
            { c.1 with rx_queue := c.1.rx_queue.set qid (some q) } ∧
          (rx_init_rings env c qid count p).trace = c.2 ++
            [ctl_event.napi_enable qid, ctl_event.onic_qdma_init_rx_queue qid rv,
             ctl_event.onic_set_rx_head qid a, ctl_event.onic_set_completion_tail qid b d]) := by
    intro c count p
    cases p with
    | none => exact Or.inl ⟨rfl, rfl⟩
    | some bufs =>
      simp only [rx_init_rings]
      split_ifs with h1 h2
      · exact Or.inl ⟨rfl, rfl⟩
      · exact Or.inr (Or.inl ⟨_, h2, rfl, rfl⟩)
      · exact Or.inr (Or.inr ⟨_, _, _, _, _, rfl, rfl⟩)
  have hcase : ∀ c : onic_netdev × List ctl_event,
      ((rx_init_body env c qid).dev = c.1 ∧ (rx_init_body env c qid).trace = c.2) ∨
        ((rx_init_body env c qid).dev = (onic_clear_rx_queue c.1 qid).1 ∧
          (rx_init_body env c qid).trace = c.2 ++ [] ++ (onic_clear_rx_queue c.1 qid).2) ∨
        (∃ rv, rv < 0 ∧ (rx_init_body env c qid).dev = (onic_clear_rx_queue c.1 qid).1 ∧
          (rx_init_body env c qid).trace = c.2 ++
            [ctl_event.napi_enable qid, ctl_event.onic_qdma_init_rx_queue qid rv] ++
            (onic_clear_rx_queue c.1 qid).2) ∨
        (∃ rv q a b d,
          (rx_init_body env c qid).dev = { c.1 with rx_queue := c.1.rx_queue.set qid (some q) } ∧
          (rx_init_body env c qid).trace = c.2 ++
            [ctl_event.napi_enable qid, ctl_event.onic_qdma_init_rx_queue qid rv,
             ctl_event.onic_set_rx_head qid a, ctl_event.onic_set_completion_tail qid b d]) := by
    intro c
    have hexit : rx_init_body env c qid = { rv := -ENOMEM, dev := c.1, trace := c.2 } ∨
        (∃ rv, rx_init_body env c qid = rx_init_fail c qid rv []) ∨
        ∃ count p, rx_init_body env c qid = rx_init_rings env c qid count p := by
      unfold rx_init_body
      split_ifs
      · exact Or.inl rfl
      · exact Or.inr (Or.inl ⟨_, rfl⟩)
      · exact Or.inr (Or.inl ⟨_, rfl⟩)
      · exact Or.inr (Or.inl ⟨_, rfl⟩)
      · exact Or.inr (Or.inl ⟨_, rfl⟩)
      · exact Or.inr (Or.inl ⟨_, rfl⟩)
      · exact Or.inr (Or.inl ⟨_, rfl⟩)
      · exact Or.inr (Or.inr ⟨_, _, rfl⟩)
    rcases hexit with h | ⟨rv, h⟩ | ⟨count, p, h⟩ <;> rw [h]
    · exact Or.inl ⟨rfl, rfl⟩
    · exact Or.inr (Or.inl ⟨rfl, rfl⟩)
    · exact Or.inr (hrings c count p)
  cases hslot : dev.rx_queue.getD qid none with
  | none =>
    have he : onic_init_rx_queue env dev qid = rx_init_body env (dev, []) qid := by
      simp only [onic_init_rx_queue, hslot]
    rw [he]
    exact hbody (dev, []) (hpre _ (Or.inr ⟨rfl, hslot⟩)) _ (hcase _)
  | some v =>
    have he : onic_init_rx_queue env dev qid =
        rx_init_body env (onic_clear_rx_queue dev qid) qid := by
      simp only [onic_init_rx_queue, hslot]
    rw [he]
    exact hbody (onic_clear_rx_queue dev qid) (hpre _ (Or.inl rfl)) _ (hcase _)

theorem init_tx_loop_spec (env : open_env) (n : Nat) : ∀ (qid : Nat) (dev : onic_netdev),
    tx_frame (onic_init_tx_loop env n qid dev).dev dev ∧
      ∀ up, qid + n ≤ dev.priv.num_tx_queues → hw_consistent dev up →
        hw_consistent (onic_init_tx_loop env n qid dev).dev
          (hw_after up (onic_init_tx_loop env n qid dev).trace) := by
  induction n with
  | zero => exact fun qid dev => ⟨tx_frame_refl dev, fun up _ h => h⟩
  | succ n ih =>
    intro qid dev
    obtain ⟨q1, q2⟩ := init_tx_queue_spec env dev qid
    simp only [onic_init_tx_loop]
    split_ifs
    · obtain ⟨i1, i2⟩ := ih (qid + 1) (onic_init_tx_queue env dev qid).dev
      refine ⟨tx_frame_trans _ _ _ i1 q1, fun up hq h => ?_⟩
      rw [hw_after_append]
      exact i2 _ (by rw [q1.1]; omega) (q2 up (by omega) h)
    · obtain ⟨c1, c2⟩ := clear_tx_down_spec qid (onic_init_tx_queue env dev qid).dev
      refine ⟨tx_frame_trans _ _ _ c1 q1, fun up hq h => ?_⟩
      rw [hw_after_append]
      exact c2 _ (q2 up (by omega) h)

theorem init_rx_loop_spec (env : open_env) (n : Nat) : ∀ (qid : Nat) (dev : onic_netdev),
    rx_frame (onic_init_rx_loop env n qid dev).dev dev ∧
      ∀ up, qid + n ≤ dev.num_rx_queues → hw_consistent dev up →
        hw_consistent (onic_init_rx_loop env n qid dev).dev
          (hw_after up (onic_init_rx_loop env n qid dev).trace) := by
  induction n with
  | zero => exact fun qid dev => ⟨rx_frame_refl dev, fun up _ h => h⟩
  | succ n ih =>
    intro qid dev
    obtain ⟨q1, q2⟩ := init_rx_queue_spec env dev qid
    simp only [onic_init_rx_loop]
    split_ifs
    · obtain ⟨i1, i2⟩ := ih (qid + 1) (onic_init_rx_queue env dev qid).dev
      refine ⟨rx_frame_trans _ _ _ i1 q1, fun up hq h => ?_⟩
      rw [hw_after_append]
      exact i2 _ (by rw [q1.2]; omega) (q2 up (by omega) h)
    · obtain ⟨c1, c2⟩ := clear_rx_down_spec qid (onic_init_rx_queue env dev qid).dev
      refine ⟨rx_frame_trans _ _ _ c1 q1, fun up hq h => ?_⟩
      rw [hw_after_append]
      exact c2 _ (q2 up (by omega) h)

/-- The four exits of `onic_init_rx_queue` taken before `rv` is assigned
return the indeterminate value. -/
theorem init_rx_queue_unassigned (env : open_env) (dev : onic_netdev) (qid : Nat)
    (hq : env.rx_queue_alloc qid = true)
    (h : env.rx_pparam_alloc qid = false ∨ env.rx_ppool_create qid = false ∨
      env.rx_xdp_reg qid ≠ 0 ∨ env.rx_xdp_reg_mem qid ≠ 0) :
    (onic_init_rx_queue env dev qid).rv = env.rx_rv_uninit qid := by
  unfold onic_init_rx_queue rx_init_body
  rw [if_neg (by simp [hq])]
  split_ifs with h1 h2 h3 h4
  · rfl
  · rfl
  · rfl
  · rfl
  · exfalso
    rcases h with h | h | h | h
    · exact h1 h
    · exact h2 h
    · exact h3 h
    · exact h4 h
  · exfalso
    rcases h with h | h | h | h
    · exact h1 h
    · exact h2 h
    · exact h3 h
    · exact h4 h
  · exfalso
    rcases h with h | h | h | h
    · exact h1 h
    · exact h2 h
    · exact h3 h
    · exact h4 h

/-- C19 on a closed interface with one receive queue, the local `rv` holding
0 when `onic_init_rx_queue` is entered: when the allocation of the page-pool
parameters, the creation of the page pool, the fast-path receive-queue
registration or the memory-model registration fails, `onic_init_rx_queue`
returns 0, and `onic_open_netdev` returns 0 after switching the carrier on,
with the receive slot still NULL. -/
theorem C19_setup_failure_returns_zero :
    ((onic_init_rx_queue open_env_no_pparam dev_rx_closed 0).rv = 0 ∧
        onic_open_netdev open_env_no_pparam dev_rx_closed =
          { rv := 0, dev := dev_rx_closed
            trace := [ctl_event.netif_tx_start_all_queues, ctl_event.netif_carrier_on] }) ∧
      ((onic_init_rx_queue open_env_no_ppool dev_rx_closed 0).rv = 0 ∧
        onic_open_netdev open_env_no_ppool dev_rx_closed =
          { rv := 0, dev := dev_rx_closed
            trace := [ctl_event.netif_tx_start_all_queues, ctl_event.netif_carrier_on] }) ∧
      ((onic_init_rx_queue open_env_no_xdp_reg dev_rx_closed 0).rv = 0 ∧
        onic_open_netdev open_env_no_xdp_reg dev_rx_closed =
          { rv := 0, dev := dev_rx_closed
            trace := [ctl_event.netif_tx_start_all_queues, ctl_event.netif_carrier_on] }) ∧
      ((onic_init_rx_queue open_env_no_mem_model dev_rx_closed 0).rv = 0 ∧
        onic_open_netdev open_env_no_mem_model dev_rx_closed =
          { rv := 0, dev := dev_rx_closed
            trace := [ctl_event.netif_tx_start_all_queues, ctl_event.netif_carrier_on] }) ∧
      dev_rx_closed.rx_queue = [none] := by
  decide

/-! ## Program exchange: proofs -/

/-- C20 on a running interface with program 7 attached and a request to
replace it by program 8 (the MTU check passes): `onic_xdp_setup` returns 0 and
calls neither `onic_stop_netdev` nor `onic_open_netdev`. -/
theorem C20_replace_program_counterexample :
    dev_running_prog.running = true ∧ dev_running_prog.priv.prog = some 7 ∧
      ¬ ((some 8 : Option Nat).isSome = true ∧ dev_running_prog.mtu > ONIC_MAX_QDMA_BUF_SIZE) ∧
      (onic_xdp_setup open_env_ok dev_running_prog (some 8)).rv = 0 ∧
      ctl_event.call_onic_stop_netdev ∉
        (onic_xdp_setup open_env_ok dev_running_prog (some 8)).trace ∧
      ctl_event.call_onic_open_netdev ∉
        (onic_xdp_setup open_env_ok dev_running_prog (some 8)).trace := by
  decide

/-- C20, amended: for a call of `onic_xdp_setup` that passes the MTU check on
a running interface, when a program is attached where none was or the attached
program is removed, `onic_stop_netdev` is called, then the program is
exchanged (and the old one put), then `onic_open_netdev` is called; when the
current and the requested program are both present, or both absent, neither
`onic_stop_netdev` nor `onic_open_netdev` is called; when the interface is not
running neither is called either. -/
theorem C20_stop_open_on_attach_detach (env : open_env) (dev : onic_netdev)
    (prog : Option Nat)
    (hmtu : ¬ (prog.isSome = true ∧ dev.mtu > ONIC_MAX_QDMA_BUF_SIZE)) :
    (dev.running = true → dev.priv.prog.isSome ≠ prog.isSome →
      (onic_xdp_setup env dev prog).trace =
        [ctl_event.call_onic_stop_netdev] ++ (onic_stop_netdev dev).trace ++
          ([ctl_event.xchg_prog dev.priv.prog prog] ++
            dev.priv.prog.toList.map ctl_event.bpf_prog_put) ++
          ([ctl_event.call_onic_open_netdev] ++
            (onic_open_netdev env
              { (onic_stop_netdev dev).dev with
                priv := { (onic_stop_netdev dev).dev.priv with prog := prog } }).trace)) ∧
      (dev.priv.prog.isSome = prog.isSome →
        ctl_event.call_onic_stop_netdev ∉ (onic_xdp_setup env dev prog).trace ∧
          ctl_event.call_onic_open_netdev ∉ (onic_xdp_setup env dev prog).trace) ∧
      (dev.running = false →
        ctl_event.call_onic_stop_netdev ∉ (onic_xdp_setup env dev prog).trace ∧
          ctl_event.call_onic_open_netdev ∉ (onic_xdp_setup env dev prog).trace) := by
  have hprog := (stop_netdev_spec dev).2.2.2.1
  have hput : ∀ o : Option Nat,
      (match o with
        | some p => [ctl_event.bpf_prog_put p]
        | none => []) = o.toList.map ctl_event.bpf_prog_put := by
    intro o; cases o <;> rfl
  unfold onic_xdp_setup
  rw [if_neg hmtu]
  refine ⟨fun hr hne => ?_, fun heq => ?_, fun hr => ?_⟩
  · have hn : (dev.priv.prog.isSome != prog.isSome) = true := by
      simpa using hne
    simp only [hn, hr, if_true, hput, hprog]
  · have hn : (dev.priv.prog.isSome != prog.isSome) = false := by
      simpa using heq
    simp only [hn]
    simp
  · cases hn : (dev.priv.prog.isSome != prog.isSome) with
    | false => simp
    | true =>
      simp only [hr, if_true, hput]
      cases dev.priv.prog <;> simp

theorem C20_stop_open_on_attach_detach_witness :
    (onic_xdp_setup open_env_ok dev_running_noprog (some 7)).trace =
      [ctl_event.call_onic_stop_netdev] ++ (onic_stop_netdev dev_running_noprog).trace ++
        ([ctl_event.xchg_prog dev_running_noprog.priv.prog (some 7)] ++
          dev_running_noprog.priv.prog.toList.map ctl_event.bpf_prog_put) ++
        ([ctl_event.call_onic_open_netdev] ++
          (onic_open_netdev open_env_ok
            { (onic_stop_netdev dev_running_noprog).dev with
              priv := { (onic_stop_netdev dev_running_noprog).dev.priv with
                prog := some 7 } }).trace) :=
  (C20_stop_open_on_attach_detach open_env_ok dev_running_noprog (some 7) (by decide)).1
    rfl (by decide)

/-! ## Post-loop branches: proofs -/

theorem tx_buffer_release_not_idle (buf : onic_tx_buffer) (e : event)
    (he : e ∈ tx_buffer_release buf) : e.is_idle_call = false := by
  unfold tx_buffer_release at he
  cases e <;>
    first
    | rfl
    | (exfalso; split_ifs at he <;> simp at he)

theorem idle_calls_eq_nil (tr : List event) (h : ∀ e ∈ tr, e.is_idle_call = false) :
    idle_calls tr = [] := by
  unfold idle_calls
  rw [List.filter_eq_nil_iff]
  intro e he
  simp [h e he]

theorem idle_calls_append (a b : List event) :
    idle_calls (a ++ b) = idle_calls a ++ idle_calls b := by
  simp [idle_calls]

theorem rx_poll_begin_idle (env : rx_poll_env) (priv : onic_private) (q : onic_rx_queue) :
    idle_calls (rx_poll_begin env priv q).trace = [] := by
  have hm := tx_clean_all_mem env.tx_wb priv.num_tx_queues 0 priv.tx_queue
  apply idle_calls_eq_nil
  intro e he
  simp only [rx_poll_begin, List.mem_append] at he
  rcases he with h | h
  · obtain ⟨buf, hb⟩ := hm e h
    exact tx_buffer_release_not_idle buf e hb
  · split_ifs at h
    · rw [List.mem_singleton.1 h]; rfl
    · simp at h

theorem xmit_xdp_frame_not_idle (priv : onic_private) (xdpf : xdp_frame) (rx_qid : Nat)
    (wb : qdma_wb_stat) (xmit_more : Bool) (page_dma sizeof_xdpf : Nat) (r : xdp_xmit_result)
    (h : onic_xmit_xdp_frame priv xdpf rx_qid wb xmit_more page_dma sizeof_xdpf = some r) :
    ∀ e ∈ r.trace, e.is_idle_call = false := by
  unfold onic_xmit_xdp_frame at h
  simp only [] at h
  split at h
  · exact absurd h (by simp)
  · rename_i q0 _
    have hc : ∀ e ∈ (onic_tx_clean q0 wb).2, e.is_idle_call = false := fun e he => by
      obtain ⟨buf, hb⟩ := (tx_clean_frame q0 wb).2.2.2.2.2 e he
      exact tx_buffer_release_not_idle buf e hb
    intro e he
    split_ifs at h <;> simp only [Option.some.injEq] at h <;> subst h <;>
      simp only [List.mem_append, List.mem_singleton, List.mem_nil_iff, or_false] at he <;>
      rcases he with he | he <;>
      first
      | exact hc e he
      | (rw [he]; rfl)
      | (rcases he with he | he <;> first | exact hc e he | (rw [he]; rfl))

theorem rx_dispatch_idle (env : rx_poll_env) (s : rx_poll_state) (v : Nat) :
    idle_calls (rx_dispatch env s v).trace = [] := by
  apply idle_calls_eq_nil
  unfold rx_dispatch
  simp only []
  split_ifs <;> (try split) <;> (try split) <;>
    first
    | (intro e he; simp at he; done)
    | (intro e he; simp at he; rcases he with he | he <;> rw [he] <;> rfl)
    | (intro e he; simp at he; rw [he]; rfl)
    | (rename_i r hr; exact xmit_xdp_frame_not_idle _ _ _ _ _ _ _ r hr)

theorem rx_advanced_idle (s : rx_poll_state) (v : Nat) :
    idle_calls (rx_poll_advanced s v).trace = idle_calls s.trace := by
  rw [rx_advanced_trace_eq, idle_calls_append]
  split_ifs <;> simp [idle_calls, onic_rx_refill, event.is_idle_call]

theorem rx_poll_iter_idle (env : rx_poll_env) (budget : Int) (s : rx_poll_state) :
    idle_calls (rx_poll_iter env budget s).state.trace = idle_calls s.trace := by
  rw [rx_poll_iter_eq]
  have hd := rx_dispatch_idle env s (rx_verdict env s)
  split
  · simp only [rx_iter_outcome.state, idle_calls_append, hd, List.append_nil]
  · rcases rx_poll_advance_cases env budget
        { s with priv := (rx_dispatch env s (rx_verdict env s)).priv
                 trace := s.trace ++ (rx_dispatch env s (rx_verdict env s)).trace }
        (rx_verdict env s) with ⟨h, _⟩ | ⟨h, _⟩ <;> rw [h]
    · simp only [rx_iter_outcome.state, rx_advanced_idle, idle_calls_append, hd,
        List.append_nil]
    · simp only [rx_iter_outcome.state, idle_calls_append, rx_advanced_idle, hd,
        List.append_nil]
      simp [idle_calls, event.is_idle_call]

/-- No idle-branch call is made before the loop of `onic_rx_poll` is left. -/
theorem rx_poll_loop_idle (env : rx_poll_env) (priv : onic_private) (q : onic_rx_queue)
    (budget : Int) (fuel : Nat) (s : rx_poll_state) (e : rx_exit)
    (h : rx_poll_loop env budget fuel (rx_poll_begin env priv q) = some (s, e)) :
    idle_calls s.trace = [] :=
  rx_poll_loop_induct env budget (fun s => idle_calls s.trace = [])
    (fun s hs _ => (rx_poll_iter_idle env budget s).trans hs) fuel _ _ _
    (rx_poll_begin_idle env priv q) h

theorem rx_poll_finish_idle (env : rx_poll_env) (s : rx_poll_state) (e : rx_exit) :
    idle_calls (rx_poll_finish env s e).trace = idle_calls s.trace ++
      (if rx_idle_branch env (rx_poll_finish env s e) = 0 then []
       else [event.napi_complete_done s.work,
             event.onic_set_completion_tail s.q.qid s.q.cmpl_ring.next_to_clean 1]) := by
  simp only [rx_poll_finish, rx_idle_branch, idle_calls_append]
  split_ifs <;> simp_all [idle_calls, event.is_idle_call]

/-- How the loop of `onic_rx_poll` is left: with the condition false (consumer
index equal to the producer index), by `break` while the condition holds, or
through the budget test. -/
theorem rx_poll_loop_exit (env : rx_poll_env) (budget : Int) (fuel : Nat) :
    ∀ (s s' : rx_poll_state) (e : rx_exit), rx_poll_loop env budget fuel s = some (s', e) →
      (e = rx_exit.caught_up ∧ s'.q.cmpl_ring.next_to_clean = env.cmpl_stat.pidx) ∨
        ((e = rx_exit.alloc_failed ∨ e = rx_exit.deliver_failed) ∧
          s'.q.cmpl_ring.next_to_clean ≠ env.cmpl_stat.pidx) ∨
        e = rx_exit.out_of_budget := by
  induction fuel with
  | zero =>
    intro s s' e h
    simp only [rx_poll_loop] at h
    split_ifs at h with hc
    simp only [Option.some.injEq, Prod.mk.injEq] at h
    exact Or.inl ⟨h.2.symm, by rw [← h.1]; exact hc⟩
  | succ fuel ih =>
    intro s s' e h
    simp only [rx_poll_loop] at h
    split_ifs at h with hc
    · simp only [Option.some.injEq, Prod.mk.injEq] at h
      exact Or.inl ⟨h.2.symm, by rw [← h.1]; exact hc⟩
    · split at h
      · exact ih _ _ _ h
      · rename_i t e' ht
        simp only [Option.some.injEq, Prod.mk.injEq] at h
        rcases rx_poll_iter_cases env budget s with ⟨s1, v, h1, _⟩ | ⟨s1, v, h1, _⟩ |
            ⟨s1, e1, h1, hq, _, _, _, he1⟩
        · rw [h1] at ht; exact absurd ht (by simp)
        · rw [h1] at ht; exact absurd ht (by simp)
        · rw [h1] at ht
          simp only [rx_iter_outcome.brk.injEq] at ht
          refine Or.inr (Or.inl ⟨?_, ?_⟩)
          · rw [← h.2, ← ht.2]; exact he1
          · rw [← h.1, ← ht.1, hq]; exact hc
      · simp only [Option.some.injEq, Prod.mk.injEq] at h
        exact Or.inr (Or.inr h.2.symm)

/-- An invocation of `onic_rx_poll` is its loop followed by the post-loop
code. -/
theorem onic_rx_poll_eq (env : rx_poll_env) (priv : onic_private) (q : onic_rx_queue)
    (budget : Int) (r : rx_poll_result) (h : onic_rx_poll env priv q budget = some r) :
    ∃ s e, rx_poll_loop env budget (max budget 1).toNat (rx_poll_begin env priv q) =
        some (s, e) ∧ r = rx_poll_finish env s e := by
  unfold onic_rx_poll at h
  split at h
  · exact absurd h (by simp)
  · rename_i s e hl
    simp only [Option.some.injEq] at h
    exact ⟨s, e, hl, h.symm⟩

/-! ## Consumed positions: proofs -/

theorem rx_advanced_positions (s : rx_poll_state) (v : Nat) :
    ∃ c : rx_consumed, (rx_poll_advanced s v).consumed = s.consumed ++ [c] ∧
      c.cmpl_idx = s.q.cmpl_ring.next_to_clean ∧
      c.desc_idx = s.q.desc_ring.next_to_clean := by
  refine ⟨_, rfl, ?_, rfl⟩
  simp only [rx_refill_cmpl_ring]

theorem rx_pos_inv_step (env : rx_poll_env) (budget : Int) (q : onic_rx_queue)
    (hNc : 1 ≤ onic_ring_get_real_count q.cmpl_ring)
    (hNd : 1 ≤ onic_ring_get_real_count q.desc_ring) (s : rx_poll_state)
    (hs : rx_pos_inv q s) : rx_pos_inv q (rx_poll_iter env budget s).state := by
  rw [rx_poll_iter_eq]
  split
  · exact hs
  · obtain ⟨h1, h2, h3, h4, h5, h6, h7⟩ := hs
    obtain ⟨_, a2, _, a4, _⟩ := rx_advance_state env budget
      { s with priv := (rx_dispatch env s (rx_verdict env s)).priv
               trace := s.trace ++ (rx_dispatch env s (rx_verdict env s)).trace }
      (rx_verdict env s)
    obtain ⟨_, _, _, _, _, f6, f7, f8⟩ := rx_advanced_fields
      { s with priv := (rx_dispatch env s (rx_verdict env s)).priv
               trace := s.trace ++ (rx_dispatch env s (rx_verdict env s)).trace }
      (rx_verdict env s)
    obtain ⟨c1, c2, _⟩ := rx_advanced_cmpl_ring
      { s with priv := (rx_dispatch env s (rx_verdict env s)).priv
               trace := s.trace ++ (rx_dispatch env s (rx_verdict env s)).trace }
      (rx_verdict env s)
    obtain ⟨c, k1, k2, k3⟩ := rx_advanced_positions
      { s with priv := (rx_dispatch env s (rx_verdict env s)).priv
               trace := s.trace ++ (rx_dispatch env s (rx_verdict env s)).trace }
      (rx_verdict env s)
    simp only [] at f6 f7 f8 c1 c2 k1 k2 k3
    have hlen : ((s.consumed ++ [c]).length) = s.consumed.length + 1 := by simp
    unfold rx_pos_inv
    rw [a2, a4, k1, f6, f7, f8, c1, c2, hlen]
    refine ⟨h1, h2, h3, ?_, ?_, ?_, ?_⟩
    · rw [increment_tail_next_to_clean _ (by rw [h2]; exact hNc), h2, h4, Nat.mod_add_mod]
      rfl
    · rw [increment_tail_next_to_clean _ (by rw [h3]; exact hNd), h3, h5, Nat.mod_add_mod]
      rfl
    · rw [List.map_append, h6, List.range_succ, List.map_append]
      simp [k2, h4]
    · rw [List.map_append, h7, List.range_succ, List.map_append]
      simp [k3, h5]

/-- The consumed positions of one invocation of `onic_rx_poll`. -/
theorem onic_rx_poll_positions (env : rx_poll_env) (priv : onic_private) (q : onic_rx_queue)
    (budget : Int) (r : rx_poll_result)
    (hc : q.cmpl_ring.next_to_clean < onic_ring_get_real_count q.cmpl_ring)
    (hd : q.desc_ring.next_to_clean < onic_ring_get_real_count q.desc_ring)
    (h : onic_rx_poll env priv q budget = some r) :
    r.q.qid = q.qid ∧
      onic_ring_get_real_count r.q.cmpl_ring = onic_ring_get_real_count q.cmpl_ring ∧
      onic_ring_get_real_count r.q.desc_ring = onic_ring_get_real_count q.desc_ring ∧
      r.q.cmpl_ring.next_to_clean =
        (q.cmpl_ring.next_to_clean + r.consumed.length) %
          onic_ring_get_real_count q.cmpl_ring ∧
      r.q.desc_ring.next_to_clean =
        (q.desc_ring.next_to_clean + r.consumed.length) %
          onic_ring_get_real_count q.desc_ring ∧
      r.consumed.map (fun c => c.cmpl_idx) =
        (List.range r.consumed.length).map
          (fun i => (q.cmpl_ring.next_to_clean + i) % onic_ring_get_real_count q.cmpl_ring) ∧
      r.consumed.map (fun c => c.desc_idx) =
        (List.range r.consumed.length).map
          (fun i => (q.desc_ring.next_to_clean + i) % onic_ring_get_real_count q.desc_ring) := by
  obtain ⟨s, e, hl, hr⟩ := onic_rx_poll_eq env priv q budget r h
  subst hr
  have hbegin : rx_pos_inv q (rx_poll_begin env priv q) := by
    refine ⟨rfl, rfl, rfl, ?_, ?_, ?_, ?_⟩
    · simp [rx_poll_begin, Nat.mod_eq_of_lt hc]
    · simp [rx_poll_begin, Nat.mod_eq_of_lt hd]
    · simp [rx_poll_begin]
    · simp [rx_poll_begin]
  exact rx_poll_loop_induct env budget (rx_pos_inv q)
    (fun s hs _ => rx_pos_inv_step env budget q (by omega) (by omega) s hs) _ _ _ _ hbegin hl

/-- The work counter at the loop exit is the number of consumed entries. -/
theorem rx_poll_loop_work (env : rx_poll_env) (priv : onic_private) (q : onic_rx_queue)
    (budget : Int) (s : rx_poll_state) (e : rx_exit)
    (h : rx_poll_loop env budget (max budget 1).toNat (rx_poll_begin env priv q) =
      some (s, e)) :
    s.work = s.consumed.length ∧
      (e = rx_exit.out_of_budget → event.napi_reschedule ∈ s.trace) := by
  obtain ⟨s', e', hl, h1, _, h3⟩ := rx_poll_loop_spec env budget (max budget 1).toNat
    (rx_poll_begin env priv q) (by simp [rx_poll_begin])
    (by simp [rx_poll_begin]) (by simp [rx_poll_begin])
  rw [hl] at h
  simp only [Option.some.injEq, Prod.mk.injEq] at h
  obtain ⟨hs, he⟩ := h
  subst hs; subst he
  exact ⟨h1.symm, fun hb => (h3 hb).2⟩

theorem cmpl_tails_idle_calls (tr : List event) :
    cmpl_tails (idle_calls tr) = cmpl_tails tr := by
  induction tr with
  | nil => rfl
  | cons e tr ih =>
    simp only [cmpl_tails, idle_calls] at ih ⊢
    cases e <;> simp [List.filter_cons, event.is_idle_call, event.cmpl_tail, ih]

/-- The idle-branch calls of one invocation of `onic_rx_poll`: none when no
idle branch is taken, otherwise `napi_complete_done` with the work count and
then one `onic_set_completion_tail` with the consumer index and re-arm flag 1. -/
theorem onic_rx_poll_idle_calls (env : rx_poll_env) (priv : onic_private)
    (q : onic_rx_queue) (budget : Int) (r : rx_poll_result)
    (h : onic_rx_poll env priv q budget = some r) :
    idle_calls r.trace =
        (if rx_idle_branch env r = 0 then []
         else [event.napi_complete_done r.consumed.length,
               event.onic_set_completion_tail r.q.qid r.q.cmpl_ring.next_to_clean 1]) ∧
      ((r.exit = rx_exit.caught_up ∧ r.q.cmpl_ring.next_to_clean = env.cmpl_stat.pidx) ∨
        ((r.exit = rx_exit.alloc_failed ∨ r.exit = rx_exit.deliver_failed) ∧
          r.q.cmpl_ring.next_to_clean ≠ env.cmpl_stat.pidx) ∨
        r.exit = rx_exit.out_of_budget) ∧
      (r.exit = rx_exit.out_of_budget → event.napi_reschedule ∈ r.trace) := by
  obtain ⟨s, e, hl, hr⟩ := onic_rx_poll_eq env priv q budget r h
  have hi := rx_poll_loop_idle env priv q budget _ s e hl
  have hx := rx_poll_loop_exit env budget _ _ s e hl
  obtain ⟨hw, hres⟩ := rx_poll_loop_work env priv q budget s e hl
  have hf := rx_poll_finish_idle env s e
  rw [hi, List.nil_append, hw] at hf
  subst hr
  refine ⟨hf, hx, fun hb => ?_⟩
  have hm := hres hb
  simp only [rx_poll_finish]
  exact List.mem_append_left _ hm

/-- C22: an invocation of `onic_rx_poll` that stops because the work counter
reached the budget calls neither `onic_set_completion_tail` nor
`napi_complete_done`, has rescheduled the poll context, and leaves both
consumer indices advanced by the number `K` of entries it consumed, which are
the `K` consecutive positions from the indices it started with; an invocation
that follows on the state it left consumes the positions that come next, so
the positions of both together are consecutive and, when they are no more than
the usable capacity, pairwise distinct. -/
theorem C22_budget_exit_resumes (env : rx_poll_env) (priv : onic_private)
    (q : onic_rx_queue) (budget : Int) (r : rx_poll_result)
    (hc : q.cmpl_ring.next_to_clean < onic_ring_get_real_count q.cmpl_ring)
    (hd : q.desc_ring.next_to_clean < onic_ring_get_real_count q.desc_ring)
    (h : onic_rx_poll env priv q budget = some r)
    (hexit : r.exit = rx_exit.out_of_budget) :
    idle_calls r.trace = [] ∧ cmpl_tails r.trace = [] ∧
      event.napi_reschedule ∈ r.trace ∧
      r.q.cmpl_ring.next_to_clean =
        (q.cmpl_ring.next_to_clean + r.consumed.length) %
          onic_ring_get_real_count q.cmpl_ring ∧
      r.q.desc_ring.next_to_clean =
        (q.desc_ring.next_to_clean + r.consumed.length) %
          onic_ring_get_real_count q.desc_ring ∧
      ∀ (env2 : rx_poll_env) (budget2 : Int) (r2 : rx_poll_result),
        onic_rx_poll env2 r.priv r.q budget2 = some r2 →
        (r.consumed ++ r2.consumed).map (fun c => c.cmpl_idx) =
            (List.range (r.consumed.length + r2.consumed.length)).map
              (fun i => (q.cmpl_ring.next_to_clean + i) %
                onic_ring_get_real_count q.cmpl_ring) ∧
          (r.consumed ++ r2.consumed).map (fun c => c.desc_idx) =
            (List.range (r.consumed.length + r2.consumed.length)).map
              (fun i => (q.desc_ring.next_to_clean + i) %
                onic_ring_get_real_count q.desc_ring) ∧
          (r.consumed.length + r2.consumed.length ≤ onic_ring_get_real_count q.cmpl_ring →
            ((r.consumed ++ r2.consumed).map (fun c => c.cmpl_idx)).Nodup) := by
  obtain ⟨hidle, _, hres⟩ := onic_rx_poll_idle_calls env priv q budget r h
  have hb : rx_idle_branch env r = 0 := by simp [rx_idle_branch, hexit]
  rw [if_pos hb] at hidle
  obtain ⟨_, p2, p3, p4, p5, p6, p7⟩ := onic_rx_poll_positions env priv q budget r hc hd h
  refine ⟨hidle, ?_, hres hexit, p4, p5, ?_⟩
  · rw [← cmpl_tails_idle_calls, hidle]; rfl
  · intro env2 budget2 r2 h2
    have hNc : 1 ≤ onic_ring_get_real_count q.cmpl_ring := by omega
    have hNd : 1 ≤ onic_ring_get_real_count q.desc_ring := by omega
    obtain ⟨_, _, _, _, _, s6, s7⟩ := onic_rx_poll_positions env2 r.priv r.q budget2 r2
      (by rw [p2, p4]; exact Nat.mod_lt _ hNc) (by rw [p3, p5]; exact Nat.mod_lt _ hNd) h2
    rw [p2, p4] at s6
    rw [p3, p5] at s7
    have e6 : (r.consumed ++ r2.consumed).map (fun c => c.cmpl_idx) =
        (List.range (r.consumed.length + r2.consumed.length)).map
          (fun i => (q.cmpl_ring.next_to_clean + i) %
            onic_ring_get_real_count q.cmpl_ring) := by
      rw [List.map_append, p6, s6, List.range_add, List.map_append, List.map_map]
      congr 1
      apply List.map_congr_left
      intro i _
      simp only [Function.comp, Nat.mod_add_mod, Nat.add_assoc]
    have e7 : (r.consumed ++ r2.consumed).map (fun c => c.desc_idx) =
        (List.range (r.consumed.length + r2.consumed.length)).map
          (fun i => (q.desc_ring.next_to_clean + i) %
            onic_ring_get_real_count q.desc_ring) := by
      rw [List.map_append, p7, s7, List.range_add, List.map_append, List.map_map]
      congr 1
      apply List.map_congr_left
      intro i _
      simp only [Function.comp, Nat.mod_add_mod, Nat.add_assoc]
    refine ⟨e6, e7, fun hle => ?_⟩
    rw [e6]
    exact ring_positions_nodup _ _ _ hle

theorem C22_budget_exit_resumes_witness :
    ∃ r, onic_rx_poll rx_env_two priv_rx_demo rxq_demo 1 = some r ∧
      r.exit = rx_exit.out_of_budget ∧ idle_calls r.trace = [] ∧ cmpl_tails r.trace = [] ∧
      event.napi_reschedule ∈ r.trace ∧ r.q.cmpl_ring.next_to_clean = 1 ∧
      r.q.desc_ring.next_to_clean = 1 := by
  obtain ⟨r, hr⟩ := Option.isSome_iff_exists.1
    (show (onic_rx_poll rx_env_two priv_rx_demo rxq_demo 1).isSome = true by decide)
  have hexit : r.exit = rx_exit.out_of_budget :=
    option_map_at _ (fun r => r.exit) _ _ hr (by decide)
  have hlen : r.consumed.length = 1 :=
    option_map_at _ (fun r => r.consumed.length) _ _ hr (by decide)
  obtain ⟨h1, h2, h3, h4, h5, _⟩ :=
    C22_budget_exit_resumes rx_env_two priv_rx_demo rxq_demo 1 r (by decide) (by decide) hr
      hexit
  rw [hlen] at h4 h5
  exact ⟨r, hr, hexit, h1, h2, h3, h4.trans (by decide), h5.trans (by decide)⟩

/-- C23 with two completions pending and budget 2: the second entry brings the
consumer index to the producer index and the work counter to the budget in the
same iteration, the loop is left through `goto out_of_budget`, and neither
`napi_complete_done` nor `onic_set_completion_tail` is called. -/
theorem C23_budget_coincides_counterexample :
    ∃ r, onic_rx_poll rx_env_two priv_rx_demo rxq_demo 2 = some r ∧
      r.q.cmpl_ring.next_to_clean = rx_env_two.cmpl_stat.pidx ∧
      r.exit = rx_exit.out_of_budget ∧ cmpl_tails r.trace = [] ∧ idle_calls r.trace = [] := by
  obtain ⟨r, hr⟩ := Option.isSome_iff_exists.1
    (show (onic_rx_poll rx_env_two priv_rx_demo rxq_demo 2).isSome = true by decide)
  exact ⟨r, hr,
    option_map_at _ (fun r => r.q.cmpl_ring.next_to_clean) _ _ hr (by decide),
    option_map_at _ (fun r => r.exit) _ _ hr (by decide),
    option_map_at _ (fun r => cmpl_tails r.trace) _ _ hr (by decide),
    option_map_at _ (fun r => idle_calls r.trace) _ _ hr (by decide)⟩

/-- C23, amended to the exit through the loop condition: when the loop of
`onic_rx_poll` is left because its condition is false (also when it finds no
new completion), the consumer index equals the producer index, and the calls
of the idle branches are exactly `napi_complete_done` with the work count
followed by one `onic_set_completion_tail` with the queue id, the consumer
index and re-arm flag 1. -/
theorem C23_caught_up_publishes_tail (env : rx_poll_env) (priv : onic_private)
    (q : onic_rx_queue) (budget : Int) (r : rx_poll_result)
    (hc : q.cmpl_ring.next_to_clean < onic_ring_get_real_count q.cmpl_ring)
    (hd : q.desc_ring.next_to_clean < onic_ring_get_real_count q.desc_ring)
    (h : onic_rx_poll env priv q budget = some r)
    (hexit : r.exit = rx_exit.caught_up) :
    r.q.cmpl_ring.next_to_clean = env.cmpl_stat.pidx ∧
      idle_calls r.trace =
        [event.napi_complete_done r.consumed.length,
         event.onic_set_completion_tail q.qid r.q.cmpl_ring.next_to_clean 1] ∧
      cmpl_tails r.trace = [(q.qid, r.q.cmpl_ring.next_to_clean, 1)] ∧
      (r.ret : Int) = r.consumed.length := by
  obtain ⟨hidle, hx, _⟩ := onic_rx_poll_idle_calls env priv q budget r h
  obtain ⟨p1, _⟩ := onic_rx_poll_positions env priv q budget r hc hd h
  obtain ⟨r', hr', hret, _⟩ := onic_rx_poll_returns env priv q budget
  rw [h] at hr'
  simp only [Option.some.injEq] at hr'
  subst hr'
  have hp : r.q.cmpl_ring.next_to_clean = env.cmpl_stat.pidx := by
    rcases hx with ⟨_, hp⟩ | ⟨he, _⟩ | he
    · exact hp
    · rw [hexit] at he
      rcases he with he | he <;> exact absurd he (by decide)
    · rw [hexit] at he
      exact absurd he (by decide)
  have hb : rx_idle_branch env r ≠ 0 := by simp [rx_idle_branch, hexit, hp]
  rw [if_neg hb, p1] at hidle
  refine ⟨hp, hidle, ?_, hret⟩
  rw [← cmpl_tails_idle_calls, hidle]
  rfl

theorem C23_caught_up_publishes_tail_witness :
    ∃ r, onic_rx_poll rx_env_two priv_rx_demo rxq_demo 64 = some r ∧
      r.exit = rx_exit.caught_up ∧ r.q.cmpl_ring.next_to_clean = 2 ∧
      idle_calls r.trace =
        [event.napi_complete_done 2, event.onic_set_completion_tail 0 2 1] ∧
      cmpl_tails r.trace = [(0, 2, 1)] := by
  obtain ⟨r, hr⟩ := Option.isSome_iff_exists.1
    (show (onic_rx_poll rx_env_two priv_rx_demo rxq_demo 64).isSome = true by decide)
  have hexit : r.exit = rx_exit.caught_up :=
    option_map_at _ (fun r => r.exit) _ _ hr (by decide)
  have hlen : r.consumed.length = 2 :=
    option_map_at _ (fun r => r.consumed.length) _ _ hr (by decide)
  obtain ⟨h1, h2, h3, _⟩ :=
    C23_caught_up_publishes_tail rx_env_two priv_rx_demo rxq_demo 64 r (by decide)
      (by decide) hr hexit
  have hntc : r.q.cmpl_ring.next_to_clean = 2 := h1
  rw [hntc, hlen] at h2
  rw [hntc] at h3
  exact ⟨r, hr, hexit, hntc, h2, h3⟩

/-- C27: in an invocation of `onic_rx_poll` at most one idle branch is taken
and at most one completion tail is published; the calls of the taken branch
are `napi_complete_done` and one `onic_set_completion_tail`.  When the loop is
left with its condition false the first branch is taken, and the first branch
is taken only then; the second branch is taken only when the loop was left by
`break` (packet allocation or delivery failure) with the consumer index 0 and
the producer index different from 0; the budget exit takes neither. -/
theorem C27_idle_branches_exclusive (env : rx_poll_env) (priv : onic_private)
    (q : onic_rx_queue) (budget : Int) (r : rx_poll_result)
    (h : onic_rx_poll env priv q budget = some r) :
    (cmpl_tails r.trace).length ≤ 1 ∧
      idle_calls r.trace =
        (if rx_idle_branch env r = 0 then []
         else [event.napi_complete_done r.consumed.length,
               event.onic_set_completion_tail r.q.qid r.q.cmpl_ring.next_to_clean 1]) ∧
      (r.exit = rx_exit.caught_up ↔ rx_idle_branch env r = 1) ∧
      (rx_idle_branch env r = 2 →
        (r.exit = rx_exit.alloc_failed ∨ r.exit = rx_exit.deliver_failed) ∧
          r.q.cmpl_ring.next_to_clean = 0 ∧ env.cmpl_stat.pidx ≠ 0) ∧
      (r.exit = rx_exit.out_of_budget → rx_idle_branch env r = 0) := by
  obtain ⟨hidle, hx, _⟩ := onic_rx_poll_idle_calls env priv q budget r h
  refine ⟨?_, hidle, ?_, ?_, ?_⟩
  · rw [← cmpl_tails_idle_calls, hidle]
    split_ifs <;> simp [cmpl_tails, event.cmpl_tail]
  · rcases hx with ⟨he, hp⟩ | ⟨he, hp⟩ | he
    · simp [rx_idle_branch, he, hp]
    · rcases he with he | he <;> simp only [rx_idle_branch, he] <;>
        split_ifs <;> simp_all
    · simp [rx_idle_branch, he]
  · intro hb
    rcases hx with ⟨he, hp⟩ | ⟨he, hp⟩ | he
    · simp [rx_idle_branch, he, hp] at hb
    · simp only [rx_idle_branch] at hb
      split_ifs at hb with h1 h2
      exact ⟨he, h2, fun h0 => hp (by rw [h2, h0])⟩
    · simp [rx_idle_branch, he] at hb
  · intro he
    simp [rx_idle_branch, he]

theorem C27_idle_branches_exclusive_witness :
    ∃ r, onic_rx_poll rx_env_no_skb priv_rx_demo rxq_demo 64 = some r ∧
      rx_idle_branch rx_env_no_skb r = 2 ∧ r.exit = rx_exit.alloc_failed ∧
      r.q.cmpl_ring.next_to_clean = 0 ∧ rx_env_no_skb.cmpl_stat.pidx ≠ 0 ∧
      (cmpl_tails r.trace).length ≤ 1 := by
  obtain ⟨r, hr⟩ := Option.isSome_iff_exists.1
    (show (onic_rx_poll rx_env_no_skb priv_rx_demo rxq_demo 64).isSome = true by decide)
  have hb : rx_idle_branch rx_env_no_skb r = 2 :=
    option_map_at _ (fun r => rx_idle_branch rx_env_no_skb r) _ _ hr (by decide)
  have hexit : r.exit = rx_exit.alloc_failed :=
    option_map_at _ (fun r => r.exit) _ _ hr (by decide)
  obtain ⟨h1, _, _, h4, _⟩ :=
    C27_idle_branches_exclusive rx_env_no_skb priv_rx_demo rxq_demo 64 r hr
  exact ⟨r, hr, hb, hexit, (h4 hb).2.1, (h4 hb).2.2, h1⟩

/-! ## Packet allocation failure: proofs -/

/-- An iteration with verdict Pass whose `napi_alloc_skb` fails leaves the
loop by `break`: the queue (both consumer indices), the consumed entries and
the trace are as before, no counter changes except that `xdp_passed` has
already been incremented when a program is attached. -/
theorem rx_iter_alloc_failed (env : rx_poll_env) (budget : Int) (s : rx_poll_state)
    (hv : rx_verdict env s = ONIC_XDP_PASS) (ha : env.skb_alloc s.work = none) :
    ∃ s1, rx_poll_iter env budget s = rx_iter_outcome.brk s1 rx_exit.alloc_failed ∧
      s1.q = s.q ∧ s1.consumed = s.consumed ∧ s1.work = s.work ∧ s1.trace = s.trace ∧
      s1.priv.netdev_stats = s.priv.netdev_stats ∧
      s1.priv.xdp_stats =
        { s.priv.xdp_stats with
          xdp_passed := s.priv.xdp_stats.xdp_passed + (if s.priv.prog.isSome then 1 else 0) } := by
  have hd : rx_dispatch env s ONIC_XDP_PASS =
      { priv := if s.priv.prog.isSome then
          { s.priv with xdp_stats := { s.priv.xdp_stats with
              xdp_passed := s.priv.xdp_stats.xdp_passed + 1 } }
          else s.priv
        trace := [], brk := some rx_exit.alloc_failed } := by
    unfold rx_dispatch
    simp only [if_true, ha]
  rw [rx_poll_iter_eq, hv, hd]
  refine ⟨_, rfl, rfl, rfl, rfl, by simp, ?_, ?_⟩
  · simp only []
    split_ifs <;> rfl
  · simp only []
    split_ifs <;> rfl

/-- C21 with three completions pending and program 7 attached returning
`XDP_PASS`, `napi_alloc_skb` failing for the second packet: the invocation
returns 1 after the first packet; both consumer indices stay at 1, before the
entry of the failed packet, the third entry is not processed, `xdp_passed` is
2 although one packet was delivered, every other counter of the fast path is
0, and the interface counters show one received packet and nothing dropped;
the poll context is neither completed nor rescheduled. -/
theorem C21_alloc_failure_leaves_loop :
    ∃ r, onic_rx_poll rx_env_skb_fail_second priv_rx_prog rxq_demo 64 = some r ∧
      r.exit = rx_exit.alloc_failed ∧ r.ret = 1 ∧ r.consumed.length = 1 ∧
      r.q.cmpl_ring.next_to_clean = 1 ∧ r.q.desc_ring.next_to_clean = 1 ∧
      rx_env_skb_fail_second.cmpl_stat.pidx = 3 ∧
      r.priv.xdp_stats =
        { xdp_passed := 2, xdp_dropped := 0, xdp_redirected := 0, xdp_txed := 0
          xdp_tx_dropped := 0, xdp_tx_errors := 0 } ∧
      r.priv.netdev_stats =
        { rx_packets := 1, rx_bytes := 60, tx_packets := 0, tx_bytes := 0, tx_dropped := 0
          tx_errors := 0 } ∧
      stack_deliveries r.trace = [500] ∧ pool_puts r.trace = [100] ∧
      idle_calls r.trace = [] ∧ r.trace.count event.napi_reschedule = 0 := by
  obtain ⟨r, hr⟩ := Option.isSome_iff_exists.1
    (show (onic_rx_poll rx_env_skb_fail_second priv_rx_prog rxq_demo 64).isSome = true
      by decide)
  exact ⟨r, hr,
    option_map_at _ (fun r => r.exit) _ _ hr (by decide),
    option_map_at _ (fun r => r.ret) _ _ hr (by decide),
    option_map_at _ (fun r => r.consumed.length) _ _ hr (by decide),
    option_map_at _ (fun r => r.q.cmpl_ring.next_to_clean) _ _ hr (by decide),
    option_map_at _ (fun r => r.q.desc_ring.next_to_clean) _ _ hr (by decide),
    by decide,
    option_map_at _ (fun r => r.priv.xdp_stats) _ _ hr (by decide),
    option_map_at _ (fun r => r.priv.netdev_stats) _ _ hr (by decide),
    option_map_at _ (fun r => stack_deliveries r.trace) _ _ hr (by decide),
    option_map_at _ (fun r => pool_puts r.trace) _ _ hr (by decide),
    option_map_at _ (fun r => idle_calls r.trace) _ _ hr (by decide),
    option_map_at _ (fun r => r.trace.count event.napi_reschedule) _ _ hr (by decide)⟩

/-! ## Posted-descriptor count: proofs -/

/-- The head a refill sets, with the `u16` wrap of `next_to_use += 256` made
explicit. -/
theorem rx_refill_head_cases (q : onic_rx_queue)
    (hu : q.desc_ring.next_to_use < onic_ring_get_real_count q.desc_ring)
    (hN : 256 ≤ onic_ring_get_real_count q.desc_ring) :
    (onic_rx_refill q).1.desc_ring.next_to_use =
        (if q.desc_ring.next_to_use + 256 < 65536 then
          (if q.desc_ring.next_to_use + 256 < onic_ring_get_real_count q.desc_ring then
            q.desc_ring.next_to_use + 256
           else q.desc_ring.next_to_use + 256 - onic_ring_get_real_count q.desc_ring)
         else q.desc_ring.next_to_use + 256 - 65536) ∧
      (onic_rx_refill q).1.desc_ring.next_to_clean = q.desc_ring.next_to_clean ∧
      onic_ring_get_real_count (onic_rx_refill q).1.desc_ring =
        onic_ring_get_real_count q.desc_ring := by
  have hlt := real_count_lt q.desc_ring
  have hval : (((q.desc_ring.next_to_use + ONIC_RX_DESC_STEP) % 65536) %
      onic_ring_get_real_count q.desc_ring) % 65536 =
      (if q.desc_ring.next_to_use + 256 < 65536 then
          (if q.desc_ring.next_to_use + 256 < onic_ring_get_real_count q.desc_ring then
            q.desc_ring.next_to_use + 256
           else q.desc_ring.next_to_use + 256 - onic_ring_get_real_count q.desc_ring)
         else q.desc_ring.next_to_use + 256 - 65536) := by
    rw [mod_real_count_u16 q.desc_ring (by omega)]
    simp only [ONIC_RX_DESC_STEP]
    split_ifs with h1 h2
    · rw [Nat.mod_eq_of_lt h1, Nat.mod_eq_of_lt h2]
    · rw [Nat.mod_eq_of_lt h1, Nat.mod_eq_sub_mod (by omega), Nat.mod_eq_of_lt (by omega)]
    · have h3 : (q.desc_ring.next_to_use + 256) % 65536 =
          q.desc_ring.next_to_use + 256 - 65536 := by omega
      rw [h3, Nat.mod_eq_of_lt (by omega)]
  refine ⟨?_, rfl, ?_⟩
  · unfold onic_rx_refill
    simp only []
    exact hval
  · simp [onic_rx_refill, onic_ring_get_real_count]

/-- The descriptor ring after the tail advance and the watermark refill of one
iteration, on a ring of usable capacity at least 384 with between 128 and 383
descriptors posted: the posted count is again between 128 and 383, it is not
below the count right after the tail advance, and the ring is not full when
`onic_ring_full` is tested after the tail advance. -/
theorem rx_advanced_posted_bounds (s : rx_poll_state) (v : Nat)
    (hN : 384 ≤ onic_ring_get_real_count s.q.desc_ring)
    (hu : s.q.desc_ring.next_to_use < onic_ring_get_real_count s.q.desc_ring)
    (hc : s.q.desc_ring.next_to_clean < onic_ring_get_real_count s.q.desc_ring)
    (hlo : 128 ≤ ring_outstanding s.q.desc_ring)
    (hhi : ring_outstanding s.q.desc_ring ≤ 383) :
    onic_ring_get_real_count (rx_poll_advanced s v).q.desc_ring =
        onic_ring_get_real_count s.q.desc_ring ∧
      (rx_poll_advanced s v).q.desc_ring.next_to_use <
        onic_ring_get_real_count s.q.desc_ring ∧
      (rx_poll_advanced s v).q.desc_ring.next_to_clean <
        onic_ring_get_real_count s.q.desc_ring ∧
      128 ≤ ring_outstanding (rx_poll_advanced s v).q.desc_ring ∧
      ring_outstanding (rx_poll_advanced s v).q.desc_ring ≤ 383 ∧
      ring_outstanding (onic_ring_increment_tail s.q.desc_ring) =
        ring_outstanding s.q.desc_ring - 1 ∧
      ring_outstanding (onic_ring_increment_tail s.q.desc_ring) ≤
        ring_outstanding (rx_poll_advanced s v).q.desc_ring ∧
      onic_ring_full (onic_ring_increment_tail s.q.desc_ring) = false := by
  have hN2 := real_count_lt s.q.desc_ring
  have hN1 : 1 ≤ onic_ring_get_real_count s.q.desc_ring := by omega
  have hrc := real_count_increment_tail s.q.desc_ring
  have hntu1 : (onic_ring_increment_tail s.q.desc_ring).next_to_use =
      s.q.desc_ring.next_to_use := rfl
  have hntc1 : (onic_ring_increment_tail s.q.desc_ring).next_to_clean =
      if s.q.desc_ring.next_to_clean + 1 < onic_ring_get_real_count s.q.desc_ring then
        s.q.desc_ring.next_to_clean + 1 else 0 := by
    rw [increment_tail_next_to_clean _ hN1]
    split_ifs with h1
    · exact Nat.mod_eq_of_lt h1
    · have : s.q.desc_ring.next_to_clean + 1 = onic_ring_get_real_count s.q.desc_ring := by
        omega
      rw [this, Nat.mod_self]
  have hu1 : (onic_ring_increment_tail s.q.desc_ring).next_to_use <
      onic_ring_get_real_count (onic_ring_increment_tail s.q.desc_ring) := by
    rw [hrc]; exact hu
  have hc1 : (onic_ring_increment_tail s.q.desc_ring).next_to_clean <
      onic_ring_get_real_count (onic_ring_increment_tail s.q.desc_ring) := by
    rw [hrc, hntc1]; split_ifs <;> omega
  have hp := ring_outstanding_eq s.q.desc_ring hu hc
  have hp1 := ring_outstanding_eq (onic_ring_increment_tail s.q.desc_ring) hu1 hc1
  rw [hrc, hntu1] at hp1
  have hw := rx_high_watermark_iff
    { s.q with desc_ring := onic_ring_increment_tail s.q.desc_ring } hu1 hc1
  obtain ⟨r1, r2, r3⟩ := rx_refill_head_cases
    { s.q with desc_ring := onic_ring_increment_tail s.q.desc_ring } hu1 (by rw [hrc]; omega)
  simp only [hrc, hntu1] at r1 r2 r3
  obtain ⟨_, _, _, _, _, _, f7, f8⟩ := rx_advanced_fields s v
  have hd := rx_advanced_desc_head s v
  have hpm : ring_outstanding (onic_ring_increment_tail s.q.desc_ring) =
      ring_outstanding s.q.desc_ring - 1 := by
    rw [hp1, hp, hntc1]
    rw [hp] at hlo hhi
    split_ifs at hlo hhi ⊢ <;> omega
  have hfull : onic_ring_full (onic_ring_increment_tail s.q.desc_ring) = false := by
    cases hb : onic_ring_full (onic_ring_increment_tail s.q.desc_ring) with
    | false => rfl
    | true =>
      have := (ring_full_iff _ hu1 hc1).1 hb
      rw [hrc, hpm] at this
      omega
  have hu' : (rx_poll_advanced s v).q.desc_ring.next_to_use <
      onic_ring_get_real_count (rx_poll_advanced s v).q.desc_ring := by
    rw [f8, hd]
    split_ifs
    · rw [r1]; split_ifs <;> omega
    · exact hu
  have hc' : (rx_poll_advanced s v).q.desc_ring.next_to_clean <
      onic_ring_get_real_count (rx_poll_advanced s v).q.desc_ring := by
    rw [f8, f7]; rw [hrc] at hc1; exact hc1
  have hp' := ring_outstanding_eq (rx_poll_advanced s v).q.desc_ring hu' hc'
  rw [f8] at hu' hc'
  rw [f8, f7, hd] at hp'
  refine ⟨f8, hu', hc', ?_, ?_, hpm, ?_, hfull⟩
  all_goals
    rw [hp']
    by_cases hwm : onic_rx_high_watermark
        { s.q with desc_ring := onic_ring_increment_tail s.q.desc_ring } = true
    · have hlt := hw.1 hwm
      simp only [] at hlt
      rw [if_pos hwm, r1]
      rw [hpm] at hlt
      try rw [hpm]
      rw [hp] at hlo hhi hlt
      try rw [hp]
      rw [hntc1]
      split_ifs at hlo hhi hlt ⊢ <;> omega
    · have hge : ¬ ring_outstanding (onic_ring_increment_tail s.q.desc_ring) < 128 :=
        fun hlt => hwm (hw.2 hlt)
      rw [if_neg hwm]
      rw [hpm] at hge
      try rw [hpm]
      rw [hp] at hlo hhi hge
      try rw [hp]
      rw [hntc1]
      split_ifs at hlo hhi hge ⊢ <;> omega

/-- One invocation of `onic_rx_poll` keeps the posted count of a descriptor
ring of usable capacity at least 384 between 128 and 383. -/
theorem rx_poll_posted_bounds (env : rx_poll_env) (priv : onic_private) (q : onic_rx_queue)
    (budget : Int) (r : rx_poll_result)
    (hN : 384 ≤ onic_ring_get_real_count q.desc_ring)
    (hu : q.desc_ring.next_to_use < onic_ring_get_real_count q.desc_ring)
    (hc : q.desc_ring.next_to_clean < onic_ring_get_real_count q.desc_ring)
    (hlo : 128 ≤ ring_outstanding q.desc_ring) (hhi : ring_outstanding q.desc_ring ≤ 383)
    (h : onic_rx_poll env priv q budget = some r) :
    onic_ring_get_real_count r.q.desc_ring = onic_ring_get_real_count q.desc_ring ∧
      r.q.desc_ring.next_to_use < onic_ring_get_real_count q.desc_ring ∧
      r.q.desc_ring.next_to_clean < onic_ring_get_real_count q.desc_ring ∧
      128 ≤ ring_outstanding r.q.desc_ring ∧ ring_outstanding r.q.desc_ring ≤ 383 := by
  obtain ⟨s, e, hl, hr⟩ := onic_rx_poll_eq env priv q budget r h
  subst hr
  refine rx_poll_loop_induct env budget
    (fun s => onic_ring_get_real_count s.q.desc_ring = onic_ring_get_real_count q.desc_ring ∧
      s.q.desc_ring.next_to_use < onic_ring_get_real_count q.desc_ring ∧
      s.q.desc_ring.next_to_clean < onic_ring_get_real_count q.desc_ring ∧
      128 ≤ ring_outstanding s.q.desc_ring ∧ ring_outstanding s.q.desc_ring ≤ 383)
    (fun s hs _ => ?_) _ _ _ _ ⟨rfl, hu, hc, hlo, hhi⟩ hl
  obtain ⟨h1, h2, h3, h4, h5⟩ := hs
  rw [rx_poll_iter_eq]
  split
  · exact ⟨h1, h2, h3, h4, h5⟩
  · obtain ⟨_, a2, _⟩ := rx_advance_state env budget
      { s with priv := (rx_dispatch env s (rx_verdict env s)).priv
               trace := s.trace ++ (rx_dispatch env s (rx_verdict env s)).trace }
      (rx_verdict env s)
    obtain ⟨b1, b2, b3, b4, b5, _⟩ := rx_advanced_posted_bounds
      { s with priv := (rx_dispatch env s (rx_verdict env s)).priv
               trace := s.trace ++ (rx_dispatch env s (rx_verdict env s)).trace }
      (rx_verdict env s) (by rw [h1]; exact hN) (by rw [h1]; exact h2) (by rw [h1]; exact h3)
      h4 h5
    simp only [] at b1 b2 b3
    rw [a2]
    exact ⟨b1.trans h1, by rw [← h1]; exact b2, by rw [← h1]; exact b3, b4, b5⟩

/-- C26: on a receive descriptor ring of usable capacity `N ≥ 384` with both
indices inside the ring and between 128 and 383 descriptors posted (256 in the
state `onic_init_rx_queue` leaves: head 256, tail 0), a loop iteration of
`onic_rx_poll` that completes its advance leaves the capacity unchanged, both
indices inside the ring and again between 128 and 383 descriptors posted; the
head is not on the tail, the refill has not lowered the posted count (the head
did not pass the tail), and `onic_ring_full` is false where it is tested. -/
theorem C26_posted_count_bounds (env : rx_poll_env) (budget : Int) (s s' : rx_poll_state)
    (hN : 384 ≤ onic_ring_get_real_count s.q.desc_ring)
    (hu : s.q.desc_ring.next_to_use < onic_ring_get_real_count s.q.desc_ring)
    (hc : s.q.desc_ring.next_to_clean < onic_ring_get_real_count s.q.desc_ring)
    (hlo : 128 ≤ ring_outstanding s.q.desc_ring)
    (hhi : ring_outstanding s.q.desc_ring ≤ 383)
    (h : (rx_poll_iter env budget s).completed = some s') :
    ring_outstanding { s.q.desc_ring with next_to_use := 256, next_to_clean := 0 } = 256 ∧
      onic_ring_get_real_count s'.q.desc_ring = onic_ring_get_real_count s.q.desc_ring ∧
      s'.q.desc_ring.next_to_use < onic_ring_get_real_count s.q.desc_ring ∧
      s'.q.desc_ring.next_to_clean < onic_ring_get_real_count s.q.desc_ring ∧
      128 ≤ ring_outstanding s'.q.desc_ring ∧ ring_outstanding s'.q.desc_ring ≤ 383 ∧
      s'.q.desc_ring.next_to_use ≠ s'.q.desc_ring.next_to_clean ∧
      ring_outstanding (onic_ring_increment_tail s.q.desc_ring) ≤
        ring_outstanding s'.q.desc_ring ∧
      onic_ring_full (onic_ring_increment_tail s.q.desc_ring) = false := by
  obtain ⟨_, hs'⟩ := rx_iter_completed_advance env budget s s' h
  obtain ⟨_, a2, _⟩ := rx_advance_state env budget
    { s with priv := (rx_dispatch env s (rx_verdict env s)).priv
             trace := s.trace ++ (rx_dispatch env s (rx_verdict env s)).trace }
    (rx_verdict env s)
  obtain ⟨b1, b2, b3, b4, b5, _, b7, b8⟩ := rx_advanced_posted_bounds
    { s with priv := (rx_dispatch env s (rx_verdict env s)).priv
             trace := s.trace ++ (rx_dispatch env s (rx_verdict env s)).trace }
    (rx_verdict env s) hN hu hc hlo hhi
  simp only [] at b1 b2 b3 b7 b8
  have hq : s'.q = (rx_poll_advanced
      { s with priv := (rx_dispatch env s (rx_verdict env s)).priv
               trace := s.trace ++ (rx_dispatch env s (rx_verdict env s)).trace }
      (rx_verdict env s)).q := by rw [hs', a2]
  rw [hq]
  refine ⟨?_, b1, b2, b3, b4, b5, ?_, b7, b8⟩
  · have hrc : onic_ring_get_real_count
        { s.q.desc_ring with next_to_use := 256, next_to_clean := 0 } =
        onic_ring_get_real_count s.q.desc_ring := rfl
    unfold ring_outstanding
    rw [hrc]
    simp only [Nat.cast_ofNat, Nat.cast_zero, sub_zero]
    exact Int.emod_eq_of_lt (by omega) (by omega)
  · intro heq
    have hp := ring_outstanding_eq _ (by rw [b1]; exact b2) (by rw [b1]; exact b3)
    rw [hp, heq] at b4
    simp at b4

theorem C26_posted_count_bounds_witness :
    ∃ s', (rx_poll_iter rx_env_drop129 64 rx_state_384).completed = some s' ∧
      ring_outstanding rx_state_384.q.desc_ring = 256 ∧
      128 ≤ ring_outstanding s'.q.desc_ring ∧ ring_outstanding s'.q.desc_ring ≤ 383 ∧
      onic_ring_full (onic_ring_increment_tail rx_state_384.q.desc_ring) = false := by
  obtain ⟨s', hs'⟩ := Option.isSome_iff_exists.1
    (show ((rx_poll_iter rx_env_drop129 64 rx_state_384).completed).isSome = true by decide)
  obtain ⟨_, _, _, _, h5, h6, _, _, h9⟩ :=
    C26_posted_count_bounds rx_env_drop129 64 rx_state_384 s' (by decide) (by decide)
      (by decide) (by decide) (by decide) hs'
  exact ⟨s', hs', by decide, h5, h6, h9⟩

/-! ## Transmit-queue capacity and program exchange: proofs -/

/-- A transmit queue installed by `onic_init_tx_queue` has buffer and
descriptor arrays of `count` entries, the capacity computed while `ring->wb`
was NULL, and reports the usable capacity `count - 1` (in `u16`). -/
theorem init_tx_queue_capacity (env : open_env) (dev : onic_netdev) (qid : Nat)
    (q : onic_tx_queue)
    (h : (onic_init_tx_queue env dev qid).dev.priv.tx_queue.getD qid none = some q) :
    q.buffer.length = env.tx_ring_count % 65536 ∧
      q.desc.length = env.tx_ring_count % 65536 ∧
      q.ring.count = env.tx_ring_count % 65536 ∧
      onic_ring_get_real_count q.ring = (env.tx_ring_count % 65536 + 65535) % 65536 := by
  have hclr : ∀ d : onic_netdev,
      (onic_clear_tx_queue d qid).1.priv.tx_queue.getD qid none = none := by
    intro d
    rw [clear_tx_queue_slot, if_pos rfl]
  have hinst : ∀ (d : onic_netdev) (q0 : onic_tx_queue),
      (d.priv.tx_queue.set qid (some q0)).getD qid none = some q → q = q0 := by
    intro d q0 hq
    have hl := list_getD_some_lt _ _ _ hq
    rw [List.length_set] at hl
    rw [list_getD_set_self _ _ _ _ hl] at hq
    exact (Option.some.inj hq).symm
  cases hslot : dev.priv.tx_queue.getD qid none with
  | none =>
    simp only [onic_init_tx_queue, hslot] at h
    split_ifs at h
    · rw [hslot] at h; exact absurd h (by simp)
    · rw [hclr] at h; exact absurd h (by simp)
    · rw [hclr] at h; exact absurd h (by simp)
    · rw [hclr] at h; exact absurd h (by simp)
    · have := hinst _ _ h
      subst this
      simp [onic_ring_get_real_count]
  | some v =>
    simp only [onic_init_tx_queue, hslot] at h
    split_ifs at h
    · rw [hclr] at h; exact absurd h (by simp)
    · rw [hclr] at h; exact absurd h (by simp)
    · rw [hclr] at h; exact absurd h (by simp)
    · rw [hclr] at h; exact absurd h (by simp)
    · have := hinst _ _ h
      subst this
      simp [onic_ring_get_real_count]

/-- C24 for a transmit ring of 5 slots: `onic_init_tx_queue` succeeds and
installs a queue whose in-flight buffer array and descriptor array have 5
entries, the capacity computed before `ring->wb` was set, while
`onic_ring_get_real_count` reports 4 for the installed ring. -/
theorem C24_tx_capacity_before_writeback :
    (onic_init_tx_queue open_env_ok dev_two 0).rv = 0 ∧
      ((onic_init_tx_queue open_env_ok dev_two 0).dev.priv.tx_queue.getD 0 none).map
          (fun q => (q.ring.count, q.buffer.length, q.desc.length,
            onic_ring_get_real_count q.ring)) =
        some (5, 5, 5, 4) := by
  decide

theorem open_netdev_prog (env : open_env) (dev : onic_netdev) :
    (onic_open_netdev env dev).dev.priv.prog = dev.priv.prog := by
  obtain ⟨t1, _⟩ := init_tx_loop_spec env dev.priv.num_tx_queues 0 dev
  obtain ⟨r1, _⟩ := init_rx_loop_spec env
    (onic_init_tx_loop env dev.priv.num_tx_queues 0 dev).dev.num_rx_queues 0
    (onic_init_tx_loop env dev.priv.num_tx_queues 0 dev).dev
  simp only [onic_open_netdev, onic_init_tx_resource, onic_init_rx_resource]
  split_ifs
  · rw [(stop_netdev_spec _).2.2.2.1]; exact t1.2.1
  · rw [(stop_netdev_spec _).2.2.2.1, r1.1]; exact t1.2.1
  · show (onic_init_rx_loop env _ 0 _).dev.priv.prog = dev.priv.prog
    rw [r1.1]; exact t1.2.1

/-- The program attached after `onic_xdp_setup`: the requested one when a
program is attached where none was or the attached one is removed; the one
attached before in every other case, also when a different program was
requested. -/
theorem xdp_setup_prog (env : open_env) (dev : onic_netdev) (prog : Option Nat) :
    (onic_xdp_setup env dev prog).dev.priv.prog =
      if (onic_xdp_setup env dev prog).rv = 0 ∧ dev.priv.prog.isSome ≠ prog.isSome then prog
      else dev.priv.prog := by
  unfold onic_xdp_setup
  by_cases hmtu : prog.isSome = true ∧ dev.mtu > ONIC_MAX_QDMA_BUF_SIZE
  · rw [if_pos hmtu]
    simp [EOPNOTSUPP]
  · rw [if_neg hmtu]
    cases hn : (dev.priv.prog.isSome != prog.isSome) with
    | false =>
      have : dev.priv.prog.isSome = prog.isSome := by simpa using hn
      simp [this]
    | true =>
      have : dev.priv.prog.isSome ≠ prog.isSome := by simpa using hn
      simp only [if_true, this, ne_eq, not_false_eq_true, and_self]
      cases dev.running with
      | false => simp
      | true => simp [open_netdev_prog]

/-- C25 on an interface with program 7 attached and a request for program 8
(the MTU check passes), running or not: `onic_xdp_setup` returns 0 and
program 7 is still the one attached. -/
theorem C25_requested_program_not_attached :
    (onic_xdp_setup open_env_ok dev_rx_closed (some 8)).rv = 0 ∧
      (onic_xdp_setup open_env_ok dev_rx_closed (some 8)).dev.priv.prog = some 7 ∧
      (onic_xdp_setup open_env_ok dev_rx_closed (some 8)).trace = [] ∧
      (onic_xdp_setup open_env_ok dev_running_prog (some 8)).rv = 0 ∧
      (onic_xdp_setup open_env_ok dev_running_prog (some 8)).dev.priv.prog = some 7 := by
  decide

end Onic
